import Mathlib

/-!
# FZ35 electronic load control: profile selector, command protocol, staged apply

A shallow embedding of `FZ35_Battery.cpp` / `FZ35_Comm.h`.

Modelling conventions
* C `float` values are exact rationals (`ℚ`); decimal literals such as `24.20f`
  denote the decimal they spell.  `roundf` is round-half-away-from-zero.
* An Arduino `String` / C string is a Lean `String`; `toLowerCase`, `indexOf`,
  `isDigit` and `String(float, decimals)` follow the Arduino core.
* The global variables of `FZ35_Battery.cpp` (and the UI strings it writes) are the
  fields of `Globals`; a function that mutates them takes and returns a `Globals`.
  The catalog array the functions read is passed explicitly (`mods`), the compiled-in
  table being `batteryModules`.
* The serial link is a `Link`: the log of frames written and, for each coming attempt of
  `sendCommandWithConfirm`, the raw bytes its collecting loop reads. Which bytes fall into
  which attempt is decided by wall-clock timing (`millis`, `delay`), which is not modelled:
  a statement for every `Link` is a statement for every device behaviour and timing.
* Diagnostic output on the debug console (`Serial.printf`) is not modelled; the tally that
  `processPendingBattery` prints is returned as `ApplyResult.successCount`.
-/

namespace FZ35

/-! ## Arduino core primitives -/

/-- C `tolower` in the "C" locale: only `A`..`Z` change. -/
def toLowerChar (c : Char) : Char :=
  if 'A' ≤ c ∧ c ≤ 'Z' then Char.ofNat (c.toNat + 32) else c

/-- Arduino `String::toLowerCase`: `tolower` applied to every character. -/
def toLowerCase (s : String) : String := ⟨s.data.map toLowerChar⟩

/-- Arduino `isDigit` (C `isdigit`): the ASCII decimal digits. -/
def isDigit (c : Char) : Bool := decide ('0' ≤ c ∧ c ≤ '9')

/-- C `strstr` on character lists: offset (counted from `i`) of the first occurrence of
`needle` in the haystack, or `-1`. -/
def strstrFrom (needle : List Char) : List Char → Nat → Int
  | [], i => if needle.isEmpty then (i : Int) else -1
  | c :: cs, i =>
    if needle.isPrefixOf (c :: cs) then (i : Int) else strstrFrom needle cs (i + 1)

/-- Arduino `String::indexOf(const String&)` with `fromIndex = 0`:
`if (fromIndex >= len) return -1;` and otherwise the `strstr` offset. -/
def indexOf (r s : String) : Int :=
  if r.data.length ≤ 0 then -1 else strstrFrom s.data r.data 0

/-- C `roundf` on exact values: nearest integer, halfway cases away from zero. -/
def roundf (x : ℚ) : ℚ :=
  if 0 ≤ x then ((⌊x + 1 / 2⌋ : ℤ) : ℚ) else -((⌊-x + 1 / 2⌋ : ℤ) : ℚ)

/-- The integer `dtostrf` prints for `|x|` at `decimals` places: it adds
`0.5 / 10^decimals` to the magnitude and truncates. -/
def scaledMagnitude (x : ℚ) (decimals : ℕ) : ℕ :=
  (⌊|x| * (10 : ℚ) ^ decimals + 1 / 2⌋ : ℤ).toNat

/-- Decimal digits of `n`, left-padded with `0` to at least `width` characters. -/
def zeroPad (width n : ℕ) : String :=
  let d := Nat.repr n
  ⟨List.replicate (width - d.length) '0' ++ d.data⟩

/-- Arduino `String(float value, unsigned char decimalPlaces)` (via `dtostrf` with the
minimal width): optional `-`, integer part, and, when `decimals > 0`, a point followed by
exactly `decimals` digits. -/
def stringOfFloat (x : ℚ) (decimals : ℕ) : String :=
  let n := scaledMagnitude x decimals
  let sign := if x < 0 then "-" else ""
  let intPart := Nat.repr (n / 10 ^ decimals)
  if decimals = 0 then sign ++ intPart
  else sign ++ intPart ++ "." ++ zeroPad decimals (n % 10 ^ decimals)

/-! ## `FZ35_Battery.h`: profile type -/

/-- `enum class BatteryChemistry`. -/
inductive BatteryChemistry where
  | LiIon
  | LiFePO4
  | LeadAcid
  | CoinCell
  deriving DecidableEq, Repr

/-- `struct BatteryModule`: one test profile. -/
structure BatteryModule where
  name : String
  chem : BatteryChemistry
  nominalVoltage : ℚ
  capacityAh : ℚ
  maxLoadA : ℚ
  recommendedLoadA : ℚ
  lowVoltageProtect : ℚ
  overAhLimit : ℚ
  overHourLimit : String
  deriving DecidableEq, Repr

/-! ## `FZ35_Battery.cpp`: catalog, limits, globals -/

/-- The compiled-in table `batteryModules[]` (lines 23–66). -/
def batteryModules : List BatteryModule := [
  ⟨"24V Generic 5.00A", .LiIon, 24.20, 30.0, 5.10, 5.00, 18.0, 36.0, "10:00"⟩,
  ⟨"24V Lead Acid 5.00A", .LeadAcid, 24.00, 50.0, 10.00, 5.00, 21.0, 60.0, "10:00"⟩,
  ⟨"24V LiFePO4 5.00A", .LiFePO4, 24.20, 20.0, 20.00, 5.00, 20.0, 24.0, "05:00"⟩,
  ⟨"18650 Li-ion 4.2V 1.30A", .LiIon, 4.20, 2.6, 3.0, 1.30, 3.0, 3.2, "02:00"⟩,
  ⟨"21700 Li-ion 4.2V 2.00A", .LiIon, 4.20, 4.0, 5.0, 2.00, 3.0, 4.8, "02:30"⟩,
  ⟨"14500 Li-ion 4.2V 0.40A", .LiIon, 4.20, 0.8, 1.5, 0.40, 3.0, 1.0, "02:00"⟩,
  ⟨"16340 Li-ion 4.2V 0.35A", .LiIon, 4.20, 0.7, 1.5, 0.35, 3.0, 0.85, "02:00"⟩,
  ⟨"18650 LiFePO4 3.65V 0.75A", .LiFePO4, 3.65, 1.5, 3.0, 0.75, 2.5, 1.8, "02:00"⟩,
  ⟨"26650 LiFePO4 3.65V 1.65A", .LiFePO4, 3.65, 3.3, 5.0, 1.65, 2.5, 4.0, "02:30"⟩,
  ⟨"CR2 3.3V 0.16A", .CoinCell, 3.30, 0.8, 1.0, 0.16, 2.0, 1.0, "05:00"⟩,
  ⟨"CR123A 3.3V 0.30A", .CoinCell, 3.30, 1.5, 1.5, 0.30, 2.0, 1.8, "05:00"⟩,
  ⟨"AA Alkaline 1.6V 0.48A", .LeadAcid, 1.60, 2.4, 1.0, 0.48, 0.9, 3.0, "05:00"⟩,
  ⟨"AAA Alkaline 1.6V 0.24A", .LeadAcid, 1.60, 1.2, 0.5, 0.24, 0.9, 1.5, "05:00"⟩,
  ⟨"AA NiMH 1.5V 1.00A", .LeadAcid, 1.50, 2.0, 2.0, 1.00, 0.9, 2.5, "02:00"⟩,
  ⟨"AAA NiMH 1.5V 0.40A", .LeadAcid, 1.50, 0.8, 1.0, 0.40, 0.9, 1.0, "02:00"⟩,
  ⟨"PP3 9V Alkaline 0.06A", .LeadAcid, 9.60, 0.6, 0.2, 0.06, 5.4, 0.75, "10:00"⟩,
  ⟨"PP3 8.4V Li-ion 0.30A", .LiIon, 8.40, 0.6, 0.5, 0.30, 6.0, 0.75, "02:00"⟩,
  ⟨"2S LiPo 7.4V 1.10A", .LiIon, 8.40, 2.2, 5.0, 1.10, 6.0, 2.6, "02:00"⟩,
  ⟨"3S LiPo 11.1V 1.10A", .LiIon, 12.60, 2.2, 5.0, 1.10, 9.0, 2.6, "02:00"⟩,
  ⟨"4S LiPo 14.8V 1.10A", .LiIon, 16.80, 2.2, 2.0, 1.10, 12.0, 2.6, "02:00"⟩,
  ⟨"5S LiPo 18.5V 1.10A", .LiIon, 21.00, 2.2, 2.0, 1.10, 15.0, 2.6, "02:00"⟩,
  ⟨"4S LiFePO4 12.8V 5.00A", .LiFePO4, 14.60, 10.0, 5.0, 5.00, 10.0, 12.0, "02:30"⟩,
  ⟨"12V SLA 14.4V 0.70A", .LeadAcid, 14.40, 7.0, 5.0, 0.70, 10.5, 8.5, "10:00"⟩]

/-- Device rated limit `RATED_VOLTAGE_MAX = 25.0f`. -/
def RATED_VOLTAGE_MAX : ℚ := 25

/-- Device rated limit `RATED_CURRENT_MAX = 5.0f`. -/
def RATED_CURRENT_MAX : ℚ := 5

/-- Device rated limit `RATED_POWER_MAX = 35.0f`. -/
def RATED_POWER_MAX : ℚ := 35

/-- The mutable globals the selector reads and writes: `currentBattery`, the UI strings
of the main sketch, `TEST_LOAD`, the frozen `pending*` values, `pendingBatteryIdx`
(`-1` = none) and `pendingWasClamped`. -/
structure Globals where
  currentBattery : BatteryModule
  OVP : String
  OCP : String
  OPP : String
  LVP : String
  OAH : String
  OHP : String
  TEST_LOAD : String
  pendingOVP : ℚ
  pendingOCP : ℚ
  pendingOPP : ℚ
  pendingLVP : ℚ
  pendingOAH : ℚ
  pendingOHP : String
  pendingBatteryIdx : Int
  pendingWasClamped : Bool
  deriving DecidableEq, Repr

/-- Local variables `reqOVP`, `reqOCP`, `reqOPP`, `clamped` of `setActiveBattery`. -/
structure Request where
  reqOVP : ℚ
  reqOCP : ℚ
  reqOPP : ℚ
  clamped : Bool
  deriving DecidableEq, Repr

/-- Lines 129–152 of `setActiveBattery`: requested values from the profile, voltage clamp,
current clamp, power-budget reduction of the current, then quantisation of the voltage to
0.1 V and recomputation of the power. -/
def clampRequest (b : BatteryModule) : Request :=
  let reqOVP := b.nominalVoltage
  let reqOCP := b.maxLoadA
  let clamped := false
  -- clamp voltage
  let vHigh : Bool := decide (reqOVP > RATED_VOLTAGE_MAX)
  let reqOVP := if vHigh then RATED_VOLTAGE_MAX else reqOVP
  let clamped := if vHigh then true else clamped
  -- clamp current
  let iHigh : Bool := decide (reqOCP > RATED_CURRENT_MAX)
  let reqOCP := if iHigh then RATED_CURRENT_MAX else reqOCP
  let clamped := if iHigh then true else clamped
  -- ensure power limit
  let allowedI := RATED_POWER_MAX / reqOVP
  let pHigh : Bool := decide (reqOVP * reqOCP > RATED_POWER_MAX) && decide (allowedI < reqOCP)
  let reqOCP := if pHigh then allowedI else reqOCP
  let clamped := if pHigh then true else clamped
  -- quantise OVP and recompute OPP
  let reqOVP := roundf (reqOVP * 10) / 10
  let reqOPP := reqOVP * reqOCP
  { reqOVP := reqOVP, reqOCP := reqOCP, reqOPP := reqOPP, clamped := clamped }

/-- Lines 166–168 of `setActiveBattery`: the recommended test load, first capped at
`RATED_CURRENT_MAX`, then raised to at least `0.05`. -/
def recommendedTestLoad (b : BatteryModule) : ℚ :=
  let recommendedI := b.recommendedLoadA
  let recommendedI := if recommendedI > RATED_CURRENT_MAX then RATED_CURRENT_MAX else recommendedI
  let recommendedI := if recommendedI < 0.05 then 0.05 else recommendedI
  recommendedI

/-- Lines 126–181 of `setActiveBattery` for the profile `b = batteryModules[idx]`: every
global of the selector is overwritten. -/
def queueProfile (b : BatteryModule) (idx : Int) : Globals :=
  let r := clampRequest b
  { currentBattery := b
    OVP := stringOfFloat r.reqOVP 1
    OCP := stringOfFloat r.reqOCP 2
    OPP := stringOfFloat r.reqOPP 2
    LVP := stringOfFloat b.lowVoltageProtect 1
    OAH := stringOfFloat b.overAhLimit 3
    OHP := b.overHourLimit
    TEST_LOAD := stringOfFloat (recommendedTestLoad b) 2
    pendingOVP := r.reqOVP
    pendingOCP := r.reqOCP
    pendingOPP := r.reqOPP
    pendingLVP := b.lowVoltageProtect
    pendingOAH := b.overAhLimit
    pendingOHP := b.overHourLimit
    pendingBatteryIdx := idx
    pendingWasClamped := r.clamped }

/-- `bool setActiveBattery(int idx)`: rejects an out-of-range index without touching the
state, otherwise queues the profile and returns `true`. -/
def setActiveBattery (mods : List BatteryModule) (idx : Int) (s : Globals) : Bool × Globals :=
  if h : idx < 0 ∨ (mods.length : Int) ≤ idx then (false, s)
  else (true, queueProfile (mods.get ⟨idx.toNat, by omega⟩) idx)

/-- The loop of `selectBatteryByName` from position `i` on, `rest` being the entries not
yet compared: the first entry whose name equals `name` is selected and the loop returns. -/
def selectBatteryByNameFrom (mods : List BatteryModule) (name : String) (s : Globals) :
    List BatteryModule → Nat → Globals
  | [], _ => s
  | b :: rest, i =>
    if name = b.name then (setActiveBattery mods (i : Int) s).2
    else selectBatteryByNameFrom mods name s rest (i + 1)

/-- `void selectBatteryByName(const char* name)`. -/
def selectBatteryByName (mods : List BatteryModule) (name : String) (s : Globals) : Globals :=
  selectBatteryByNameFrom mods name s mods 0

/-- The static initialisers of `FZ35_Battery.cpp` (`currentBattery = batteryModules[0]`,
nothing pending); the strings of the main sketch are taken empty. -/
def bootGlobals : Globals :=
  { currentBattery := ⟨"24V Generic 5.00A", .LiIon, 24.20, 30.0, 5.10, 5.00, 18.0, 36.0, "10:00"⟩
    OVP := ""
    OCP := ""
    OPP := ""
    LVP := ""
    OAH := ""
    OHP := ""
    TEST_LOAD := ""
    pendingOVP := 0
    pendingOCP := 0
    pendingOPP := 0
    pendingLVP := 0
    pendingOAH := 0
    pendingOHP := ""
    pendingBatteryIdx := -1
    pendingWasClamped := false }

/-- A well-formed profile outside the compiled-in table: a pack whose nominal voltage,
24.26 V, is not a multiple of 0.1 V (6 A h, 5 A maximum load). -/
def samplePack2426 : BatteryModule :=
  ⟨"6S Li-ion 24.26V 1.00A", .LiIon, 24.26, 6.0, 5.0, 1.00, 18.0, 7.2, "10:00"⟩

/-- A well-formed profile outside the compiled-in table: an 8S LiPo pack, 33.6 V nominal. -/
def samplePack8S : BatteryModule :=
  ⟨"8S LiPo 29.6V 2.50A", .LiIon, 33.60, 5.0, 6.0, 2.50, 24.0, 6.0, "02:00"⟩

/-! ## `FZ35_Comm.h`: response classifier -/

/-- The digit scan of `isSuccessResponse` (lines 40–42): some character is a digit. -/
def hasDigit (r : String) : Bool := r.data.any isDigit

/-- `bool isSuccessResponse(const String &resp, const String &cmdPrefixLower)`. -/
def isSuccessResponse (resp cmdPrefixLower : String) : Bool :=
  let r := toLowerCase resp
  if indexOf r "success" ≥ 0 then true
  else if indexOf r "sucess" ≥ 0 then true
  else if indexOf r "ok" ≥ 0 then true
  else if indexOf r "done" ≥ 0 then true
  else if indexOf r cmdPrefixLower ≥ 0 then hasDigit r
  else false

/-- `bool isFailureResponse(const String &resp)`. -/
def isFailureResponse (resp : String) : Bool :=
  let r := toLowerCase resp
  if indexOf r "fail" ≥ 0 then true
  else if indexOf r "error" ≥ 0 then true
  else false

/-! ## `FZ35_Comm.h`: the serial link -/

/-- One write on `fzSerial`: `print(text)` (`newline = false`) or `println(text)`
(`newline = true`). -/
structure Frame where
  text : String
  newline : Bool
  deriving DecidableEq, Repr

/-- The bytes a frame puts on the wire: `println` appends `"\r\n"`. -/
def Frame.wireBytes (f : Frame) : String :=
  if f.newline then f.text ++ "\r\n" else f.text

/-- The serial link `fzSerial` as seen by the host: `sent` is the log of frames written so
far (oldest first); `script` lists, for each coming attempt of `sendCommandWithConfirm`, the
raw bytes its collecting loop reads before it ends by idle gap or timeout (no entry left:
nothing arrives). Wall-clock timing is not modelled beyond this. -/
structure Link where
  sent : List Frame
  script : List String
  deriving DecidableEq, Repr

/-- A write on the link; the stale input flushed before it is not part of `script`. -/
def Link.write (l : Link) (f : Frame) : Link :=
  { l with sent := l.sent ++ [f] }

/-- The raw bytes read by one collecting loop, and the link afterwards. -/
def Link.collect (l : Link) : String × Link :=
  match l.script with
  | [] => ("", l)
  | raw :: rest => (raw, { l with script := rest })

/-- `void sendCommandNoNL(const String &cmd)`: flush, then `print(cmd)`; no response is
collected. -/
def sendCommandNoNL (cmd : String) (l : Link) : Link :=
  l.write ⟨cmd, false⟩

/-- Lines 80–87 of `sendCommandWithConfirm`: one received byte is appended to `resp`;
`'\r'` is skipped and `'\n'` is kept only after a character other than `'\n'`. -/
def collectByte (resp : List Char) (c : Char) : List Char :=
  if c = '\r' then resp
  else if c = '\n' then
    if resp.length ≠ 0 ∧ resp.getLast? ≠ some '\n' then resp ++ ['\n'] else resp
  else resp ++ [c]

/-- C `isspace` in the "C" locale. -/
def isSpace (c : Char) : Bool :=
  c = ' ' || c = '\t' || c = '\n' || c = '\x0b' || c = '\x0c' || c = '\r'

/-- Arduino `String::trim`: leading and trailing white space removed. -/
def trim (s : String) : String :=
  ⟨((s.data.dropWhile isSpace).reverse.dropWhile isSpace).reverse⟩

/-- Lines 75–95 of `sendCommandWithConfirm`: the response aggregated from the raw bytes of
one attempt, trimmed. -/
def aggregateResponse (raw : String) : String :=
  trim ⟨raw.data.foldl collectByte []⟩

/-- C `strchr` on a character list: offset (counted from `i`) of the first `ch`, or `-1`. -/
def strchrFrom (ch : Char) : List Char → Nat → Int
  | [], _ => -1
  | c :: cs, i => if c = ch then (i : Int) else strchrFrom ch cs (i + 1)

/-- Arduino `String::indexOf(char)`: `-1` on an empty string or when `ch` does not occur. -/
def indexOfChar (s : String) (ch : Char) : Int :=
  if s.data.length ≤ 0 then -1 else strchrFrom ch s.data 0

/-- Conversion of an `int` argument to a 32-bit `unsigned int` parameter. -/
def toUnsigned (i : Int) : Nat := (i % 4294967296).toNat

/-- Arduino `String::substring(unsigned int left, unsigned int right)`: the bounds are
swapped when `left > right`, an out-of-range `left` gives the empty string and `right` is
capped at the length. -/
def substring (s : String) (left right : Nat) : String :=
  let lo := if left > right then right else left
  let hi := if left > right then left else right
  if lo ≥ s.data.length then ""
  else
    let hi := if hi > s.data.length then s.data.length else hi
    ⟨(s.data.drop lo).take (hi - lo)⟩

/-- Lines 59–60 of `sendCommandWithConfirm`:
`keyLower = cmd.substring(0, cmd.indexOf(':')); keyLower.toLowerCase();`. -/
def commandKey (cmd : String) : String :=
  toLowerCase (substring cmd 0 (toUnsigned (indexOfChar cmd ':')))

/-- `MAX_RETRIES` of `sendCommandWithConfirm`. -/
def MAX_RETRIES : Nat := 3

/-- The `for` loop of `sendCommandWithConfirm` with `remaining` iterations left, the next
one being number `attempt`: write the frame (no newline on odd attempts), collect and
classify; a failure token, an empty or an unclassified response all go on to the next
attempt, a success returns `true`; leaving the loop returns `false`. -/
def confirmLoop (cmd keyLower : String) : Nat → Nat → Link → Bool × Link
  | 0, _, l => (false, l)
  | remaining + 1, attempt, l =>
    let sendNoNewline : Bool := attempt % 2 == 1
    let l1 := l.write ⟨cmd, !sendNoNewline⟩
    let got := l1.collect
    let resp := aggregateResponse got.1
    if isFailureResponse resp then confirmLoop cmd keyLower remaining (attempt + 1) got.2
    else if isSuccessResponse resp keyLower then (true, got.2)
    else confirmLoop cmd keyLower remaining (attempt + 1) got.2

/-- `bool sendCommandWithConfirm(const String &cmd, unsigned long overallTimeoutMs)`:
attempts 1 to `MAX_RETRIES`. The timeout only bounds how long a collecting loop waits. -/
def sendCommandWithConfirm (cmd : String) (l : Link) : Bool × Link :=
  confirmLoop cmd (commandKey cmd) MAX_RETRIES 1 l

/-! ## `FZ35_Comm.h`: variant probe -/

/-- Value of a run of decimal digits. -/
def digitsValue (ds : List Char) : Nat :=
  ds.foldl (fun n c => 10 * n + (c.toNat - 48)) 0

/-- What C `strtod` reads from the start of a string. -/
structure DecimalParse where
  negative : Bool
  mantissa : Nat
  fracLen : Nat
  exponent : Int
  deriving DecidableEq, Repr

/-- The optional exponent part `[eE][+-]digits` of a decimal numeral (0 when absent or
without digits). -/
def parseExponent (cs : List Char) : Int :=
  if cs.head? = some 'e' ∨ cs.head? = some 'E' then
    let t := cs.tail
    let neg : Bool := t.head? = some '-'
    let t := if t.head? = some '-' ∨ t.head? = some '+' then t.tail else t
    let ds := t.takeWhile isDigit
    if neg then -(digitsValue ds : Int) else (digitsValue ds : Int)
  else 0

/-- The decimal numeral at the start of `s` as C `strtod` scans it: white space, an
optional sign, digits, an optional point with digits, an optional exponent. -/
def parseDecimal (s : String) : DecimalParse :=
  let cs := s.data.dropWhile isSpace
  let neg : Bool := cs.head? = some '-'
  let cs := if cs.head? = some '-' ∨ cs.head? = some '+' then cs.tail else cs
  let intDigits := cs.takeWhile isDigit
  let cs := cs.dropWhile isDigit
  let fracDigits := if cs.head? = some '.' then cs.tail.takeWhile isDigit else []
  let cs := if cs.head? = some '.' then cs.tail.dropWhile isDigit else cs
  { negative := neg
    mantissa := digitsValue (intDigits ++ fracDigits)
    fracLen := fracDigits.length
    exponent := if intDigits.length + fracDigits.length = 0 then 0 else parseExponent cs }

/-- Arduino `String::toFloat` (C `atof`) on decimal numerals, exactly: the value of the
numeral at the start of the string, `0` when there is none. The `inf`, `nan` and
hexadecimal forms of `strtod` have no counterpart here. -/
def toFloat (s : String) : ℚ :=
  let p := parseDecimal s
  let magnitude := (p.mantissa : ℚ) / 10 ^ p.fracLen * 10 ^ p.exponent
  if p.negative then -magnitude else magnitude

/-- C++ conversion `(int)x` of a `float` to the 32-bit `int`: truncation toward zero when
that lies in `[-2147483648, 2147483647]`. Outside that range the conversion is undefined in
C++; the model returns `INT_MIN` there, the result of the x86 conversion instruction, and
the statements that say more than "some `int`" about a converted value carry the range as
a hypothesis. -/
def truncToInt (x : ℚ) : Int :=
  let t : Int := if 0 ≤ x then ⌊x⌋ else -⌊-x⌋
  if -2147483648 ≤ t ∧ t ≤ 2147483647 then t else -2147483648

/-- Arduino `String(int)`: decimal digits with a leading `-` for negative values. -/
def stringOfInt (n : Int) : String :=
  if n < 0 then "-" ++ Nat.repr n.natAbs else Nat.repr n.toNat

/-- Arduino `String::equalsIgnoreCase`: same length and equal characters up to `tolower`. -/
def equalsIgnoreCase (a b : String) : Bool :=
  a.data.length = b.data.length &&
    (a.data.zip b.data).all (fun p => toLowerChar p.1 == toLowerChar p.2)

/-- The locals `String variants[5]; int count` of `sendParamVariants`. -/
structure VariantTable where
  variants : List String
  count : Nat
  deriving DecidableEq, Repr

/-- The statement `variants[count++] = v`. -/
def VariantTable.store (t : VariantTable) (v : String) : VariantTable :=
  { variants := t.variants.set t.count v, count := t.count + 1 }

/-- Lines 118–134 of `sendParamVariants`: the table of formatting variants. -/
def buildVariants (key value : String) : VariantTable :=
  let t : VariantTable := { variants := List.replicate 5 "", count := 0 }
  -- base
  let t := t.store (key ++ ":" ++ value)
  -- numeric variants
  let f := toFloat value
  let hasDot : Bool := indexOfChar value '.' ≥ 0
  let t := if hasDot then t.store (key ++ ":" ++ stringOfFloat f 1) else t
  let t := t.store (key ++ ":" ++ stringOfFloat f 3)
  -- as integer millivolts for voltage-like keys
  let t :=
    if equalsIgnoreCase key "OVP" || equalsIgnoreCase key "LVP" then
      let mv := truncToInt (roundf (f * 1000))
      t.store (key ++ ":" ++ stringOfInt mv)
    else t
  t

/-- The loop of lines 136–141 over the entries `variants[i]`, `i < count`, still to try:
the first confirmed variant returns `true`, running out of variants returns `false`. -/
def tryVariants : List String → Link → Bool × Link
  | [], l => (false, l)
  | v :: rest, l =>
    let r := sendCommandWithConfirm v l
    if r.1 then (true, r.2) else tryVariants rest r.2

/-- `bool sendParamVariants(const String &key, const String &value, unsigned long timeoutMs)`. -/
def sendParamVariants (key value : String) (l : Link) : Bool × Link :=
  let t := buildVariants key value
  tryVariants (t.variants.take t.count) l

/-! ## `FZ35_Battery.cpp`: staged apply -/

/-- The lambda `doCmd` of `processPendingBattery`, acting on `(successCount, link)`:
`if (sendCommandWithConfirm(payload, 1000)) successCount++;`. -/
def doCmd (payload : String) (st : Nat × Link) : Nat × Link :=
  let r := sendCommandWithConfirm payload st.2
  (if r.1 then st.1 + 1 else st.1, r.2)

/-- What one call of `processPendingBattery` leaves: the globals, the link, and the value of
`successCount` printed by the summary line (`none` when the call returned at once). -/
structure ApplyResult where
  globals : Globals
  link : Link
  successCount : Option Nat
  deriving DecidableEq, Repr

/-- `void processPendingBattery()`. -/
def processPendingBattery (g : Globals) (l : Link) : ApplyResult :=
  if g.pendingBatteryIdx < 0 then { globals := g, link := l, successCount := none }
  else
    let g := { g with pendingBatteryIdx := -1 }
    let successCount : Nat := 0
    -- STEP 1: stop measurements
    let l := sendCommandNoNL "stop" l
    -- test load current, not counted
    let loadCmd := g.TEST_LOAD ++ "A"
    let l := (sendCommandWithConfirm loadCmd l).2
    -- STEP 2: send parameters
    let st := doCmd ("OCP:" ++ stringOfFloat g.pendingOCP 2) (successCount, l)
    let st := doCmd ("OPP:" ++ stringOfFloat g.pendingOPP 2) st
    let st := doCmd ("LVP:" ++ stringOfFloat g.pendingLVP 1) st
    let st := doCmd ("OAH:" ++ stringOfFloat g.pendingOAH 3) st
    let st := doCmd ("OHP:" ++ g.pendingOHP) st
    -- OVP last, try variants
    let ovpStr := stringOfFloat g.pendingOVP 1
    let r := sendParamVariants "OVP" ovpStr st.2
    let successCount := if r.1 then st.1 + 1 else st.1
    -- STEP 3: restart measurements
    let l := sendCommandNoNL "start" r.2
    { globals := { g with pendingWasClamped := false }, link := l,
      successCount := some successCount }

/-! ## `FZ35_Battery.cpp`: active index, and the staged apply statement by statement -/

/-- The loop of `getActiveBatteryIndex` from position `i` on: the first entry whose name
equals `name` gives its index; falling out of the loop gives `0`. -/
def getActiveBatteryIndexFrom (name : String) : List BatteryModule → Nat → Int
  | [], _ => 0
  | b :: rest, i =>
    if name = b.name then (i : Int) else getActiveBatteryIndexFrom name rest (i + 1)

/-- `int getActiveBatteryIndex()`. -/
def getActiveBatteryIndex (mods : List BatteryModule) (s : Globals) : Int :=
  getActiveBatteryIndexFrom s.currentBattery.name mods 0

/-- The variables a running `processPendingBattery` works on: the globals, the link and its
local `successCount`. -/
structure ApplyState where
  globals : Globals
  link : Link
  successCount : Nat
  deriving DecidableEq, Repr

/-- The statements of `processPendingBattery` after the guard of line 197, in program
order. -/
inductive ApplyStep where
  | claim
  | stop
  | load
  | ocp
  | opp
  | lvp
  | oah
  | ohp
  | ovp
  | start
  | clearFlag
  deriving DecidableEq, Repr

/-- One statement of `processPendingBattery`, reading the globals as they are when it runs:
`claim` is lines 198–201 (`pendingBatteryIdx = -1; successCount = 0`), `stop` line 209,
`load` lines 220–221, `ocp` to `ohp` the `doCmd` calls of lines 229–233, `ovp` lines
237–239, `start` line 251 and `clearFlag` line 254. -/
def ApplyStep.run : ApplyStep → ApplyState → ApplyState
  | .claim, s =>
    { s with globals := { s.globals with pendingBatteryIdx := -1 }, successCount := 0 }
  | .stop, s => { s with link := sendCommandNoNL "stop" s.link }
  | .load, s =>
    { s with link := (sendCommandWithConfirm (s.globals.TEST_LOAD ++ "A") s.link).2 }
  | .ocp, s =>
    let st := doCmd ("OCP:" ++ stringOfFloat s.globals.pendingOCP 2) (s.successCount, s.link)
    { s with link := st.2, successCount := st.1 }
  | .opp, s =>
    let st := doCmd ("OPP:" ++ stringOfFloat s.globals.pendingOPP 2) (s.successCount, s.link)
    { s with link := st.2, successCount := st.1 }
  | .lvp, s =>
    let st := doCmd ("LVP:" ++ stringOfFloat s.globals.pendingLVP 1) (s.successCount, s.link)
    { s with link := st.2, successCount := st.1 }
  | .oah, s =>
    let st := doCmd ("OAH:" ++ stringOfFloat s.globals.pendingOAH 3) (s.successCount, s.link)
    { s with link := st.2, successCount := st.1 }
  | .ohp, s =>
    let st := doCmd ("OHP:" ++ s.globals.pendingOHP) (s.successCount, s.link)
    { s with link := st.2, successCount := st.1 }
  | .ovp, s =>
    let r := sendParamVariants "OVP" (stringOfFloat s.globals.pendingOVP 1) s.link
    { s with link := r.2, successCount := if r.1 then s.successCount + 1 else s.successCount }
  | .start, s => { s with link := sendCommandNoNL "start" s.link }
  | .clearFlag, s => { s with globals := { s.globals with pendingWasClamped := false } }

/-- The body of `processPendingBattery` after the guard. -/
def applySteps : List ApplyStep :=
  [.claim, .stop, .load, .ocp, .opp, .lvp, .oah, .ohp, .ovp, .start, .clearFlag]

/-- The statements of the list executed one after the other. -/
def runSteps (steps : List ApplyStep) (s : ApplyState) : ApplyState :=
  steps.foldl (fun s step => step.run s) s

/-! ## `FZ35_TestLog.cpp`: the in-memory test log -/

/-- `MAX_TEST_RESULTS` of `FZ35_TestLog.h`. -/
def MAX_TEST_RESULTS : Nat := 50

/-- `struct TestResult`; the two character arrays hold C strings. -/
structure TestResult where
  date : String
  batteryType : String
  finalAh : ℚ
  testTimeHours : ℚ
  valid : Bool
  deriving DecidableEq, Repr

/-- The globals `testResults[MAX_TEST_RESULTS]` and `testResultCount`. -/
structure TestLog where
  testResults : List TestResult
  testResultCount : Int
  deriving DecidableEq, Repr

/-- A read `arr[i]` of a C array: `none` when `i` lies outside the array. -/
def readAt (arr : List TestResult) (i : Int) : Option TestResult :=
  if 0 ≤ i ∧ i < arr.length then arr[i.toNat]? else none

/-- A write `arr[i] = v` to a C array: `none` when `i` lies outside the array. -/
def writeAt (arr : List TestResult) (i : Int) (v : TestResult) : Option (List TestResult) :=
  if 0 ≤ i ∧ i < arr.length then some (arr.set i.toNat v) else none

/-- The loop of lines 63–65 of `saveTestResult` with `remaining` iterations left, the next
one at index `i`: `testResults[i] = testResults[i + 1]`. -/
def shiftLoop : Nat → Int → List TestResult → Option (List TestResult)
  | 0, _, arr => some arr
  | remaining + 1, i, arr =>
    match readAt arr (i + 1) with
    | none => none
    | some v =>
      match writeAt arr i v with
      | none => none
      | some arr1 => shiftLoop remaining (i + 1) arr1

/-- Lines 61–83 of `saveTestResult`: a full log is shifted left by one slot, then the
record at `testResults[testResultCount]` is filled in and the count incremented. `date` is
the text the clock formatting of lines 72–76 produces, cut by `snprintf` to the 19
characters the field holds; `strncpy` keeps at most 49 characters of the name. The result
is `none` when an array access falls outside the array. The append to the CSV file that
follows (lines 86–93) touches neither global and is left out. -/
def saveTestResult (batteryName date : String) (finalAh timeHours : ℚ) (log : TestLog) :
    Option TestLog :=
  let trimmed : Option TestLog :=
    if log.testResultCount ≥ (MAX_TEST_RESULTS : Int) then
      match shiftLoop (MAX_TEST_RESULTS - 1) 0 log.testResults with
      | none => none
      | some arr => some { testResults := arr, testResultCount := (MAX_TEST_RESULTS : Int) - 1 }
    else some log
  match trimmed with
  | none => none
  | some log1 =>
    let r : TestResult :=
      { date := ⟨date.data.take 19⟩
        batteryType := ⟨batteryName.data.take 49⟩
        finalAh := finalAh
        testTimeHours := timeHours
        valid := true }
    match writeAt log1.testResults log1.testResultCount r with
    | none => none
    | some arr => some { testResults := arr, testResultCount := log1.testResultCount + 1 }

/-- A filled record for evaluation, told apart by its index. -/
def sampleResult (k : Nat) : TestResult :=
  ⟨"2025-01-01 00:00", "cell " ++ Nat.repr k, 1, 2, true⟩

/-- A full log for evaluation: entries "cell 0" to "cell 49". -/
def sampleLogFull : TestLog :=
  ⟨(List.range 50).map sampleResult, 50⟩

/-! ## Vocabulary for stating the protocol properties -/

/-- The frames of the first `m` attempts for `cmd` as the description has them: attempt
`i + 1` carries a line terminator exactly when it is even. -/
def attemptFrames (cmd : String) (m : Nat) : List Frame :=
  (List.range m).map (fun i => ⟨cmd, i % 2 == 1⟩)

/-- The aggregated response of the attempt that reads entry `i` of the script (the empty
response when the device sends nothing). -/
def responseAt (l : Link) (i : Nat) : String :=
  aggregateResponse (l.script.getD i "")

/-- A response confirms `cmd`: it is no failure response and it is a success response for
the key of `cmd`. -/
def confirms (cmd resp : String) : Bool :=
  !isFailureResponse resp && isSuccessResponse resp (commandKey cmd)

/-- The link after each command of the list, in order, went through
`sendCommandWithConfirm`, whatever the outcomes. -/
def sendEach (cmds : List String) (l : Link) : Link :=
  cmds.foldl (fun l c => (sendCommandWithConfirm c l).2) l

/-- A decimal numeral with exactly one digit after the decimal point: an optional `-`, one
or more digits, a point, one digit. -/
def isOneDecimalNumeral (v : String) : Bool :=
  let cs := if v.data.head? = some '-' then v.data.tail else v.data
  let intDigits := cs.takeWhile isDigit
  match cs.dropWhile isDigit with
  | ['.', d] => !intDigits.isEmpty && isDigit d
  | _ => false

/-- A queued state for evaluation: the frozen record and test load that selecting index 0
of the compiled-in table leaves (24.2 V, 175/121 A, 35 W, 18 V, 36 Ah, "10:00", test load
"5.00"); the other UI strings are left as in `bootGlobals`. -/
def queuedGeneric24 : Globals :=
  { bootGlobals with
    TEST_LOAD := "5.00"
    pendingOVP := 24.2
    pendingOCP := 175 / 121
    pendingOPP := 35
    pendingLVP := 18
    pendingOAH := 36
    pendingOHP := "10:00"
    pendingBatteryIdx := 0
    pendingWasClamped := true }

/-- A call `setActiveBattery(j)` made by the `/select_batt` handler while
`processPendingBattery` is between two of its statements: the globals are those the call
leaves, the link and the local `successCount` of the running apply are untouched. -/
def ApplyState.select (mods : List BatteryModule) (j : Int) (s : ApplyState) : ApplyState :=
  { s with globals := (setActiveBattery mods j s.globals).2 }

/-- The body of `processPendingBattery` with `setActiveBattery(j)` running once, after the
first `k` statements of `applySteps`. -/
def runStepsSelecting (mods : List BatteryModule) (k : Nat) (j : Int) (s : ApplyState) :
    ApplyState :=
  runSteps (applySteps.drop k) ((runSteps (applySteps.take k) s).select mods j)

/-- Entry 3 of the compiled-in table, for evaluation. -/
def cell18650 : BatteryModule :=
  ⟨"18650 Li-ion 4.2V 1.30A", .LiIon, 4.20, 2.6, 3.0, 1.30, 3.0, 3.2, "02:00"⟩

/-- A well-formed profile outside the compiled-in table: nominal 25.04 V, just above the
rated 25 V, with a 1 A maximum load. -/
def samplePack2504 : BatteryModule :=
  ⟨"6S LiHV 25.04V 0.50A", .LiIon, 25.04, 2.0, 1.0, 0.50, 18.0, 2.4, "05:00"⟩

/-! ## Auxiliary facts -/

theorem setActiveBattery_eq_queue (mods : List BatteryModule) (i : ℕ) (p : BatteryModule)
    (s : Globals) (hp : mods[i]? = some p) :
    setActiveBattery mods (i : Int) s = (true, queueProfile p (i : Int)) := by
  obtain ⟨hi, rfl⟩ := List.getElem?_eq_some.mp hp
  have hng : ¬ ((i : Int) < 0 ∨ (mods.length : Int) ≤ (i : Int)) := by omega
  unfold setActiveBattery
  rw [dif_neg hng]
  simp

theorem setActiveBattery_invalid (mods : List BatteryModule) (idx : Int) (s : Globals)
    (h : idx < 0 ∨ (mods.length : Int) ≤ idx) : setActiveBattery mods idx s = (false, s) := by
  simp [setActiveBattery, h]

theorem roundf_of_nonneg {x : ℚ} (hx : 0 ≤ x) : roundf x = ((⌊x + 1 / 2⌋ : ℤ) : ℚ) := by
  simp [roundf, hx]

theorem clampRequest_reqOVP (b : BatteryModule) :
    (clampRequest b).reqOVP = roundf (min b.nominalVoltage 25 * 10) / 10 := by
  unfold clampRequest RATED_VOLTAGE_MAX
  by_cases h : b.nominalVoltage > 25
  · simp [h, min_eq_right (le_of_lt h)]
  · simp [h, min_eq_left (not_lt.mp h)]

theorem clampRequest_reqOCP (b : BatteryModule) (hv : 0 < b.nominalVoltage) :
    (clampRequest b).reqOCP = min (min b.maxLoadA 5) (35 / min b.nominalVoltage 25) := by
  have hm : 0 < min b.nominalVoltage 25 := lt_min hv (by norm_num)
  have hV : (if b.nominalVoltage > 25 then (25 : ℚ) else b.nominalVoltage)
      = min b.nominalVoltage 25 := by
    by_cases h : b.nominalVoltage > 25
    · simp [h, min_eq_right (le_of_lt h)]
    · simp [h, min_eq_left (not_lt.mp h)]
  have hI : (if b.maxLoadA > 5 then (5 : ℚ) else b.maxLoadA) = min b.maxLoadA 5 := by
    by_cases h : b.maxLoadA > 5
    · simp [h, min_eq_right (le_of_lt h)]
    · simp [h, min_eq_left (not_lt.mp h)]
  unfold clampRequest RATED_VOLTAGE_MAX RATED_CURRENT_MAX RATED_POWER_MAX
  simp only [decide_eq_true_eq, Bool.and_eq_true, hV, hI]
  by_cases hp : min b.nominalVoltage 25 * min b.maxLoadA 5 > 35
  · have hlt : 35 / min b.nominalVoltage 25 < min b.maxLoadA 5 := by
      rw [div_lt_iff₀ hm]; linarith
    simp [hp, hlt, min_eq_right (le_of_lt hlt)]
  · have hge : min b.maxLoadA 5 ≤ 35 / min b.nominalVoltage 25 := by
      rw [le_div_iff₀ hm]; linarith [not_lt.mp hp]
    simp [hp, min_eq_left hge]


theorem recommendedTestLoad_eq (b : BatteryModule) :
    recommendedTestLoad b = max (min b.recommendedLoadA 5) 0.05 := by
  have hI : (if b.recommendedLoadA > 5 then (5 : ℚ) else b.recommendedLoadA)
      = min b.recommendedLoadA 5 := by
    by_cases h : b.recommendedLoadA > 5
    · simp [h, min_eq_right (le_of_lt h)]
    · simp [h, min_eq_left (not_lt.mp h)]
  unfold recommendedTestLoad RATED_CURRENT_MAX
  simp only [hI]
  by_cases h : min b.recommendedLoadA 5 < 0.05
  · rw [if_pos h, max_eq_right (le_of_lt h)]
  · rw [if_neg h, max_eq_left (not_lt.mp h)]

/-! ## Profile selector: clamping -/

/-- C1 (the code misses it): selecting the well-formed profile `samplePack2426` (nominal
24.26 V, maximum load 5 A, both positive) freezes voltage 24.3 and current 1750/1213, whose
product 42525/1213 is above the 35 W budget: the voltage is rounded up to the 0.1 V grid
after the current was fitted to the budget. -/
theorem setActiveBattery_power_over_budget :
    0 < samplePack2426.nominalVoltage ∧ 0 < samplePack2426.maxLoadA ∧
    (setActiveBattery [samplePack2426] 0 bootGlobals).1 = true ∧
    (setActiveBattery [samplePack2426] 0 bootGlobals).2.pendingOVP = 243 / 10 ∧
    (setActiveBattery [samplePack2426] 0 bootGlobals).2.pendingOCP = 1750 / 1213 ∧
    (setActiveBattery [samplePack2426] 0 bootGlobals).2.pendingOPP = 42525 / 1213 ∧
    35 < (setActiveBattery [samplePack2426] 0 bootGlobals).2.pendingOVP *
      (setActiveBattery [samplePack2426] 0 bootGlobals).2.pendingOCP := by
  have h := setActiveBattery_eq_queue [samplePack2426] 0 samplePack2426 bootGlobals rfl
  simp only [Nat.cast_zero] at h
  rw [h]
  norm_num [queueProfile, clampRequest, samplePack2426, roundf, RATED_VOLTAGE_MAX,
    RATED_CURRENT_MAX, RATED_POWER_MAX]

/-- C2: for a valid index whose profile has positive nominal voltage the call succeeds and
the frozen current is `min(maxLoadA, 5, 35 / min(nominalVoltage, 25))`, while the frozen
voltage is the quantised `min(nominalVoltage, 25)`: the power budget reduces the current
only. -/
theorem setActiveBattery_frozen_current (mods : List BatteryModule) (i : ℕ)
    (p : BatteryModule) (s : Globals) (hp : mods[i]? = some p) (hv : 0 < p.nominalVoltage) :
    (setActiveBattery mods (i : Int) s).1 = true ∧
    (setActiveBattery mods (i : Int) s).2.pendingOCP
      = min (min p.maxLoadA 5) (35 / min p.nominalVoltage 25) ∧
    (setActiveBattery mods (i : Int) s).2.pendingOVP
      = roundf (min p.nominalVoltage 25 * 10) / 10 := by
  rw [setActiveBattery_eq_queue mods i p s hp]
  exact ⟨rfl, clampRequest_reqOCP p hv, clampRequest_reqOVP p⟩

/-- C2, at index 0 of the compiled-in table (nominal 24.20 V, maximum load 5.10 A): the
frozen current is 35/24.2, the frozen voltage 24.2 and the clamped flag is set. -/
theorem setActiveBattery_frozen_current_witness :
    batteryModules[0]? = some bootGlobals.currentBattery ∧
    0 < bootGlobals.currentBattery.nominalVoltage ∧
    (setActiveBattery batteryModules 0 bootGlobals).1 = true ∧
    (setActiveBattery batteryModules 0 bootGlobals).2.pendingOCP = 35 / 24.2 ∧
    (setActiveBattery batteryModules 0 bootGlobals).2.pendingOVP = 24.2 ∧
    (setActiveBattery batteryModules 0 bootGlobals).2.pendingWasClamped = true := by
  have h := setActiveBattery_frozen_current batteryModules 0 bootGlobals.currentBattery
    bootGlobals rfl (by norm_num [bootGlobals])
  have hq := setActiveBattery_eq_queue batteryModules 0 bootGlobals.currentBattery
    bootGlobals rfl
  simp only [Nat.cast_zero] at h hq
  refine ⟨rfl, by norm_num [bootGlobals], h.1, ?_, ?_, ?_⟩
  · rw [h.2.1]; norm_num [bootGlobals]
  · rw [h.2.2]; norm_num [bootGlobals, roundf]
  · rw [hq]
    norm_num [queueProfile, clampRequest, bootGlobals, RATED_VOLTAGE_MAX,
      RATED_CURRENT_MAX, RATED_POWER_MAX]

/-- C3: a profile whose nominal voltage exceeds 25.0 is frozen with voltage exactly 25.0
and the clamped flag set. -/
theorem setActiveBattery_voltage_capped (mods : List BatteryModule) (i : ℕ)
    (p : BatteryModule) (s : Globals) (hp : mods[i]? = some p) (hv : 25 < p.nominalVoltage) :
    (setActiveBattery mods (i : Int) s).2.pendingOVP = 25 ∧
    (setActiveBattery mods (i : Int) s).2.pendingWasClamped = true := by
  rw [setActiveBattery_eq_queue mods i p s hp]
  constructor
  · show (clampRequest p).reqOVP = 25
    rw [clampRequest_reqOVP, min_eq_right (le_of_lt hv)]
    norm_num [roundf]
  · show (clampRequest p).clamped = true
    have hv' : p.nominalVoltage > 25 := hv
    simp [clampRequest, RATED_VOLTAGE_MAX, hv']

/-- C3, at the 33.6 V pack `samplePack8S`. -/
theorem setActiveBattery_voltage_capped_witness :
    [samplePack8S][0]? = some samplePack8S ∧ 25 < samplePack8S.nominalVoltage ∧
    (setActiveBattery [samplePack8S] ((0 : ℕ) : Int) bootGlobals).2.pendingOVP = 25 ∧
    (setActiveBattery [samplePack8S] ((0 : ℕ) : Int) bootGlobals).2.pendingWasClamped = true :=
  ⟨rfl, by norm_num [samplePack8S],
    setActiveBattery_voltage_capped [samplePack8S] 0 samplePack8S bootGlobals rfl
      (by norm_num [samplePack8S])⟩

/-- C4: for a profile with positive nominal voltage (whatever its `maxLoadA`, in particular
above 5.0) the frozen current is at most 5.0. -/
theorem setActiveBattery_current_le_rated (mods : List BatteryModule) (i : ℕ)
    (p : BatteryModule) (s : Globals) (hp : mods[i]? = some p) (hv : 0 < p.nominalVoltage) :
    (setActiveBattery mods (i : Int) s).2.pendingOCP ≤ 5 := by
  rw [setActiveBattery_eq_queue mods i p s hp]
  show (clampRequest p).reqOCP ≤ 5
  rw [clampRequest_reqOCP p hv]
  exact le_trans (min_le_left _ _) (min_le_right _ _)

/-- C4, at index 1 of the compiled-in table, whose `maxLoadA` is 10.0. -/
theorem setActiveBattery_current_le_rated_witness :
    (∃ p, batteryModules[1]? = some p ∧ 0 < p.nominalVoltage ∧ 5 < p.maxLoadA) ∧
    (setActiveBattery batteryModules ((1 : ℕ) : Int) bootGlobals).2.pendingOCP ≤ 5 :=
  ⟨⟨_, rfl, by norm_num [batteryModules], by norm_num [batteryModules]⟩,
    setActiveBattery_current_le_rated batteryModules 1 _ bootGlobals rfl
      (by norm_num [batteryModules])⟩

/-- C5: for a profile with positive nominal voltage the frozen voltage is
`min(nominalVoltage, 25)` rounded half-up to the 0.1 grid: it is `⌊10·v + 1/2⌋ / 10`, an
integer multiple of 0.1, at most 0.05 away from `v`, and never 0.05 or more below `v`
(a tie goes up). -/
theorem setActiveBattery_voltage_quantised (mods : List BatteryModule) (i : ℕ)
    (p : BatteryModule) (s : Globals) (hp : mods[i]? = some p) (hv : 0 < p.nominalVoltage) :
    (setActiveBattery mods (i : Int) s).2.pendingOVP
      = ((⌊min p.nominalVoltage 25 * 10 + 1 / 2⌋ : ℤ) : ℚ) / 10 ∧
    (∃ k : ℤ, (setActiveBattery mods (i : Int) s).2.pendingOVP = (k : ℚ) * 0.1) ∧
    |(setActiveBattery mods (i : Int) s).2.pendingOVP - min p.nominalVoltage 25| ≤ 0.05 ∧
    min p.nominalVoltage 25 - (setActiveBattery mods (i : Int) s).2.pendingOVP < 0.05 := by
  rw [setActiveBattery_eq_queue mods i p s hp]
  have hm : 0 < min p.nominalVoltage 25 := lt_min hv (by norm_num)
  have hx : 0 ≤ min p.nominalVoltage 25 * 10 := by positivity
  have hq : (queueProfile p (i : Int)).pendingOVP
      = ((⌊min p.nominalVoltage 25 * 10 + 1 / 2⌋ : ℤ) : ℚ) / 10 := by
    show (clampRequest p).reqOVP = _
    rw [clampRequest_reqOVP, roundf_of_nonneg hx]
  have h1 := Int.floor_le (min p.nominalVoltage 25 * 10 + 1 / 2)
  have h2 := Int.lt_floor_add_one (min p.nominalVoltage 25 * 10 + 1 / 2)
  show (queueProfile p (i : Int)).pendingOVP = _ ∧
    (∃ k : ℤ, (queueProfile p (i : Int)).pendingOVP = (k : ℚ) * 0.1) ∧
    |(queueProfile p (i : Int)).pendingOVP - min p.nominalVoltage 25| ≤ 0.05 ∧
    min p.nominalVoltage 25 - (queueProfile p (i : Int)).pendingOVP < 0.05
  rw [hq]
  generalize min p.nominalVoltage 25 = v at h1 h2 ⊢
  refine ⟨rfl, ⟨⌊v * 10 + 1 / 2⌋, by norm_num; ring⟩, ?_, ?_⟩
  · rw [abs_le]
    norm_num
    constructor <;> linarith
  · norm_num
    linarith

/-- C5, at index 7 of the compiled-in table (nominal 3.65 V, a tie): the frozen voltage
is 3.7. -/
theorem setActiveBattery_voltage_quantised_witness :
    (∃ p, batteryModules[7]? = some p ∧ 0 < p.nominalVoltage ∧ p.nominalVoltage = (3.65 : ℚ)) ∧
    (setActiveBattery batteryModules ((7 : ℕ) : Int) bootGlobals).2.pendingOVP = 3.7 := by
  refine ⟨⟨_, rfl, by norm_num [batteryModules], by norm_num [batteryModules]⟩, ?_⟩
  rw [(setActiveBattery_voltage_quantised batteryModules 7 _ bootGlobals rfl
    (by norm_num [batteryModules])).1]
  norm_num [batteryModules]

/-- C6: whatever `recommendedLoadA` is, the test load computed by `setActiveBattery` lies
in `[0.05, 5.0]` and is `recommendedLoadA` itself when that already lies there; `TEST_LOAD`
holds its 2-decimal rendering, whose printed hundredths lie between 5 and 500. -/
theorem setActiveBattery_test_load (mods : List BatteryModule) (i : ℕ)
    (p : BatteryModule) (s : Globals) (hp : mods[i]? = some p) :
    (setActiveBattery mods (i : Int) s).2.TEST_LOAD = stringOfFloat (recommendedTestLoad p) 2 ∧
    0.05 ≤ recommendedTestLoad p ∧ recommendedTestLoad p ≤ 5.0 ∧
    (0.05 ≤ p.recommendedLoadA ∧ p.recommendedLoadA ≤ 5.0 →
      recommendedTestLoad p = p.recommendedLoadA) ∧
    5 ≤ scaledMagnitude (recommendedTestLoad p) 2 ∧
    scaledMagnitude (recommendedTestLoad p) 2 ≤ 500 := by
  rw [setActiveBattery_eq_queue mods i p s hp]
  have hlo : (0.05 : ℚ) ≤ recommendedTestLoad p := by
    rw [recommendedTestLoad_eq]
    exact le_max_right _ _
  have hhi : recommendedTestLoad p ≤ 5.0 := by
    rw [recommendedTestLoad_eq]
    exact max_le (by norm_num [min_le_right]) (by norm_num)
  refine ⟨rfl, hlo, hhi, ?_, ?_, ?_⟩
  · rintro ⟨h1, h2⟩
    have h2' : p.recommendedLoadA ≤ 5 := by norm_num at h2; exact h2
    rw [recommendedTestLoad_eq, min_eq_left h2', max_eq_left h1]
  · have h0 : 0 ≤ recommendedTestLoad p := le_trans (by norm_num) hlo
    unfold scaledMagnitude
    rw [abs_of_nonneg h0]
    have : (5 : ℤ) ≤ ⌊recommendedTestLoad p * 10 ^ 2 + 1 / 2⌋ := by
      rw [Int.le_floor]; norm_num at hlo ⊢; linarith
    omega
  · have h0 : 0 ≤ recommendedTestLoad p := le_trans (by norm_num) hlo
    unfold scaledMagnitude
    rw [abs_of_nonneg h0]
    have : ⌊recommendedTestLoad p * 10 ^ 2 + 1 / 2⌋ < (501 : ℤ) := by
      rw [Int.floor_lt]; norm_num at hhi ⊢; linarith
    omega

/-- C6, at the 8S pack `samplePack8S` (recommended load 2.50 A, already in range): the
test load is 2.5 and `TEST_LOAD` reads "2.50". -/
theorem setActiveBattery_test_load_witness :
    [samplePack8S][0]? = some samplePack8S ∧
    (setActiveBattery [samplePack8S] ((0 : ℕ) : Int) bootGlobals).2.TEST_LOAD = "2.50" ∧
    recommendedTestLoad samplePack8S = 2.5 := by
  have h := setActiveBattery_test_load [samplePack8S] 0 samplePack8S bootGlobals rfl
  have hr : recommendedTestLoad samplePack8S = 2.5 := by
    norm_num [recommendedTestLoad, RATED_CURRENT_MAX, samplePack8S]
  have hm : scaledMagnitude (2.5 : ℚ) 2 = 250 := by
    unfold scaledMagnitude
    rw [abs_of_nonneg (by norm_num)]
    norm_num
    rfl
  refine ⟨rfl, ?_, hr⟩
  rw [h.1, hr]
  unfold stringOfFloat
  rw [hm]
  norm_num
  decide

/-! ## Profile selector: state effects -/

theorem batteryModules_length : batteryModules.length = 23 := rfl

/-- C7: on the compiled-in table (23 entries) `setActiveBattery idx` returns `false`
exactly when `idx < 0` or `idx ≥ 23`, and whenever it returns `false` the whole state
(active profile, UI strings, `TEST_LOAD`, frozen values, pending index, clamped flag) is
the state before the call. -/
theorem setActiveBattery_false_iff (idx : Int) (s : Globals) :
    ((setActiveBattery batteryModules idx s).1 = false ↔ (idx < 0 ∨ 23 ≤ idx)) ∧
    ((setActiveBattery batteryModules idx s).1 = false →
      (setActiveBattery batteryModules idx s).2 = s) := by
  by_cases h : idx < 0 ∨ ((batteryModules.length : ℕ) : Int) ≤ idx
  · rw [setActiveBattery_invalid batteryModules idx s h]
    rw [batteryModules_length] at h
    exact ⟨⟨fun _ => h, fun _ => rfl⟩, fun _ => rfl⟩
  · have hq : (setActiveBattery batteryModules idx s).1 = true := by
      unfold setActiveBattery
      rw [dif_neg h]
    rw [batteryModules_length] at h
    rw [hq]
    exact ⟨⟨fun hf => by simp at hf, fun hi => absurd hi h⟩, fun hf => by simp at hf⟩

/-- C7, evaluated at the indices -1 and 23 (rejected, state kept) and 22 (accepted). -/
theorem setActiveBattery_false_iff_witness :
    setActiveBattery batteryModules (-1) bootGlobals = (false, bootGlobals) ∧
    setActiveBattery batteryModules 23 bootGlobals = (false, bootGlobals) ∧
    (setActiveBattery batteryModules 22 bootGlobals).1 = true := by
  have h1 := setActiveBattery_false_iff (-1) bootGlobals
  have h2 := setActiveBattery_false_iff 23 bootGlobals
  have h3 := setActiveBattery_false_iff 22 bootGlobals
  refine ⟨Prod.ext (h1.1.2 (by omega)) (h1.2 (h1.1.2 (by omega))),
    Prod.ext (h2.1.2 (by omega)) (h2.2 (h2.1.2 (by omega))), ?_⟩
  cases hb : (setActiveBattery batteryModules 22 bootGlobals).1
  · exact absurd (h3.1.1 hb) (by omega)
  · rfl

/-- C8: last write wins. For a valid index `j` and any index `i` (valid or not), selecting
`i` and then `j` leaves exactly the state that selecting `j` alone leaves, and selecting
`j` twice is the same as selecting it once. -/
theorem setActiveBattery_last_write_wins (mods : List BatteryModule) (i j : Int)
    (s : Globals) (hj : 0 ≤ j ∧ j < (mods.length : Int)) :
    setActiveBattery mods j (setActiveBattery mods i s).2 = setActiveBattery mods j s ∧
    setActiveBattery mods j (setActiveBattery mods j s).2 = setActiveBattery mods j s ∧
    (setActiveBattery mods j s).1 = true := by
  have hng : ¬ (j < 0 ∨ (mods.length : Int) ≤ j) := by omega
  have key : ∀ t : Globals, setActiveBattery mods j t
      = (true, queueProfile (mods.get ⟨j.toNat, by omega⟩) j) := by
    intro t
    unfold setActiveBattery
    rw [dif_neg hng]
  exact ⟨by rw [key, key s], by rw [key, key s], by rw [key s]⟩

/-- C8, with `i = 0` and `j = 3` on the compiled-in table: the pending record of
`setActiveBattery 0` (frozen current 175/121) is gone after `setActiveBattery 3`. -/
theorem setActiveBattery_last_write_wins_witness :
    (0 ≤ (3 : Int) ∧ (3 : Int) < (batteryModules.length : Int)) ∧
    setActiveBattery batteryModules 3 (setActiveBattery batteryModules 0 bootGlobals).2
      = setActiveBattery batteryModules 3 bootGlobals ∧
    (setActiveBattery batteryModules 0 bootGlobals).2.pendingOCP = 175 / 121 ∧
    (setActiveBattery batteryModules 3
      (setActiveBattery batteryModules 0 bootGlobals).2).2.pendingOCP = 3 := by
  have hj : 0 ≤ (3 : Int) ∧ (3 : Int) < (batteryModules.length : Int) := by
    rw [batteryModules_length]; omega
  have h := setActiveBattery_last_write_wins batteryModules 0 3 bootGlobals hj
  have h0 := setActiveBattery_eq_queue batteryModules 0 _ bootGlobals rfl
  have h3 := setActiveBattery_eq_queue batteryModules 3 _ bootGlobals rfl
  simp only [Nat.cast_zero, Nat.cast_ofNat] at h0 h3
  refine ⟨hj, h.1, ?_, ?_⟩
  · rw [h0]
    norm_num [queueProfile, clampRequest, batteryModules, RATED_VOLTAGE_MAX,
      RATED_CURRENT_MAX, RATED_POWER_MAX]
  · rw [h.1, h3]
    norm_num [queueProfile, clampRequest, batteryModules, RATED_VOLTAGE_MAX,
      RATED_CURRENT_MAX, RATED_POWER_MAX]

theorem selectBatteryByNameFrom_no_match (mods : List BatteryModule) (name : String)
    (s : Globals) (rest : List BatteryModule) (k : ℕ) (h : ∀ b ∈ rest, b.name ≠ name) :
    selectBatteryByNameFrom mods name s rest k = s := by
  induction rest generalizing k with
  | nil => rfl
  | cons b rest ih =>
    have hb : ¬ name = b.name := fun e => h b (List.mem_cons_self _ _) e.symm
    simp only [selectBatteryByNameFrom, if_neg hb]
    exact ih (k + 1) (fun x hx => h x (List.mem_cons_of_mem _ hx))

theorem selectBatteryByNameFrom_first_match (mods : List BatteryModule) (name : String)
    (s : Globals) (pre : List BatteryModule) (b : BatteryModule) (post : List BatteryModule)
    (k : ℕ) (hpre : ∀ x ∈ pre, x.name ≠ name) (hb : b.name = name) :
    selectBatteryByNameFrom mods name s (pre ++ b :: post) k
      = (setActiveBattery mods ((k + pre.length : ℕ) : Int) s).2 := by
  induction pre generalizing k with
  | nil => simp [selectBatteryByNameFrom, hb]
  | cons x pre ih =>
    have hx : ¬ name = x.name := fun e => hpre x (List.mem_cons_self _ _) e.symm
    have hstep : selectBatteryByNameFrom mods name s ((x :: pre) ++ b :: post) k
        = selectBatteryByNameFrom mods name s (pre ++ b :: post) (k + 1) := by
      simp only [List.cons_append, selectBatteryByNameFrom, if_neg hx]
      rfl
    rw [hstep, ih (k + 1) (fun y hy => hpre y (List.mem_cons_of_mem _ hy))]
    simp only [List.length_cons]
    congr 3
    omega

theorem selectBatteryByName_of_nodup (mods : List BatteryModule)
    (hnd : (mods.map (fun b => b.name)).Nodup) (i : ℕ) (b : BatteryModule) (s : Globals)
    (hget : mods[i]? = some b) :
    selectBatteryByName mods b.name s = (setActiveBattery mods (i : Int) s).2 := by
  obtain ⟨hi, rfl⟩ := List.getElem?_eq_some.mp hget
  have hsplit : mods = mods.take i ++ mods[i] :: mods.drop (i + 1) := by
    rw [← List.drop_eq_getElem_cons hi, List.take_append_drop]
  have hlen : (mods.take i).length = i := by
    rw [List.length_take]; omega
  have hpre : ∀ x ∈ mods.take i, x.name ≠ mods[i].name := by
    intro x hx e
    rw [hsplit, List.map_append, List.map_cons] at hnd
    have hdis := (List.nodup_append.mp hnd).2.2
    exact hdis (List.mem_map_of_mem _ hx) (by rw [e]; exact List.mem_cons_self _ _)
  have h := selectBatteryByNameFrom_first_match mods mods[i].name s (mods.take i) mods[i]
    (mods.drop (i + 1)) 0 hpre rfl
  rw [← hsplit, hlen, Nat.zero_add] at h
  exact h

theorem batteryModules_names_nodup : (batteryModules.map (fun b => b.name)).Nodup := by
  decide

/-- C9: on the compiled-in table, a name that equals no profile name leaves the state as it
was, and the name of entry `i` has the effect of `setActiveBattery i`. -/
theorem selectBatteryByName_effect (name : String) (s : Globals) :
    ((∀ b ∈ batteryModules, b.name ≠ name) → selectBatteryByName batteryModules name s = s) ∧
    (∀ (i : ℕ) (b : BatteryModule), batteryModules[i]? = some b → b.name = name →
      selectBatteryByName batteryModules name s
        = (setActiveBattery batteryModules (i : Int) s).2) := by
  constructor
  · intro h
    exact selectBatteryByNameFrom_no_match batteryModules name s batteryModules 0 h
  · intro i b hget hb
    rw [← hb]
    exact selectBatteryByName_of_nodup batteryModules batteryModules_names_nodup i b s hget

/-- C9, evaluated: the unknown name "CR2" changes nothing, the name "CR2 3.3V 0.16A" of
entry 9 queues index 9. -/
theorem selectBatteryByName_effect_witness :
    selectBatteryByName batteryModules "CR2" bootGlobals = bootGlobals ∧
    selectBatteryByName batteryModules "CR2 3.3V 0.16A" bootGlobals
      = (setActiveBattery batteryModules 9 bootGlobals).2 ∧
    (selectBatteryByName batteryModules "CR2 3.3V 0.16A" bootGlobals).pendingBatteryIdx = 9 := by
  have h1 := (selectBatteryByName_effect "CR2" bootGlobals).1 (by decide)
  have h2 := (selectBatteryByName_effect "CR2 3.3V 0.16A" bootGlobals).2 9 _ rfl rfl
  have h9 := setActiveBattery_eq_queue batteryModules 9 _ bootGlobals rfl
  simp only [Nat.cast_ofNat] at h2 h9
  refine ⟨h1, h2, ?_⟩
  rw [h2, h9]
  rfl

/-! ## Response classifier -/

theorem strstrFrom_nonneg_iff (needle : List Char) (hay : List Char) (i : ℕ) :
    0 ≤ strstrFrom needle hay i ↔ needle <:+: hay := by
  induction hay generalizing i with
  | nil =>
    cases needle with
    | nil => simp [strstrFrom]
    | cons a l => simp [strstrFrom]
  | cons c cs ih =>
    rw [List.infix_cons_iff]
    by_cases hpre : needle.isPrefixOf (c :: cs) = true
    · simp only [strstrFrom, if_pos hpre]
      exact ⟨fun _ => Or.inl (List.isPrefixOf_iff_prefix.mp hpre), fun _ => by omega⟩
    · simp only [strstrFrom, if_neg hpre]
      rw [ih (i + 1)]
      constructor
      · exact fun h => Or.inr h
      · rintro (h | h)
        · exact absurd (List.isPrefixOf_iff_prefix.mpr h) hpre
        · exact h

theorem indexOf_nonneg_iff (r s : String) :
    0 ≤ indexOf r s ↔ r.data ≠ [] ∧ s.data <:+: r.data := by
  unfold indexOf
  by_cases hr : r.data = []
  · simp [hr]
  · have hlen : ¬ r.data.length ≤ 0 := by
      intro h
      exact hr (List.length_eq_zero.mp (Nat.le_zero.mp h))
    rw [if_neg hlen, strstrFrom_nonneg_iff]
    simp [hr]

theorem indexOf_nonneg_iff_of_ne (r s : String) (hs : s.data ≠ []) :
    0 ≤ indexOf r s ↔ s.data <:+: r.data := by
  rw [indexOf_nonneg_iff]
  constructor
  · exact fun h => h.2
  · intro h
    refine ⟨?_, h⟩
    intro hr
    rw [hr, List.infix_nil] at h
    exact hs h

theorem isDigit_toLowerChar (c : Char) : isDigit (toLowerChar c) = isDigit c := by
  unfold toLowerChar
  split_ifs with h
  · have h1 : 65 ≤ c.toNat := h.1
    have h2 : c.toNat ≤ 90 := h.2
    rw [← Char.ofNat_toNat c]
    generalize c.toNat = n at h1 h2
    interval_cases n <;> decide
  · rfl

theorem hasDigit_toLowerCase (r : String) : hasDigit (toLowerCase r) = hasDigit r := by
  unfold hasDigit toLowerCase
  simp only [List.any_map]
  congr 1
  funext c
  exact isDigit_toLowerChar c

theorem hasDigit_iff (r : String) : hasDigit r = true ↔ ∃ c ∈ r.data, isDigit c = true := by
  unfold hasDigit
  simp [List.any_eq_true]

/-- C10: `isSuccessResponse r k` holds exactly when the lowercased `r` contains one of
"success", "sucess", "ok", "done", or contains `k` while `r` contains an ASCII decimal
digit; and two responses that differ in letter case only are classified alike. -/
theorem isSuccessResponse_iff (r k : String) :
    (isSuccessResponse r k = true ↔
      ("success".data <:+: (toLowerCase r).data ∨ "sucess".data <:+: (toLowerCase r).data ∨
        "ok".data <:+: (toLowerCase r).data ∨ "done".data <:+: (toLowerCase r).data ∨
        (k.data <:+: (toLowerCase r).data ∧ ∃ c ∈ r.data, isDigit c = true))) ∧
    (∀ r2 : String, toLowerCase r2 = toLowerCase r →
      isSuccessResponse r2 k = isSuccessResponse r k) := by
  constructor
  · have e1 := indexOf_nonneg_iff_of_ne (toLowerCase r) "success" (by decide)
    have e2 := indexOf_nonneg_iff_of_ne (toLowerCase r) "sucess" (by decide)
    have e3 := indexOf_nonneg_iff_of_ne (toLowerCase r) "ok" (by decide)
    have e4 := indexOf_nonneg_iff_of_ne (toLowerCase r) "done" (by decide)
    have e5 := indexOf_nonneg_iff (toLowerCase r) k
    have hd := hasDigit_iff r
    rw [← hasDigit_toLowerCase r] at hd
    have hne : hasDigit (toLowerCase r) = true → (toLowerCase r).data ≠ [] := by
      intro h he
      simp [hasDigit, he] at h
    rw [← e1, ← e2, ← e3, ← e4, ← hd]
    unfold isSuccessResponse
    simp only [ge_iff_le]
    split_ifs with h1 h2 h3 h4 h5
    · simp [h1]
    · simp [h2]
    · simp [h3]
    · simp [h4]
    · have h5' := (e5.mp h5).2
      simp [h1, h2, h3, h4, h5']
    · simp only [h1, h2, h3, h4, false_or, Bool.false_eq_true, false_iff, not_and]
      intro hk hdig
      exact h5 (e5.mpr ⟨hne hdig, hk⟩)
  · intro r2 h
    unfold isSuccessResponse
    simp only [h]

/-- C10, evaluated: ("OVP:24.2","ovp") and ("done","ocp") are successes, ("noise","ocp") is
not, and the lower-case spelling of the first is classified like the original. -/
theorem isSuccessResponse_iff_witness :
    isSuccessResponse "OVP:24.2" "ovp" = true ∧
    isSuccessResponse "done" "ocp" = true ∧
    isSuccessResponse "noise" "ocp" = false ∧
    isSuccessResponse "ovp:24.2" "ovp" = isSuccessResponse "OVP:24.2" "ovp" :=
  ⟨by decide, by decide, by decide,
    (isSuccessResponse_iff "OVP:24.2" "ovp").2 "ovp:24.2" (by decide)⟩


/-- C11: `isFailureResponse r` holds exactly when the lowercased `r` contains "fail" or
"error". -/
theorem isFailureResponse_iff (r : String) :
    isFailureResponse r = true ↔
      ("fail".data <:+: (toLowerCase r).data ∨ "error".data <:+: (toLowerCase r).data) := by
  have e1 := indexOf_nonneg_iff_of_ne (toLowerCase r) "fail" (by decide)
  have e2 := indexOf_nonneg_iff_of_ne (toLowerCase r) "error" (by decide)
  rw [← e1, ← e2]
  unfold isFailureResponse
  simp only [ge_iff_le]
  split_ifs with h1 h2
  · simp [h1]
  · simp [h2]
  · simp [h1, h2]

/-- C11, evaluated: "ERROR: bad value" is a failure response, "OVP:24.2" is not. -/
theorem isFailureResponse_iff_witness :
    isFailureResponse "ERROR: bad value" = true ∧
    "error".data <:+: (toLowerCase "ERROR: bad value").data ∧
    isFailureResponse "OVP:24.2" = false :=
  ⟨by decide,
    ((isFailureResponse_iff "ERROR: bad value").mp (by decide)).resolve_left (by decide),
    by decide⟩

/-! ## Confirmed command -/

theorem responseAt_zero_write_collect (l : Link) (f : Frame) :
    aggregateResponse (l.write f).collect.1 = responseAt l 0 := by
  unfold responseAt Link.collect Link.write
  cases h : l.script <;> simp [h]

theorem write_collect_link (l : Link) (f : Frame) :
    (l.write f).collect.2 = ⟨l.sent ++ [f], l.script.drop 1⟩ := by
  unfold Link.collect Link.write
  cases h : l.script <;> simp [h]

theorem confirmLoop_succ (cmd key : String) (n a : ℕ) (l : Link) :
    confirmLoop cmd key (n + 1) a l =
      if (!isFailureResponse (responseAt l 0) && isSuccessResponse (responseAt l 0) key) = true
      then (true, ⟨l.sent ++ [⟨cmd, !(a % 2 == 1)⟩], l.script.drop 1⟩)
      else confirmLoop cmd key n (a + 1) ⟨l.sent ++ [⟨cmd, !(a % 2 == 1)⟩], l.script.drop 1⟩ := by
  rw [confirmLoop]
  simp only [responseAt_zero_write_collect, write_collect_link]
  cases hf : isFailureResponse (responseAt l 0) <;>
    cases hs : isSuccessResponse (responseAt l 0) key <;> simp

theorem attemptFrames_three (cmd : String) :
    attemptFrames cmd 3 = [⟨cmd, false⟩, ⟨cmd, true⟩, ⟨cmd, false⟩] := by
  simp [attemptFrames, List.range_succ]

theorem attemptFrames_two (cmd : String) :
    attemptFrames cmd 2 = [⟨cmd, false⟩, ⟨cmd, true⟩] := by
  simp [attemptFrames, List.range_succ]

theorem attemptFrames_one (cmd : String) : attemptFrames cmd 1 = [⟨cmd, false⟩] := by
  simp [attemptFrames, List.range_succ]

/-- The whole behaviour of `sendCommandWithConfirm` in terms of the first three responses. -/
theorem sendCommandWithConfirm_cases (cmd : String) (l : Link) :
    sendCommandWithConfirm cmd l =
      if confirms cmd (responseAt l 0) = true then
        (true, ⟨l.sent ++ attemptFrames cmd 1, l.script.drop 1⟩)
      else if confirms cmd (responseAt l 1) = true then
        (true, ⟨l.sent ++ attemptFrames cmd 2, l.script.drop 2⟩)
      else if confirms cmd (responseAt l 2) = true then
        (true, ⟨l.sent ++ attemptFrames cmd 3, l.script.drop 3⟩)
      else (false, ⟨l.sent ++ attemptFrames cmd 3, l.script.drop 3⟩) := by
  unfold sendCommandWithConfirm MAX_RETRIES confirms
  rw [confirmLoop_succ, confirmLoop_succ, confirmLoop_succ]
  simp [responseAt, List.getD_eq_getElem?_getD, List.getElem?_drop, confirmLoop,
    attemptFrames_one, attemptFrames_two, attemptFrames_three]

theorem attemptFrames_length (cmd : String) (m : ℕ) : (attemptFrames cmd m).length = m := by
  simp [attemptFrames]

theorem attemptFrames_inj (cmd : String) {m n : ℕ} (pre : List Frame)
    (h : pre ++ attemptFrames cmd m = pre ++ attemptFrames cmd n) : m = n := by
  have := congrArg List.length (List.append_cancel_left h)
  simpa [attemptFrames_length] using this

/-- C12: failure wins over success. An attempt whose aggregated response is a failure
response never ends the call with `true` (the call does not return `true` after exactly
that many transmissions), whatever else the response contains; and when the responses of
all three attempts are failure responses the call returns `false` after three
transmissions. -/
theorem sendCommandWithConfirm_failure_wins (cmd : String) (l : Link) :
    (∀ i, i < 3 → isFailureResponse (responseAt l i) = true →
      ¬ ((sendCommandWithConfirm cmd l).1 = true ∧
        (sendCommandWithConfirm cmd l).2.sent = l.sent ++ attemptFrames cmd (i + 1))) ∧
    ((∀ i, i < 3 → isFailureResponse (responseAt l i) = true) →
      (sendCommandWithConfirm cmd l).1 = false ∧
      (sendCommandWithConfirm cmd l).2.sent = l.sent ++ attemptFrames cmd 3) := by
  have hc : ∀ i, isFailureResponse (responseAt l i) = true →
      confirms cmd (responseAt l i) = false := by
    intro i h
    simp [confirms, h]
  rw [sendCommandWithConfirm_cases]
  constructor
  · intro i hi hf
    have hci := hc i hf
    rintro ⟨hres, hsent⟩
    split_ifs at hres hsent with h0 h1 h2
    · have := attemptFrames_inj cmd l.sent hsent
      have : i = 0 := by omega
      subst this
      rw [hci] at h0
      exact Bool.false_ne_true h0
    · have := attemptFrames_inj cmd l.sent hsent
      have : i = 1 := by omega
      subst this
      rw [hci] at h1
      exact Bool.false_ne_true h1
    · have := attemptFrames_inj cmd l.sent hsent
      have : i = 2 := by omega
      subst this
      rw [hci] at h2
      exact Bool.false_ne_true h2
  · intro hall
    have h0 := hc 0 (hall 0 (by omega))
    have h1 := hc 1 (hall 1 (by omega))
    have h2 := hc 2 (hall 2 (by omega))
    simp [h0, h1, h2]

/-- C12, evaluated: three attempts that each collect "OK error" give `false` after three
transmissions, although "ok" alone would confirm. -/
theorem sendCommandWithConfirm_failure_wins_witness :
    isFailureResponse "OK error" = true ∧ isSuccessResponse "OK error" "ocp" = true ∧
    ((sendCommandWithConfirm "OCP:1.45" ⟨[], ["OK error", "OK error", "OK error"]⟩).1 = false ∧
      (sendCommandWithConfirm "OCP:1.45" ⟨[], ["OK error", "OK error", "OK error"]⟩).2.sent
        = [] ++ attemptFrames "OCP:1.45" 3) ∧
    (sendCommandWithConfirm "OCP:1.45" ⟨[], ["OK", "OK error", "OK error"]⟩).1 = true :=
  ⟨by decide, by decide,
    (sendCommandWithConfirm_failure_wins "OCP:1.45"
      ⟨[], ["OK error", "OK error", "OK error"]⟩).2 (by decide),
    by decide⟩

/-- C13: `sendCommandWithConfirm` returns `true` exactly when one of the first three
responses confirms the command (no failure response, and a success response for the
command's key). It transmits the command `i + 1` times when response `i` (counted from 0)
is the first confirming one, and three times, returning `false`, when none confirms; it
reads exactly as many responses as it transmits. -/
theorem sendCommandWithConfirm_iff (cmd : String) (l : Link) :
    ((sendCommandWithConfirm cmd l).1 = true ↔
      ∃ i, i < 3 ∧ confirms cmd (responseAt l i) = true) ∧
    (∀ i, i < 3 → confirms cmd (responseAt l i) = true →
      (∀ j, j < i → confirms cmd (responseAt l j) = false) →
      sendCommandWithConfirm cmd l
        = (true, ⟨l.sent ++ attemptFrames cmd (i + 1), l.script.drop (i + 1)⟩)) ∧
    ((∀ i, i < 3 → confirms cmd (responseAt l i) = false) →
      sendCommandWithConfirm cmd l
        = (false, ⟨l.sent ++ attemptFrames cmd 3, l.script.drop 3⟩)) := by
  rw [sendCommandWithConfirm_cases]
  refine ⟨?_, ?_, ?_⟩
  · split_ifs with h0 h1 h2
    · exact ⟨fun _ => ⟨0, by omega, h0⟩, fun _ => rfl⟩
    · exact ⟨fun _ => ⟨1, by omega, h1⟩, fun _ => rfl⟩
    · exact ⟨fun _ => ⟨2, by omega, h2⟩, fun _ => rfl⟩
    · refine ⟨fun h => False.elim h, ?_⟩
      rintro ⟨i, hi, hc⟩
      interval_cases i
      · exact absurd hc h0
      · exact absurd hc h1
      · exact absurd hc h2
  · intro i hi hc hlt
    interval_cases i
    · simp [hc]
    · simp [hc, hlt 0 (by omega)]
    · simp [hc, hlt 0 (by omega), hlt 1 (by omega)]
  · intro hall
    simp [hall 0 (by omega), hall 1 (by omega), hall 2 (by omega)]

/-- C13, evaluated on "OCP:1.45": no bytes, then a failure response, then the echo
"ocp:1.45" give `true` after three transmissions, the fourth response left unread; with
only the first two responses the call returns `false` after three transmissions. -/
theorem sendCommandWithConfirm_iff_witness :
    sendCommandWithConfirm "OCP:1.45" ⟨[], ["", "OK error", "ocp:1.45\r\n", "ok"]⟩
      = (true, ⟨attemptFrames "OCP:1.45" 3, ["ok"]⟩) ∧
    sendCommandWithConfirm "OCP:1.45" ⟨[], ["", "OK error"]⟩
      = (false, ⟨attemptFrames "OCP:1.45" 3, []⟩) ∧
    sendCommandWithConfirm "OCP:1.45" ⟨[], ["ok", "ok"]⟩
      = (true, ⟨attemptFrames "OCP:1.45" 1, ["ok"]⟩) := by
  have h := (sendCommandWithConfirm_iff "OCP:1.45"
    ⟨[], ["", "OK error", "ocp:1.45\r\n", "ok"]⟩).2.1 2 (by omega) (by decide) (by decide)
  exact ⟨h, by decide, by decide⟩

/-- C14: the frames written by one call are the first `m` (1 ≤ m ≤ 3) of: the command
without line terminator, the command with line terminator, the command without line
terminator; the text is the command in each, and on the wire a terminated frame is the
command followed by CR LF. -/
theorem sendCommandWithConfirm_framing (cmd : String) (l : Link) :
    (∃ m, 1 ≤ m ∧ m ≤ 3 ∧ (sendCommandWithConfirm cmd l).2.sent =
      l.sent ++ ([⟨cmd, false⟩, ⟨cmd, true⟩, ⟨cmd, false⟩] : List Frame).take m) ∧
    Frame.wireBytes ⟨cmd, false⟩ = cmd ∧ Frame.wireBytes ⟨cmd, true⟩ = cmd ++ "\r\n" := by
  refine ⟨?_, rfl, rfl⟩
  rw [sendCommandWithConfirm_cases]
  split_ifs
  · exact ⟨1, by omega, by omega, by simp [attemptFrames_one]⟩
  · exact ⟨2, by omega, by omega, by simp [attemptFrames_two]⟩
  · exact ⟨3, by omega, by omega, by simp [attemptFrames_three]⟩
  · exact ⟨3, by omega, by omega, by simp [attemptFrames_three]⟩

/-- C14, evaluated on a device that never answers: "stop", "stop" CR LF, "stop". -/
theorem sendCommandWithConfirm_framing_witness :
    ((sendCommandWithConfirm "stop" ⟨[], []⟩).2.sent.map Frame.wireBytes)
      = ["stop", "stop\r\n", "stop"] ∧
    (∃ m, 1 ≤ m ∧ m ≤ 3 ∧ (sendCommandWithConfirm "stop" ⟨[], []⟩).2.sent =
      [] ++ ([⟨"stop", false⟩, ⟨"stop", true⟩, ⟨"stop", false⟩] : List Frame).take m) :=
  ⟨by decide, (sendCommandWithConfirm_framing "stop" ⟨[], []⟩).1⟩

/-! ## Command key -/

theorem strchrFrom_of_not_mem (ch : Char) (cs : List Char) (i : ℕ) (h : ch ∉ cs) :
    strchrFrom ch cs i = -1 := by
  induction cs generalizing i with
  | nil => rfl
  | cons c cs ih =>
    have hc : ¬ c = ch := fun e => h (by rw [e]; exact List.mem_cons_self _ _)
    simp only [strchrFrom, if_neg hc]
    exact ih (i + 1) (fun hm => h (List.mem_cons_of_mem _ hm))

theorem strchrFrom_first (ch : Char) (pre post : List Char) (i : ℕ) (h : ch ∉ pre) :
    strchrFrom ch (pre ++ ch :: post) i = ((i + pre.length : ℕ) : Int) := by
  induction pre generalizing i with
  | nil => simp [strchrFrom]
  | cons c pre ih =>
    have hc : ¬ c = ch := fun e => h (by rw [e]; exact List.mem_cons_self _ _)
    have hstep : strchrFrom ch ((c :: pre) ++ ch :: post) i
        = strchrFrom ch (pre ++ ch :: post) (i + 1) := by
      simp only [List.cons_append, strchrFrom, if_neg hc]
      rfl
    rw [hstep, ih (i + 1) (fun hm => h (List.mem_cons_of_mem _ hm))]
    simp only [List.length_cons]
    congr 1
    omega

theorem indexOfChar_nonneg_iff (s : String) (ch : Char) :
    0 ≤ indexOfChar s ch ↔ ch ∈ s.data := by
  unfold indexOfChar
  by_cases hm : ch ∈ s.data
  · obtain ⟨pre, post, hsplit, hpre⟩ : ∃ pre post, s.data = pre ++ ch :: post ∧ ch ∉ pre := by
      obtain ⟨pre, post, h1, h2⟩ := List.eq_append_cons_of_mem hm
      exact ⟨pre, post, h1, h2⟩
    have hlen : ¬ s.data.length ≤ 0 := by
      rw [hsplit]; simp
    rw [if_neg hlen, hsplit, strchrFrom_first ch pre post 0 hpre]
    simp [hm, ← hsplit]
  · have h1 : strchrFrom ch s.data 0 = -1 := strchrFrom_of_not_mem ch s.data 0 hm
    simp only [hm, iff_false, not_le]
    split_ifs
    · omega
    · rw [h1]; omega

/-- C15: for a command of representable length, the key is the lowercased text before the
first ':' when there is one, and the whole lowercased command when there is none (the `-1`
of `indexOf` becomes the largest `unsigned int`, which `substring` caps at the length);
this key is the one the attempts of `sendCommandWithConfirm` classify with. -/
theorem commandKey_spec (cmd : String) (hlen : cmd.data.length < 4294967296) :
    (∀ pre post : List Char, cmd.data = pre ++ ':' :: post → ':' ∉ pre →
      commandKey cmd = toLowerCase ⟨pre⟩) ∧
    (':' ∉ cmd.data → commandKey cmd = toLowerCase cmd) ∧
    (∀ l : Link, sendCommandWithConfirm cmd l
      = confirmLoop cmd (commandKey cmd) MAX_RETRIES 1 l) := by
  refine ⟨?_, ?_, fun _ => rfl⟩
  · intro pre post hsplit hpre
    have hlen0 : ¬ cmd.data.length ≤ 0 := by
      rw [hsplit]; simp
    have hidx : indexOfChar cmd ':' = (pre.length : Int) := by
      unfold indexOfChar
      rw [if_neg hlen0, hsplit, strchrFrom_first ':' pre post 0 hpre]
      simp
    have hpl : pre.length < cmd.data.length := by
      rw [hsplit]; simp
    have hu : toUnsigned (pre.length : Int) = pre.length := by
      unfold toUnsigned
      omega
    unfold commandKey
    rw [hidx, hu]
    unfold substring
    have h1 : ¬ (0 > pre.length) := by omega
    have h3 : ¬ (pre.length > cmd.data.length) := by omega
    simp only [h1, if_false, ge_iff_le, hlen0, h3, List.drop_zero, Nat.sub_zero]
    rw [hsplit, List.take_left']
    rfl
  · intro hno
    have hidx : indexOfChar cmd ':' = -1 := by
      unfold indexOfChar
      split_ifs
      · rfl
      · exact strchrFrom_of_not_mem ':' cmd.data 0 hno
    have hu : toUnsigned (-1) = 4294967295 := by decide
    unfold commandKey
    rw [hidx, hu]
    unfold substring
    have h1 : ¬ (0 > 4294967295) := by omega
    simp only [h1, if_false, ge_iff_le, List.drop_zero, Nat.sub_zero]
    by_cases h0 : cmd.data.length ≤ 0
    · have he : cmd.data = [] := List.length_eq_zero.mp (Nat.le_zero.mp h0)
      rw [if_pos h0]
      unfold toLowerCase
      rw [he]
    · rw [if_neg h0]
      by_cases h2 : 4294967295 > cmd.data.length
      · rw [if_pos h2, List.take_length]
      · have h3 : cmd.data.length = 4294967295 := by omega
        rw [if_neg h2, ← h3, List.take_length]

/-- C15, evaluated: the keys of "OVP:24.2", "1.30A" and "stop" are "ovp", "1.30a" and
"stop"; a response "noise 5", which an empty key would accept, does not confirm "stop". -/
theorem commandKey_spec_witness :
    commandKey "OVP:24.2" = "ovp" ∧ commandKey "1.30A" = "1.30a" ∧ commandKey "stop" = "stop" ∧
    isSuccessResponse "noise 5" "" = true ∧
    (sendCommandWithConfirm "stop" ⟨[], ["noise 5", "noise 5", "noise 5"]⟩).1 = false ∧
    (sendCommandWithConfirm "1.30A" ⟨[], ["1.30A"]⟩).1 = true := by
  have h := (commandKey_spec "stop" (by decide)).2.1 (by decide)
  exact ⟨by decide, by decide, h, by decide, by decide, by decide⟩

/-! ## Variant probe -/

theorem all_zip_toLower_iff (a b : List Char) (h : a.length = b.length) :
    (a.zip b).all (fun p => toLowerChar p.1 == toLowerChar p.2) = true ↔
      a.map toLowerChar = b.map toLowerChar := by
  induction a generalizing b with
  | nil =>
    cases b with
    | nil => simp
    | cons y ys => simp at h
  | cons x xs ih =>
    cases b with
    | nil => simp at h
    | cons y ys =>
      have h' : xs.length = ys.length := by simpa using h
      simp only [List.zip_cons_cons, List.all_cons, Bool.and_eq_true, beq_iff_eq, List.map_cons,
        List.cons.injEq, ih ys h']

theorem equalsIgnoreCase_iff (a b : String) :
    equalsIgnoreCase a b = true ↔ toLowerCase a = toLowerCase b := by
  have hmk : toLowerCase a = toLowerCase b ↔
      a.data.map toLowerChar = b.data.map toLowerChar := by
    unfold toLowerCase
    exact ⟨fun h => congrArg String.data h, fun h => congrArg String.mk h⟩
  rw [hmk]
  unfold equalsIgnoreCase
  by_cases hl : a.data.length = b.data.length
  · simp only [hl, decide_True, Bool.true_and]
    exact all_zip_toLower_iff a.data b.data hl
  · simp only [hl, decide_False, Bool.false_and, Bool.false_eq_true, false_iff]
    intro h
    exact hl (by simpa using congrArg List.length h)

theorem truncToInt_intCast (z : ℤ) (hlo : -2147483648 ≤ z) (hhi : z ≤ 2147483647) :
    truncToInt (z : ℚ) = z := by
  have ht : (if (0 : ℚ) ≤ (z : ℚ) then ⌊(z : ℚ)⌋ else -⌊-(z : ℚ)⌋) = z := by
    split_ifs
    · exact Int.floor_intCast z
    · rw [← Int.cast_neg, Int.floor_intCast]
      omega
  unfold truncToInt
  simp only [ht]
  rw [if_pos ⟨hlo, hhi⟩]

theorem toFloat_24_2 : toFloat "24.2" = 121 / 5 := by
  have hp : parseDecimal "24.2" = ⟨false, 242, 1, 0⟩ := by decide
  unfold toFloat
  rw [hp]
  norm_num

theorem stringOfFloat_24_2_one : stringOfFloat (121 / 5) 1 = "24.2" := by
  have hm : scaledMagnitude (121 / 5 : ℚ) 1 = 242 := by
    unfold scaledMagnitude
    rw [abs_of_nonneg (by norm_num)]
    norm_num
    rfl
  unfold stringOfFloat
  rw [hm]
  norm_num
  decide

theorem stringOfFloat_24_2_three : stringOfFloat (121 / 5) 3 = "24.200" := by
  have hm : scaledMagnitude (121 / 5 : ℚ) 3 = 24200 := by
    unfold scaledMagnitude
    rw [abs_of_nonneg (by norm_num)]
    norm_num
    rfl
  unfold stringOfFloat
  rw [hm]
  norm_num
  decide

theorem millivolts_24_2 : stringOfInt (truncToInt (roundf ((121 / 5 : ℚ) * 1000))) = "24200" := by
  have hr : roundf ((121 / 5 : ℚ) * 1000) = ((24200 : ℤ) : ℚ) := by
    norm_num [roundf]
  rw [hr, truncToInt_intCast _ (by decide) (by decide)]
  decide

theorem sendEach_cons (v : String) (vs : List String) (l : Link) :
    sendEach (v :: vs) l = sendEach vs (sendCommandWithConfirm v l).2 := rfl

theorem tryVariants_cons (v : String) (rest : List String) (l : Link) :
    tryVariants (v :: rest) l =
      if (sendCommandWithConfirm v l).1 = true then (true, (sendCommandWithConfirm v l).2)
      else tryVariants rest (sendCommandWithConfirm v l).2 := by
  rw [tryVariants]

theorem tryVariants_false_iff (vs : List String) (l : Link) :
    (tryVariants vs l).1 = false ↔
      ∀ pre v post, vs = pre ++ v :: post →
        (sendCommandWithConfirm v (sendEach pre l)).1 = false := by
  induction vs generalizing l with
  | nil =>
    constructor
    · intro _ pre v post h
      exact absurd h (by simp)
    · intro _
      rfl
  | cons v rest ih =>
    rw [tryVariants_cons]
    by_cases h0 : (sendCommandWithConfirm v l).1 = true
    · rw [if_pos h0]
      constructor
      · intro h
        exact absurd h (by simp)
      · intro h
        have := h [] v rest rfl
        rw [show sendEach [] l = l from rfl, h0] at this
        exact absurd this (by simp)
    · rw [if_neg h0, ih]
      have h0' : (sendCommandWithConfirm v l).1 = false := by
        simpa using h0
      constructor
      · intro h pre w post hsplit
        cases pre with
        | nil =>
          simp only [List.nil_append, List.cons.injEq] at hsplit
          rw [← hsplit.1]
          exact h0'
        | cons x pre' =>
          simp only [List.cons_append, List.cons.injEq] at hsplit
          rw [← hsplit.1, sendEach_cons]
          exact h pre' w post hsplit.2
      · intro h pre w post hsplit
        have := h (v :: pre) w post (by rw [hsplit]; rfl)
        rw [sendEach_cons] at this
        exact this

theorem tryVariants_false_link (vs : List String) (l : Link)
    (h : (tryVariants vs l).1 = false) : (tryVariants vs l).2 = sendEach vs l := by
  induction vs generalizing l with
  | nil => rfl
  | cons v rest ih =>
    rw [tryVariants_cons] at h ⊢
    by_cases h0 : (sendCommandWithConfirm v l).1 = true
    · rw [if_pos h0] at h
      exact absurd h (by simp)
    · rw [if_neg h0] at h ⊢
      rw [sendEach_cons]
      exact ih _ h

theorem tryVariants_true (vs : List String) (l : Link) (h : (tryVariants vs l).1 = true) :
    ∃ pre v post, vs = pre ++ v :: post ∧ (tryVariants pre l).1 = false ∧
      sendCommandWithConfirm v (sendEach pre l) = (true, (tryVariants vs l).2) := by
  induction vs generalizing l with
  | nil => exact absurd h (by simp [tryVariants])
  | cons v rest ih =>
    rw [tryVariants_cons] at h ⊢
    by_cases h0 : (sendCommandWithConfirm v l).1 = true
    · rw [if_pos h0]
      exact ⟨[], v, rest, rfl, rfl, Prod.ext h0 rfl⟩
    · rw [if_neg h0] at h ⊢
      obtain ⟨pre, w, post, hsplit, hpre, hw⟩ := ih _ h
      refine ⟨v :: pre, w, post, by rw [hsplit]; rfl, ?_, ?_⟩
      · rw [tryVariants_cons, if_neg h0]
        exact hpre
      · rw [sendEach_cons]
        exact hw

/-- C17: `sendParamVariants` tries the built variants in list order. If it returns `true`,
some variant `v` was confirmed after every earlier one had failed, and the link is left
exactly as that confirmation left it (nothing of the later variants is transmitted). It
returns `false` exactly when every variant, tried in turn, fails confirmation, and then
every variant has been sent. -/
theorem sendParamVariants_first_confirmed (key value : String) (l : Link) :
    ((sendParamVariants key value l).1 = true →
      ∃ pre v post,
        (buildVariants key value).variants.take (buildVariants key value).count
          = pre ++ v :: post ∧
        (∀ p w q, pre = p ++ w :: q → (sendCommandWithConfirm w (sendEach p l)).1 = false) ∧
        sendCommandWithConfirm v (sendEach pre l) = (true, (sendParamVariants key value l).2)) ∧
    ((sendParamVariants key value l).1 = false ↔
      ∀ pre v post,
        (buildVariants key value).variants.take (buildVariants key value).count
          = pre ++ v :: post →
        (sendCommandWithConfirm v (sendEach pre l)).1 = false) ∧
    ((sendParamVariants key value l).1 = false →
      (sendParamVariants key value l).2 =
        sendEach ((buildVariants key value).variants.take (buildVariants key value).count) l) := by
  refine ⟨?_, ?_, ?_⟩
  · intro h
    obtain ⟨pre, v, post, hsplit, hpre, hv⟩ := tryVariants_true _ l h
    exact ⟨pre, v, post, hsplit, (tryVariants_false_iff pre l).mp hpre, hv⟩
  · exact tryVariants_false_iff _ l
  · exact tryVariants_false_link _ l

theorem buildVariants_OVP_24_2 :
    buildVariants "OVP" "24.2"
      = ⟨["OVP:24.2", "OVP:24.2", "OVP:24.200", "OVP:24200", ""], 4⟩ := by
  have hdot : decide (indexOfChar "24.2" '.' ≥ 0) = true := by decide
  have hk : (equalsIgnoreCase "OVP" "OVP" || equalsIgnoreCase "OVP" "LVP") = true := by decide
  unfold buildVariants
  simp only [hdot, hk, toFloat_24_2, stringOfFloat_24_2_one, stringOfFloat_24_2_three,
    millivolts_24_2, if_true]
  decide

theorem sendParamVariants_OVP_24_2 (l : Link) :
    sendParamVariants "OVP" "24.2" l
      = tryVariants ["OVP:24.2", "OVP:24.2", "OVP:24.200", "OVP:24200"] l := by
  unfold sendParamVariants
  rw [buildVariants_OVP_24_2]
  rfl

/-- C17, evaluated for "OVP" / "24.2": when the first variant gets no answer three times and
the second is confirmed at once, the call returns `true` after four transmissions of
"OVP:24.2" and neither "OVP:24.200" nor "OVP:24200" is sent; when nothing ever answers it
returns `false` after all four variants were sent three times each. -/
theorem sendParamVariants_first_confirmed_witness :
    sendParamVariants "OVP" "24.2" ⟨[], ["", "", "", "ok", "ok"]⟩
      = (true, ⟨attemptFrames "OVP:24.2" 3 ++ attemptFrames "OVP:24.2" 1, ["ok"]⟩) ∧
    (sendParamVariants "OVP" "24.2" ⟨[], []⟩).1 = false ∧
    (sendParamVariants "OVP" "24.2" ⟨[], []⟩).2 =
      sendEach ((buildVariants "OVP" "24.2").variants.take (buildVariants "OVP" "24.2").count)
        ⟨[], []⟩ ∧
    (sendParamVariants "OVP" "24.2" ⟨[], []⟩).2.sent.map Frame.text =
      ["OVP:24.2", "OVP:24.2", "OVP:24.2", "OVP:24.2", "OVP:24.2", "OVP:24.2",
        "OVP:24.200", "OVP:24.200", "OVP:24.200", "OVP:24200", "OVP:24200", "OVP:24200"] := by
  have hf : (sendParamVariants "OVP" "24.2" ⟨[], []⟩).1 = false := by
    rw [sendParamVariants_OVP_24_2]
    decide
  refine ⟨?_, hf, (sendParamVariants_first_confirmed "OVP" "24.2" ⟨[], []⟩).2.2 hf, ?_⟩
  · rw [sendParamVariants_OVP_24_2]
    decide
  · rw [sendParamVariants_OVP_24_2]
    decide

/-! ## Staged apply -/

theorem sendCommandWithConfirm_sent (cmd : String) (l : Link) :
    ∃ m, 1 ≤ m ∧ m ≤ 3 ∧ (sendCommandWithConfirm cmd l).2.sent = l.sent ++ attemptFrames cmd m := by
  rw [sendCommandWithConfirm_cases]
  split_ifs
  · exact ⟨1, by omega, by omega, rfl⟩
  · exact ⟨2, by omega, by omega, rfl⟩
  · exact ⟨3, by omega, by omega, rfl⟩
  · exact ⟨3, by omega, by omega, rfl⟩

theorem sendEach_sent (cmds : List String) (l : Link) :
    ∃ ms : List ℕ, ms.length = cmds.length ∧ (∀ m ∈ ms, 1 ≤ m ∧ m ≤ 3) ∧
      (sendEach cmds l).sent = l.sent ++ (List.zipWith attemptFrames cmds ms).flatten := by
  induction cmds generalizing l with
  | nil => exact ⟨[], rfl, by simp, by simp [sendEach]⟩
  | cons c rest ih =>
    obtain ⟨m, hm1, hm3, hm⟩ := sendCommandWithConfirm_sent c l
    obtain ⟨ms, hlen, hall, hs⟩ := ih (sendCommandWithConfirm c l).2
    refine ⟨m :: ms, by simp [hlen], ?_, ?_⟩
    · intro x hx
      rcases List.mem_cons.mp hx with rfl | hx
      · exact ⟨hm1, hm3⟩
      · exact hall x hx
    · rw [sendEach_cons, hs, hm]
      simp [List.append_assoc]

theorem tryVariants_sent (vs : List String) (l : Link) :
    ∃ ms : List ℕ, ms.length ≤ vs.length ∧ (vs ≠ [] → 1 ≤ ms.length) ∧
      (∀ m ∈ ms, 1 ≤ m ∧ m ≤ 3) ∧
      (tryVariants vs l).2.sent = l.sent ++ (List.zipWith attemptFrames vs ms).flatten := by
  induction vs generalizing l with
  | nil => exact ⟨[], by simp, by simp, by simp, by simp [tryVariants]⟩
  | cons v rest ih =>
    obtain ⟨m, hm1, hm3, hm⟩ := sendCommandWithConfirm_sent v l
    rw [tryVariants_cons]
    by_cases h0 : (sendCommandWithConfirm v l).1 = true
    · rw [if_pos h0]
      refine ⟨[m], by simp, by simp, ?_, ?_⟩
      · intro x hx
        rw [List.mem_singleton] at hx
        subst hx
        exact ⟨hm1, hm3⟩
      · simp [hm]
    · rw [if_neg h0]
      obtain ⟨ms, hlen, _, hall, hs⟩ := ih (sendCommandWithConfirm v l).2
      refine ⟨m :: ms, by simp; omega, by simp, ?_, ?_⟩
      · intro x hx
        rcases List.mem_cons.mp hx with rfl | hx
        · exact ⟨hm1, hm3⟩
        · exact hall x hx
      · rw [hs, hm]
        simp [List.append_assoc]

theorem stringOfFloat_one_has_dot (x : ℚ) : '.' ∈ (stringOfFloat x 1).data := by
  unfold stringOfFloat
  simp [String.data_append]

theorem ovpVariants_take (x : ℚ) :
    (buildVariants "OVP" (stringOfFloat x 1)).variants.take
        (buildVariants "OVP" (stringOfFloat x 1)).count
      = ["OVP:" ++ stringOfFloat x 1,
          "OVP:" ++ stringOfFloat (toFloat (stringOfFloat x 1)) 1,
          "OVP:" ++ stringOfFloat (toFloat (stringOfFloat x 1)) 3,
          "OVP:" ++ stringOfInt (truncToInt (roundf (toFloat (stringOfFloat x 1) * 1000)))] := by
  have hdot : decide (indexOfChar (stringOfFloat x 1) '.' ≥ 0) = true := by
    simp only [decide_eq_true_eq, ge_iff_le]
    exact (indexOfChar_nonneg_iff _ '.').mpr (stringOfFloat_one_has_dot x)
  have hk : (equalsIgnoreCase "OVP" "OVP" || equalsIgnoreCase "OVP" "LVP") = true := by decide
  have hp : ("OVP" ++ ":" : String) = "OVP:" := by decide
  unfold buildVariants
  simp only [hdot, hk, if_true, VariantTable.store, hp]
  rfl

theorem doCmd_snd (payload : String) (st : ℕ × Link) :
    (doCmd payload st).2 = (sendCommandWithConfirm payload st.2).2 := rfl

theorem doCmd_fst (payload : String) (st : ℕ × Link) :
    (doCmd payload st).1 = st.1 + (sendCommandWithConfirm payload st.2).1.toNat := by
  unfold doCmd
  cases h : (sendCommandWithConfirm payload st.2).1 <;> simp [h]

theorem processPendingBattery_link (g : Globals) (l : Link) (h : 0 ≤ g.pendingBatteryIdx) :
    (processPendingBattery g l).link =
      sendCommandNoNL "start"
        (sendParamVariants "OVP" (stringOfFloat g.pendingOVP 1)
          (sendEach [g.TEST_LOAD ++ "A", "OCP:" ++ stringOfFloat g.pendingOCP 2,
              "OPP:" ++ stringOfFloat g.pendingOPP 2, "LVP:" ++ stringOfFloat g.pendingLVP 1,
              "OAH:" ++ stringOfFloat g.pendingOAH 3, "OHP:" ++ g.pendingOHP]
            (sendCommandNoNL "stop" l))).2 := by
  have hn : ¬ g.pendingBatteryIdx < 0 := by omega
  unfold processPendingBattery
  rw [if_neg hn]
  dsimp only
  simp only [doCmd_snd, sendEach, List.foldl]

/-- C18: with a pending record, whatever the device answers, the frames written are, in
this order: "stop"; one to three attempts of `TEST_LOAD` + "A"; then of "OCP:" + current
(2 decimals), "OPP:" + power (2 decimals), "LVP:" + low-voltage protect (1 decimal),
"OAH:" + Ah limit (3 decimals), "OHP:" + the hour string, each attempted one to three times
whether or not earlier ones were confirmed; then one to three attempts of each of the first
one to four OVP variants of the voltage to 1 decimal; then "start". -/
theorem processPendingBattery_sequence (g : Globals) (l : Link)
    (h : 0 ≤ g.pendingBatteryIdx) :
    ∃ ms msV : List ℕ, ms.length = 6 ∧ 1 ≤ msV.length ∧ msV.length ≤ 4 ∧
      (∀ m ∈ ms ++ msV, 1 ≤ m ∧ m ≤ 3) ∧
      (processPendingBattery g l).link.sent =
        l.sent ++ [⟨"stop", false⟩]
          ++ (List.zipWith attemptFrames
              [g.TEST_LOAD ++ "A", "OCP:" ++ stringOfFloat g.pendingOCP 2,
                "OPP:" ++ stringOfFloat g.pendingOPP 2, "LVP:" ++ stringOfFloat g.pendingLVP 1,
                "OAH:" ++ stringOfFloat g.pendingOAH 3, "OHP:" ++ g.pendingOHP] ms).flatten
          ++ (List.zipWith attemptFrames
              ["OVP:" ++ stringOfFloat g.pendingOVP 1,
                "OVP:" ++ stringOfFloat (toFloat (stringOfFloat g.pendingOVP 1)) 1,
                "OVP:" ++ stringOfFloat (toFloat (stringOfFloat g.pendingOVP 1)) 3,
                "OVP:" ++ stringOfInt (truncToInt
                  (roundf (toFloat (stringOfFloat g.pendingOVP 1) * 1000)))] msV).flatten
          ++ [⟨"start", false⟩] := by
  rw [processPendingBattery_link g l h]
  obtain ⟨ms, hlen, hall, hs⟩ := sendEach_sent
    [g.TEST_LOAD ++ "A", "OCP:" ++ stringOfFloat g.pendingOCP 2,
      "OPP:" ++ stringOfFloat g.pendingOPP 2, "LVP:" ++ stringOfFloat g.pendingLVP 1,
      "OAH:" ++ stringOfFloat g.pendingOAH 3, "OHP:" ++ g.pendingOHP]
    (sendCommandNoNL "stop" l)
  obtain ⟨msV, hlenV, hneV, hallV, hsV⟩ := tryVariants_sent
    ((buildVariants "OVP" (stringOfFloat g.pendingOVP 1)).variants.take
      (buildVariants "OVP" (stringOfFloat g.pendingOVP 1)).count)
    (sendEach [g.TEST_LOAD ++ "A", "OCP:" ++ stringOfFloat g.pendingOCP 2,
      "OPP:" ++ stringOfFloat g.pendingOPP 2, "LVP:" ++ stringOfFloat g.pendingLVP 1,
      "OAH:" ++ stringOfFloat g.pendingOAH 3, "OHP:" ++ g.pendingOHP]
      (sendCommandNoNL "stop" l))
  rw [ovpVariants_take] at hlenV hneV hsV
  refine ⟨ms, msV, by simpa using hlen, hneV (by simp), by simpa using hlenV, ?_, ?_⟩
  · intro m hm
    rcases List.mem_append.mp hm with hm | hm
    · exact hall m hm
    · exact hallV m hm
  · show ((sendParamVariants "OVP" (stringOfFloat g.pendingOVP 1) _).2.sent ++ [_]) = _
    unfold sendParamVariants
    simp only [ovpVariants_take]
    rw [hsV, hs]
    simp [sendCommandNoNL, Link.write, List.append_assoc]

theorem queued_load : queuedGeneric24.TEST_LOAD ++ "A" = "5.00A" := by decide

theorem queued_ocp : "OCP:" ++ stringOfFloat queuedGeneric24.pendingOCP 2 = "OCP:1.45" := by
  have hv : queuedGeneric24.pendingOCP = 175 / 121 := rfl
  have hm : scaledMagnitude (175 / 121 : ℚ) 2 = 145 := by
    unfold scaledMagnitude
    rw [abs_of_nonneg (by norm_num)]
    norm_num
    rfl
  rw [hv]
  unfold stringOfFloat
  rw [hm]
  norm_num
  decide

theorem queued_opp : "OPP:" ++ stringOfFloat queuedGeneric24.pendingOPP 2 = "OPP:35.00" := by
  have hv : queuedGeneric24.pendingOPP = 35 := rfl
  have hm : scaledMagnitude (35 : ℚ) 2 = 3500 := by
    unfold scaledMagnitude
    rw [abs_of_nonneg (by norm_num)]
    norm_num
    rfl
  rw [hv]
  unfold stringOfFloat
  rw [hm]
  norm_num
  decide

theorem queued_lvp : "LVP:" ++ stringOfFloat queuedGeneric24.pendingLVP 1 = "LVP:18.0" := by
  have hv : queuedGeneric24.pendingLVP = 18 := rfl
  have hm : scaledMagnitude (18 : ℚ) 1 = 180 := by
    unfold scaledMagnitude
    rw [abs_of_nonneg (by norm_num)]
    norm_num
    rfl
  rw [hv]
  unfold stringOfFloat
  rw [hm]
  norm_num
  decide

theorem queued_oah : "OAH:" ++ stringOfFloat queuedGeneric24.pendingOAH 3 = "OAH:36.000" := by
  have hv : queuedGeneric24.pendingOAH = 36 := rfl
  have hm : scaledMagnitude (36 : ℚ) 3 = 36000 := by
    unfold scaledMagnitude
    rw [abs_of_nonneg (by norm_num)]
    norm_num
    rfl
  rw [hv]
  unfold stringOfFloat
  rw [hm]
  norm_num
  decide

theorem queued_ohp : "OHP:" ++ queuedGeneric24.pendingOHP = "OHP:10:00" := by decide

theorem queued_ovp : stringOfFloat queuedGeneric24.pendingOVP 1 = "24.2" := by
  have hv : queuedGeneric24.pendingOVP = 121 / 5 := by
    show (24.2 : ℚ) = 121 / 5
    norm_num
  rw [hv, stringOfFloat_24_2_one]

/-- The link left by the staged apply of `queuedGeneric24`, with every payload spelled
out. -/
theorem processPendingBattery_queued_link (l : Link) :
    (processPendingBattery queuedGeneric24 l).link =
      sendCommandNoNL "start"
        (tryVariants ["OVP:24.2", "OVP:24.2", "OVP:24.200", "OVP:24200"]
          (sendEach ["5.00A", "OCP:1.45", "OPP:35.00", "LVP:18.0", "OAH:36.000", "OHP:10:00"]
            (sendCommandNoNL "stop" l))).2 := by
  rw [processPendingBattery_link queuedGeneric24 l (by decide), queued_load, queued_ocp,
    queued_opp, queued_lvp, queued_oah, queued_ohp, queued_ovp, sendParamVariants_OVP_24_2]

theorem processPendingBattery_count (g : Globals) (l : Link) (h : 0 ≤ g.pendingBatteryIdx) :
    (processPendingBattery g l).successCount = some (
      (sendCommandWithConfirm ("OCP:" ++ stringOfFloat g.pendingOCP 2)
        (sendEach [g.TEST_LOAD ++ "A"] (sendCommandNoNL "stop" l))).1.toNat
      + (sendCommandWithConfirm ("OPP:" ++ stringOfFloat g.pendingOPP 2)
        (sendEach [g.TEST_LOAD ++ "A", "OCP:" ++ stringOfFloat g.pendingOCP 2]
          (sendCommandNoNL "stop" l))).1.toNat
      + (sendCommandWithConfirm ("LVP:" ++ stringOfFloat g.pendingLVP 1)
        (sendEach [g.TEST_LOAD ++ "A", "OCP:" ++ stringOfFloat g.pendingOCP 2,
          "OPP:" ++ stringOfFloat g.pendingOPP 2] (sendCommandNoNL "stop" l))).1.toNat
      + (sendCommandWithConfirm ("OAH:" ++ stringOfFloat g.pendingOAH 3)
        (sendEach [g.TEST_LOAD ++ "A", "OCP:" ++ stringOfFloat g.pendingOCP 2,
          "OPP:" ++ stringOfFloat g.pendingOPP 2, "LVP:" ++ stringOfFloat g.pendingLVP 1]
          (sendCommandNoNL "stop" l))).1.toNat
      + (sendCommandWithConfirm ("OHP:" ++ g.pendingOHP)
        (sendEach [g.TEST_LOAD ++ "A", "OCP:" ++ stringOfFloat g.pendingOCP 2,
          "OPP:" ++ stringOfFloat g.pendingOPP 2, "LVP:" ++ stringOfFloat g.pendingLVP 1,
          "OAH:" ++ stringOfFloat g.pendingOAH 3] (sendCommandNoNL "stop" l))).1.toNat
      + (sendParamVariants "OVP" (stringOfFloat g.pendingOVP 1)
        (sendEach [g.TEST_LOAD ++ "A", "OCP:" ++ stringOfFloat g.pendingOCP 2,
          "OPP:" ++ stringOfFloat g.pendingOPP 2, "LVP:" ++ stringOfFloat g.pendingLVP 1,
          "OAH:" ++ stringOfFloat g.pendingOAH 3, "OHP:" ++ g.pendingOHP]
          (sendCommandNoNL "stop" l))).1.toNat) := by
  have hn : ¬ g.pendingBatteryIdx < 0 := by omega
  have hite : ∀ (b : Bool) (n : ℕ), (if b = true then n + 1 else n) = n + b.toNat := by
    intro b n
    cases b <;> simp
  unfold processPendingBattery
  rw [if_neg hn]
  dsimp only
  rw [hite]
  repeat rw [doCmd_fst]
  repeat rw [doCmd_snd]
  simp only [sendEach, List.foldl, Nat.zero_add]

theorem bool_toNat_le_one (b : Bool) : b.toNat ≤ 1 := by
  cases b <;> simp

set_option maxRecDepth 100000 in
/-- C18, evaluated on the queued index-0 record with OCP unanswered and OVP confirmed at
its third variant: the texts of the frames written, in order. -/
theorem processPendingBattery_sequence_witness :
    0 ≤ queuedGeneric24.pendingBatteryIdx ∧
    (∃ ms msV : List ℕ, ms.length = 6 ∧ 1 ≤ msV.length ∧ msV.length ≤ 4 ∧
      (∀ m ∈ ms ++ msV, 1 ≤ m ∧ m ≤ 3) ∧
      (processPendingBattery queuedGeneric24 ⟨[], []⟩).link.sent =
        [] ++ [⟨"stop", false⟩]
          ++ (List.zipWith attemptFrames
              [queuedGeneric24.TEST_LOAD ++ "A",
                "OCP:" ++ stringOfFloat queuedGeneric24.pendingOCP 2,
                "OPP:" ++ stringOfFloat queuedGeneric24.pendingOPP 2,
                "LVP:" ++ stringOfFloat queuedGeneric24.pendingLVP 1,
                "OAH:" ++ stringOfFloat queuedGeneric24.pendingOAH 3,
                "OHP:" ++ queuedGeneric24.pendingOHP] ms).flatten
          ++ (List.zipWith attemptFrames
              ["OVP:" ++ stringOfFloat queuedGeneric24.pendingOVP 1,
                "OVP:" ++ stringOfFloat
                  (toFloat (stringOfFloat queuedGeneric24.pendingOVP 1)) 1,
                "OVP:" ++ stringOfFloat
                  (toFloat (stringOfFloat queuedGeneric24.pendingOVP 1)) 3,
                "OVP:" ++ stringOfInt (truncToInt (roundf
                  (toFloat (stringOfFloat queuedGeneric24.pendingOVP 1) * 1000)))] msV).flatten
          ++ [⟨"start", false⟩]) ∧
    (processPendingBattery queuedGeneric24
        ⟨[], ["ok", "", "", "", "ok", "ok", "ok", "ok", "", "", "", "", "", "", "ok"]⟩
      ).link.sent.map Frame.text =
      ["stop", "5.00A", "OCP:1.45", "OCP:1.45", "OCP:1.45", "OPP:35.00", "LVP:18.0",
        "OAH:36.000", "OHP:10:00", "OVP:24.2", "OVP:24.2", "OVP:24.2", "OVP:24.2",
        "OVP:24.2", "OVP:24.2", "OVP:24.200", "start"] := by
  refine ⟨by decide, processPendingBattery_sequence queuedGeneric24 ⟨[], []⟩ (by decide), ?_⟩
  rw [processPendingBattery_queued_link]
  decide

/-- C19: with a pending record the last frame written is "start" without line terminator,
whatever the device answered, and the tally is some number from 0 to 6. -/
theorem processPendingBattery_restarts (g : Globals) (l : Link)
    (h : 0 ≤ g.pendingBatteryIdx) :
    (processPendingBattery g l).link.sent.getLast? = some ⟨"start", false⟩ ∧
    ∃ n, n ≤ 6 ∧ (processPendingBattery g l).successCount = some n := by
  constructor
  · rw [processPendingBattery_link g l h]
    simp [sendCommandNoNL, Link.write]
  · rw [processPendingBattery_count g l h]
    refine ⟨_, ?_, rfl⟩
    have h1 := bool_toNat_le_one (sendCommandWithConfirm ("OCP:" ++ stringOfFloat g.pendingOCP 2)
        (sendEach [g.TEST_LOAD ++ "A"] (sendCommandNoNL "stop" l))).1
    have h2 := bool_toNat_le_one (sendCommandWithConfirm ("OPP:" ++ stringOfFloat g.pendingOPP 2)
        (sendEach [g.TEST_LOAD ++ "A", "OCP:" ++ stringOfFloat g.pendingOCP 2]
          (sendCommandNoNL "stop" l))).1
    have h3 := bool_toNat_le_one (sendCommandWithConfirm ("LVP:" ++ stringOfFloat g.pendingLVP 1)
        (sendEach [g.TEST_LOAD ++ "A", "OCP:" ++ stringOfFloat g.pendingOCP 2,
          "OPP:" ++ stringOfFloat g.pendingOPP 2] (sendCommandNoNL "stop" l))).1
    have h4 := bool_toNat_le_one (sendCommandWithConfirm ("OAH:" ++ stringOfFloat g.pendingOAH 3)
        (sendEach [g.TEST_LOAD ++ "A", "OCP:" ++ stringOfFloat g.pendingOCP 2,
          "OPP:" ++ stringOfFloat g.pendingOPP 2, "LVP:" ++ stringOfFloat g.pendingLVP 1]
          (sendCommandNoNL "stop" l))).1
    have h5 := bool_toNat_le_one (sendCommandWithConfirm ("OHP:" ++ g.pendingOHP)
        (sendEach [g.TEST_LOAD ++ "A", "OCP:" ++ stringOfFloat g.pendingOCP 2,
          "OPP:" ++ stringOfFloat g.pendingOPP 2, "LVP:" ++ stringOfFloat g.pendingLVP 1,
          "OAH:" ++ stringOfFloat g.pendingOAH 3] (sendCommandNoNL "stop" l))).1
    have h6 := bool_toNat_le_one (sendParamVariants "OVP" (stringOfFloat g.pendingOVP 1)
        (sendEach [g.TEST_LOAD ++ "A", "OCP:" ++ stringOfFloat g.pendingOCP 2,
          "OPP:" ++ stringOfFloat g.pendingOPP 2, "LVP:" ++ stringOfFloat g.pendingLVP 1,
          "OAH:" ++ stringOfFloat g.pendingOAH 3, "OHP:" ++ g.pendingOHP]
          (sendCommandNoNL "stop" l))).1
    omega

theorem processPendingBattery_queued_count (l : Link) :
    (processPendingBattery queuedGeneric24 l).successCount = some (
      (sendCommandWithConfirm "OCP:1.45"
        (sendEach ["5.00A"] (sendCommandNoNL "stop" l))).1.toNat
      + (sendCommandWithConfirm "OPP:35.00"
        (sendEach ["5.00A", "OCP:1.45"] (sendCommandNoNL "stop" l))).1.toNat
      + (sendCommandWithConfirm "LVP:18.0"
        (sendEach ["5.00A", "OCP:1.45", "OPP:35.00"] (sendCommandNoNL "stop" l))).1.toNat
      + (sendCommandWithConfirm "OAH:36.000"
        (sendEach ["5.00A", "OCP:1.45", "OPP:35.00", "LVP:18.0"]
          (sendCommandNoNL "stop" l))).1.toNat
      + (sendCommandWithConfirm "OHP:10:00"
        (sendEach ["5.00A", "OCP:1.45", "OPP:35.00", "LVP:18.0", "OAH:36.000"]
          (sendCommandNoNL "stop" l))).1.toNat
      + (tryVariants ["OVP:24.2", "OVP:24.2", "OVP:24.200", "OVP:24200"]
        (sendEach ["5.00A", "OCP:1.45", "OPP:35.00", "LVP:18.0", "OAH:36.000", "OHP:10:00"]
          (sendCommandNoNL "stop" l))).1.toNat) := by
  rw [processPendingBattery_count queuedGeneric24 l (by decide), queued_load, queued_ocp,
    queued_opp, queued_lvp, queued_oah, queued_ohp, queued_ovp, sendParamVariants_OVP_24_2]

set_option maxRecDepth 100000 in
/-- C19, evaluated on the queued index-0 record: with a device that never answers the tally
is 0, with one that answers "ok" to everything it is 6, and both runs end with "start". -/
theorem processPendingBattery_restarts_witness :
    0 ≤ queuedGeneric24.pendingBatteryIdx ∧
    ((processPendingBattery queuedGeneric24 ⟨[], []⟩).link.sent.getLast?
        = some ⟨"start", false⟩ ∧
      ∃ n, n ≤ 6 ∧ (processPendingBattery queuedGeneric24 ⟨[], []⟩).successCount = some n) ∧
    (processPendingBattery queuedGeneric24 ⟨[], []⟩).successCount = some 0 ∧
    (processPendingBattery queuedGeneric24 ⟨[], []⟩).link.sent.length = 32 ∧
    (processPendingBattery queuedGeneric24
      ⟨[], ["ok", "ok", "ok", "ok", "ok", "ok", "ok"]⟩).successCount = some 6 ∧
    (processPendingBattery queuedGeneric24
      ⟨[], ["ok", "ok", "ok", "ok", "ok", "ok", "ok"]⟩).link.sent.getLast?
        = some ⟨"start", false⟩ := by
  refine ⟨by decide, processPendingBattery_restarts queuedGeneric24 ⟨[], []⟩ (by decide),
    ?_, ?_, ?_, ?_⟩
  · rw [processPendingBattery_queued_count]
    decide
  · rw [processPendingBattery_queued_link]
    decide
  · rw [processPendingBattery_queued_count]
    decide
  · rw [processPendingBattery_queued_link]
    decide

/-- C20: with a pending record the tally is the number of confirmed steps among the six
parameter steps, each taken at the link state its predecessors left: OCP, OPP, LVP, OAH, OHP
through `sendCommandWithConfirm` and OVP through `sendParamVariants`. It is at most 6, and
the outcome of the test-load command is no summand. -/
theorem processPendingBattery_tally (g : Globals) (l : Link) (h : 0 ≤ g.pendingBatteryIdx) :
    (processPendingBattery g l).successCount = some (
      (sendCommandWithConfirm ("OCP:" ++ stringOfFloat g.pendingOCP 2)
        (sendEach [g.TEST_LOAD ++ "A"] (sendCommandNoNL "stop" l))).1.toNat
      + (sendCommandWithConfirm ("OPP:" ++ stringOfFloat g.pendingOPP 2)
        (sendEach [g.TEST_LOAD ++ "A", "OCP:" ++ stringOfFloat g.pendingOCP 2]
          (sendCommandNoNL "stop" l))).1.toNat
      + (sendCommandWithConfirm ("LVP:" ++ stringOfFloat g.pendingLVP 1)
        (sendEach [g.TEST_LOAD ++ "A", "OCP:" ++ stringOfFloat g.pendingOCP 2,
          "OPP:" ++ stringOfFloat g.pendingOPP 2] (sendCommandNoNL "stop" l))).1.toNat
      + (sendCommandWithConfirm ("OAH:" ++ stringOfFloat g.pendingOAH 3)
        (sendEach [g.TEST_LOAD ++ "A", "OCP:" ++ stringOfFloat g.pendingOCP 2,
          "OPP:" ++ stringOfFloat g.pendingOPP 2, "LVP:" ++ stringOfFloat g.pendingLVP 1]
          (sendCommandNoNL "stop" l))).1.toNat
      + (sendCommandWithConfirm ("OHP:" ++ g.pendingOHP)
        (sendEach [g.TEST_LOAD ++ "A", "OCP:" ++ stringOfFloat g.pendingOCP 2,
          "OPP:" ++ stringOfFloat g.pendingOPP 2, "LVP:" ++ stringOfFloat g.pendingLVP 1,
          "OAH:" ++ stringOfFloat g.pendingOAH 3] (sendCommandNoNL "stop" l))).1.toNat
      + (sendParamVariants "OVP" (stringOfFloat g.pendingOVP 1)
        (sendEach [g.TEST_LOAD ++ "A", "OCP:" ++ stringOfFloat g.pendingOCP 2,
          "OPP:" ++ stringOfFloat g.pendingOPP 2, "LVP:" ++ stringOfFloat g.pendingLVP 1,
          "OAH:" ++ stringOfFloat g.pendingOAH 3, "OHP:" ++ g.pendingOHP]
          (sendCommandNoNL "stop" l))).1.toNat) ∧
    (∀ n, (processPendingBattery g l).successCount = some n → n ≤ 6) := by
  have hc := processPendingBattery_count g l h
  refine ⟨hc, ?_⟩
  intro n hn
  rw [hc] at hn
  have hn' := Option.some.inj hn
  have h1 := bool_toNat_le_one (sendCommandWithConfirm ("OCP:" ++ stringOfFloat g.pendingOCP 2)
      (sendEach [g.TEST_LOAD ++ "A"] (sendCommandNoNL "stop" l))).1
  have h2 := bool_toNat_le_one (sendCommandWithConfirm ("OPP:" ++ stringOfFloat g.pendingOPP 2)
      (sendEach [g.TEST_LOAD ++ "A", "OCP:" ++ stringOfFloat g.pendingOCP 2]
        (sendCommandNoNL "stop" l))).1
  have h3 := bool_toNat_le_one (sendCommandWithConfirm ("LVP:" ++ stringOfFloat g.pendingLVP 1)
      (sendEach [g.TEST_LOAD ++ "A", "OCP:" ++ stringOfFloat g.pendingOCP 2,
        "OPP:" ++ stringOfFloat g.pendingOPP 2] (sendCommandNoNL "stop" l))).1
  have h4 := bool_toNat_le_one (sendCommandWithConfirm ("OAH:" ++ stringOfFloat g.pendingOAH 3)
      (sendEach [g.TEST_LOAD ++ "A", "OCP:" ++ stringOfFloat g.pendingOCP 2,
        "OPP:" ++ stringOfFloat g.pendingOPP 2, "LVP:" ++ stringOfFloat g.pendingLVP 1]
        (sendCommandNoNL "stop" l))).1
  have h5 := bool_toNat_le_one (sendCommandWithConfirm ("OHP:" ++ g.pendingOHP)
      (sendEach [g.TEST_LOAD ++ "A", "OCP:" ++ stringOfFloat g.pendingOCP 2,
        "OPP:" ++ stringOfFloat g.pendingOPP 2, "LVP:" ++ stringOfFloat g.pendingLVP 1,
        "OAH:" ++ stringOfFloat g.pendingOAH 3] (sendCommandNoNL "stop" l))).1
  have h6 := bool_toNat_le_one (sendParamVariants "OVP" (stringOfFloat g.pendingOVP 1)
      (sendEach [g.TEST_LOAD ++ "A", "OCP:" ++ stringOfFloat g.pendingOCP 2,
        "OPP:" ++ stringOfFloat g.pendingOPP 2, "LVP:" ++ stringOfFloat g.pendingLVP 1,
        "OAH:" ++ stringOfFloat g.pendingOAH 3, "OHP:" ++ g.pendingOHP]
        (sendCommandNoNL "stop" l))).1
  omega

set_option maxRecDepth 100000 in
/-- C20, evaluated on the queued index-0 record: OCP unanswered in all three attempts, OPP
to OHP confirmed, OVP confirmed at its third variant gives 5, whether the test-load command
was confirmed at once or never; the run still ends with "start". -/
theorem processPendingBattery_tally_witness :
    0 ≤ queuedGeneric24.pendingBatteryIdx ∧
    (processPendingBattery queuedGeneric24
      ⟨[], ["ok", "", "", "", "ok", "ok", "ok", "ok", "", "", "", "", "", "", "ok"]⟩
      ).successCount = some 5 ∧
    (processPendingBattery queuedGeneric24
      ⟨[], ["", "", "", "", "", "", "ok", "ok", "ok", "ok", "", "", "", "", "", "", "ok"]⟩
      ).successCount = some 5 ∧
    (processPendingBattery queuedGeneric24
      ⟨[], ["ok", "", "", "", "ok", "ok", "ok", "ok", "", "", "", "", "", "", "ok"]⟩
      ).link.sent.getLast? = some ⟨"start", false⟩ := by
  have h := (processPendingBattery_tally queuedGeneric24
    ⟨[], ["ok", "", "", "", "ok", "ok", "ok", "ok", "", "", "", "", "", "", "ok"]⟩
    (by decide)).1
  rw [queued_load, queued_ocp, queued_opp, queued_lvp, queued_oah, queued_ohp, queued_ovp,
    sendParamVariants_OVP_24_2] at h
  refine ⟨by decide, h.trans (by decide), ?_, ?_⟩
  · rw [processPendingBattery_queued_count]
    decide
  · rw [processPendingBattery_queued_link]
    decide

/-! ## Staged apply: the pending slot -/

theorem processPendingBattery_of_empty (g : Globals) (l : Link)
    (h : g.pendingBatteryIdx < 0) :
    processPendingBattery g l = { globals := g, link := l, successCount := none } := by
  unfold processPendingBattery
  rw [if_pos h]

/-- C21: with an empty pending slot `processPendingBattery` returns at once: the globals
and the link (frames written and bytes still to come) are as before, and no tally is
reported. -/
theorem processPendingBattery_empty (g : Globals) (l : Link) (h : g.pendingBatteryIdx < 0) :
    processPendingBattery g l = { globals := g, link := l, successCount := none } ∧
    (processPendingBattery g l).link.sent = l.sent := by
  rw [processPendingBattery_of_empty g l h]
  exact ⟨rfl, rfl⟩

/-- C21, evaluated on the boot state (`pendingBatteryIdx = -1`) with a device that would
answer "ok": nothing is written and nothing is read. -/
theorem processPendingBattery_empty_witness :
    bootGlobals.pendingBatteryIdx < 0 ∧
    processPendingBattery bootGlobals ⟨[], ["ok"]⟩
      = { globals := bootGlobals, link := ⟨[], ["ok"]⟩, successCount := none } :=
  ⟨by decide, (processPendingBattery_empty bootGlobals ⟨[], ["ok"]⟩ (by decide)).1⟩

theorem runSteps_cons (a : ApplyStep) (rest : List ApplyStep) (s : ApplyState) :
    runSteps (a :: rest) s = runSteps rest (a.run s) := rfl

theorem runSteps_nil (s : ApplyState) : runSteps [] s = s := rfl

theorem runSteps_append (xs ys : List ApplyStep) (s : ApplyState) :
    runSteps (xs ++ ys) s = runSteps ys (runSteps xs s) := by
  unfold runSteps
  rw [List.foldl_append]

theorem run_claim (g : Globals) (l : Link) (n : ℕ) :
    ApplyStep.run .claim ⟨g, l, n⟩ = ⟨{ g with pendingBatteryIdx := -1 }, l, 0⟩ := rfl

theorem run_stop (g : Globals) (l : Link) (n : ℕ) :
    ApplyStep.run .stop ⟨g, l, n⟩ = ⟨g, sendCommandNoNL "stop" l, n⟩ := rfl

theorem run_load (g : Globals) (l : Link) (n : ℕ) :
    ApplyStep.run .load ⟨g, l, n⟩
      = ⟨g, (sendCommandWithConfirm (g.TEST_LOAD ++ "A") l).2, n⟩ := rfl

theorem run_ocp (g : Globals) (l : Link) (n : ℕ) :
    ApplyStep.run .ocp ⟨g, l, n⟩
      = ⟨g, (doCmd ("OCP:" ++ stringOfFloat g.pendingOCP 2) (n, l)).2,
          (doCmd ("OCP:" ++ stringOfFloat g.pendingOCP 2) (n, l)).1⟩ := rfl

theorem run_opp (g : Globals) (l : Link) (n : ℕ) :
    ApplyStep.run .opp ⟨g, l, n⟩
      = ⟨g, (doCmd ("OPP:" ++ stringOfFloat g.pendingOPP 2) (n, l)).2,
          (doCmd ("OPP:" ++ stringOfFloat g.pendingOPP 2) (n, l)).1⟩ := rfl

theorem run_lvp (g : Globals) (l : Link) (n : ℕ) :
    ApplyStep.run .lvp ⟨g, l, n⟩
      = ⟨g, (doCmd ("LVP:" ++ stringOfFloat g.pendingLVP 1) (n, l)).2,
          (doCmd ("LVP:" ++ stringOfFloat g.pendingLVP 1) (n, l)).1⟩ := rfl

theorem run_oah (g : Globals) (l : Link) (n : ℕ) :
    ApplyStep.run .oah ⟨g, l, n⟩
      = ⟨g, (doCmd ("OAH:" ++ stringOfFloat g.pendingOAH 3) (n, l)).2,
          (doCmd ("OAH:" ++ stringOfFloat g.pendingOAH 3) (n, l)).1⟩ := rfl

theorem run_ohp (g : Globals) (l : Link) (n : ℕ) :
    ApplyStep.run .ohp ⟨g, l, n⟩
      = ⟨g, (doCmd ("OHP:" ++ g.pendingOHP) (n, l)).2,
          (doCmd ("OHP:" ++ g.pendingOHP) (n, l)).1⟩ := rfl

theorem run_ovp (g : Globals) (l : Link) (n : ℕ) :
    ApplyStep.run .ovp ⟨g, l, n⟩
      = ⟨g, (sendParamVariants "OVP" (stringOfFloat g.pendingOVP 1) l).2,
          if (sendParamVariants "OVP" (stringOfFloat g.pendingOVP 1) l).1 = true
          then n + 1 else n⟩ := rfl

theorem run_start (g : Globals) (l : Link) (n : ℕ) :
    ApplyStep.run .start ⟨g, l, n⟩ = ⟨g, sendCommandNoNL "start" l, n⟩ := rfl

theorem run_clearFlag (g : Globals) (l : Link) (n : ℕ) :
    ApplyStep.run .clearFlag ⟨g, l, n⟩ = ⟨{ g with pendingWasClamped := false }, l, n⟩ := rfl

theorem processPendingBattery_eq_runSteps (g : Globals) (l : Link)
    (h : 0 ≤ g.pendingBatteryIdx) :
    processPendingBattery g l =
      { globals := (runSteps applySteps ⟨g, l, 0⟩).globals
        link := (runSteps applySteps ⟨g, l, 0⟩).link
        successCount := some (runSteps applySteps ⟨g, l, 0⟩).successCount } := by
  have hn : ¬ g.pendingBatteryIdx < 0 := by omega
  unfold processPendingBattery
  rw [if_neg hn]
  unfold applySteps
  rw [runSteps_cons, run_claim, runSteps_cons, run_stop, runSteps_cons, run_load,
    runSteps_cons, run_ocp, runSteps_cons, run_opp, Prod.mk.eta,
    runSteps_cons, run_lvp, Prod.mk.eta, runSteps_cons, run_oah, Prod.mk.eta,
    runSteps_cons, run_ohp, Prod.mk.eta, runSteps_cons, run_ovp, runSteps_cons, run_start,
    runSteps_cons, run_clearFlag, runSteps_nil]

theorem processPendingBattery_globals (g : Globals) (l : Link) (h : 0 ≤ g.pendingBatteryIdx) :
    (processPendingBattery g l).globals
      = { g with pendingBatteryIdx := -1, pendingWasClamped := false } := by
  have hn : ¬ g.pendingBatteryIdx < 0 := by omega
  unfold processPendingBattery
  rw [if_neg hn]

theorem run_pendingBatteryIdx (step : ApplyStep) (s : ApplyState) :
    (step.run s).globals.pendingBatteryIdx
      = if step = .claim then -1 else s.globals.pendingBatteryIdx := by
  cases step <;> rfl

theorem runSteps_keeps_cleared (steps : List ApplyStep) (s : ApplyState)
    (h : s.globals.pendingBatteryIdx = -1) :
    (runSteps steps s).globals.pendingBatteryIdx = -1 := by
  induction steps generalizing s with
  | nil => exact h
  | cons a rest ih =>
    rw [runSteps_cons]
    apply ih
    rw [run_pendingBatteryIdx]
    split_ifs
    · rfl
    · exact h

/-- C22: a pending record is consumed exactly once. With a non-empty slot, the call is the
statements `applySteps` run in order; at every point of that run where a frame has been
written the slot is already `-1`; on return the slot is `-1` and the clamped flag `false`;
and a second call right after it changes nothing and writes nothing. -/
theorem processPendingBattery_consumes_once (g : Globals) (l : Link)
    (h : 0 ≤ g.pendingBatteryIdx) :
    processPendingBattery g l =
      { globals := (runSteps applySteps ⟨g, l, 0⟩).globals
        link := (runSteps applySteps ⟨g, l, 0⟩).link
        successCount := some (runSteps applySteps ⟨g, l, 0⟩).successCount } ∧
    (∀ k, (runSteps (applySteps.take k) ⟨g, l, 0⟩).link.sent ≠ l.sent →
      (runSteps (applySteps.take k) ⟨g, l, 0⟩).globals.pendingBatteryIdx = -1) ∧
    (processPendingBattery g l).globals.pendingBatteryIdx = -1 ∧
    (processPendingBattery g l).globals.pendingWasClamped = false ∧
    processPendingBattery (processPendingBattery g l).globals (processPendingBattery g l).link
      = { globals := (processPendingBattery g l).globals
          link := (processPendingBattery g l).link
          successCount := none } := by
  have hg := processPendingBattery_globals g l h
  have hidx : (processPendingBattery g l).globals.pendingBatteryIdx = -1 := by rw [hg]
  refine ⟨processPendingBattery_eq_runSteps g l h, ?_, hidx, by rw [hg], ?_⟩
  · intro k hk
    cases k with
    | zero => exact absurd rfl hk
    | succ k =>
      have ht : applySteps.take (k + 1) = ApplyStep.claim :: (applySteps.drop 1).take k := rfl
      rw [ht, runSteps_cons]
      exact runSteps_keeps_cleared _ _ rfl
  · have hlt : (processPendingBattery g l).globals.pendingBatteryIdx < 0 := by
      rw [hidx]; decide
    exact processPendingBattery_of_empty _ _ hlt

set_option maxRecDepth 100000 in
/-- C22, evaluated on the queued index-0 record with a silent device: the first call writes
32 frames, the second call none. -/
theorem processPendingBattery_consumes_once_witness :
    0 ≤ queuedGeneric24.pendingBatteryIdx ∧
    (processPendingBattery queuedGeneric24 ⟨[], []⟩).link.sent.length = 32 ∧
    (processPendingBattery (processPendingBattery queuedGeneric24 ⟨[], []⟩).globals
      (processPendingBattery queuedGeneric24 ⟨[], []⟩).link).link
      = (processPendingBattery queuedGeneric24 ⟨[], []⟩).link := by
  have h := processPendingBattery_consumes_once queuedGeneric24 ⟨[], []⟩ (by decide)
  refine ⟨by decide, ?_, ?_⟩
  · rw [processPendingBattery_queued_link]
    decide
  · rw [h.2.2.2.2]

/-! ## The compiled-in catalog -/

/-- C23: each of the 23 entries of `batteryModules` has positive nominal voltage, positive
maximum load, and a low-voltage cutoff below the nominal voltage. -/
theorem batteryModules_invariant :
    batteryModules.length = 23 ∧
    ∀ b ∈ batteryModules,
      0 < b.nominalVoltage ∧ 0 < b.maxLoadA ∧ b.lowVoltageProtect < b.nominalVoltage := by
  refine ⟨rfl, ?_⟩
  simp only [batteryModules, List.forall_mem_cons]
  norm_num

theorem batteryModules_clamp_limits :
    ∀ b ∈ batteryModules,
      (clampRequest b).reqOVP ≤ 25 ∧ (clampRequest b).reqOCP ≤ 5 ∧
      (clampRequest b).reqOVP * (clampRequest b).reqOCP ≤ 35 ∧ (clampRequest b).reqOPP ≤ 35 := by
  simp only [batteryModules, List.forall_mem_cons]
  norm_num [clampRequest, roundf, RATED_VOLTAGE_MAX, RATED_CURRENT_MAX, RATED_POWER_MAX]

/-- C24: for each of the 23 catalog indices the values frozen by `setActiveBattery` respect
the three device limits: voltage ≤ 25.0, current ≤ 5.0 and voltage × current (also the
frozen power) ≤ 35.0. -/
theorem setActiveBattery_catalog_limits (i : ℕ) (b : BatteryModule) (s : Globals)
    (hb : batteryModules[i]? = some b) :
    (setActiveBattery batteryModules (i : Int) s).2.pendingOVP ≤ 25 ∧
    (setActiveBattery batteryModules (i : Int) s).2.pendingOCP ≤ 5 ∧
    (setActiveBattery batteryModules (i : Int) s).2.pendingOVP *
      (setActiveBattery batteryModules (i : Int) s).2.pendingOCP ≤ 35 ∧
    (setActiveBattery batteryModules (i : Int) s).2.pendingOPP ≤ 35 := by
  rw [setActiveBattery_eq_queue batteryModules i b s hb]
  have hmem : b ∈ batteryModules := by
    obtain ⟨hi, rfl⟩ := List.getElem?_eq_some.mp hb
    exact List.getElem_mem _
  exact batteryModules_clamp_limits b hmem

/-- C24, at index 18 (12.6 V, 5 A requested): 12.6 V and 35/12.6 A are frozen, 35 W. -/
theorem setActiveBattery_catalog_limits_witness :
    (∃ b, batteryModules[18]? = some b ∧ b.nominalVoltage = (12.6 : ℚ)) ∧
    (setActiveBattery batteryModules ((18 : ℕ) : Int) bootGlobals).2.pendingOVP *
      (setActiveBattery batteryModules ((18 : ℕ) : Int) bootGlobals).2.pendingOCP ≤ 35 :=
  ⟨⟨_, rfl, by norm_num [batteryModules]⟩,
    (setActiveBattery_catalog_limits 18 _ bootGlobals rfl).2.2.1⟩

/-- C26: for a valid index the frozen power is the frozen (quantised) voltage times the
frozen current. -/
theorem setActiveBattery_power_recomputed (mods : List BatteryModule) (i : ℕ)
    (p : BatteryModule) (s : Globals) (hp : mods[i]? = some p) :
    (setActiveBattery mods (i : Int) s).2.pendingOPP =
      (setActiveBattery mods (i : Int) s).2.pendingOVP *
        (setActiveBattery mods (i : Int) s).2.pendingOCP := by
  rw [setActiveBattery_eq_queue mods i p s hp]
  rfl

/-- C26, at index 7 (3.65 V, 3.0 A): the frozen power is 3.7 × 3.0 = 11.1, not the
unquantised 3.65 × 3.0 = 10.95. -/
theorem setActiveBattery_power_recomputed_witness :
    (∃ b, batteryModules[7]? = some b ∧ b.nominalVoltage * b.maxLoadA = (10.95 : ℚ)) ∧
    (setActiveBattery batteryModules ((7 : ℕ) : Int) bootGlobals).2.pendingOPP = 11.1 := by
  have h := setActiveBattery_power_recomputed batteryModules 7 _ bootGlobals rfl
  have hq := setActiveBattery_eq_queue batteryModules 7 _ bootGlobals rfl
  refine ⟨⟨_, rfl, by norm_num [batteryModules]⟩, ?_⟩
  rw [h, hq]
  norm_num [queueProfile, clampRequest, batteryModules, roundf, RATED_VOLTAGE_MAX,
    RATED_CURRENT_MAX, RATED_POWER_MAX]

theorem getActiveBatteryIndexFrom_first_match (name : String) (pre : List BatteryModule)
    (b : BatteryModule) (post : List BatteryModule) (k : ℕ)
    (hpre : ∀ x ∈ pre, x.name ≠ name) (hb : b.name = name) :
    getActiveBatteryIndexFrom name (pre ++ b :: post) k = ((k + pre.length : ℕ) : Int) := by
  induction pre generalizing k with
  | nil => simp [getActiveBatteryIndexFrom, hb]
  | cons x pre ih =>
    have hx : ¬ name = x.name := fun e => hpre x (List.mem_cons_self _ _) e.symm
    have hstep : getActiveBatteryIndexFrom name ((x :: pre) ++ b :: post) k
        = getActiveBatteryIndexFrom name (pre ++ b :: post) (k + 1) := by
      simp only [List.cons_append, getActiveBatteryIndexFrom, if_neg hx]
      rfl
    rw [hstep, ih (k + 1) (fun y hy => hpre y (List.mem_cons_of_mem _ hy))]
    simp only [List.length_cons]
    congr 1
    omega

theorem getActiveBatteryIndexFrom_range (name : String) (rest : List BatteryModule) (k : ℕ) :
    getActiveBatteryIndexFrom name rest k = 0 ∨
      ((k : Int) ≤ getActiveBatteryIndexFrom name rest k ∧
        getActiveBatteryIndexFrom name rest k < ((k + rest.length : ℕ) : Int)) := by
  induction rest generalizing k with
  | nil => exact Or.inl rfl
  | cons b rest ih =>
    rw [getActiveBatteryIndexFrom]
    split_ifs
    · right
      simp only [List.length_cons]
      omega
    · rcases ih (k + 1) with h | h
      · exact Or.inl h
      · right
        simp only [List.length_cons]
        omega

theorem getActiveBatteryIndex_of_nodup (mods : List BatteryModule)
    (hnd : (mods.map (fun b => b.name)).Nodup) (i : ℕ) (b : BatteryModule) (s : Globals)
    (hget : mods[i]? = some b) (hcur : s.currentBattery = b) :
    getActiveBatteryIndex mods s = (i : Int) := by
  obtain ⟨hi, rfl⟩ := List.getElem?_eq_some.mp hget
  have hsplit : mods = mods.take i ++ mods[i] :: mods.drop (i + 1) := by
    rw [← List.drop_eq_getElem_cons hi, List.take_append_drop]
  have hlen : (mods.take i).length = i := by
    rw [List.length_take]; omega
  have hpre : ∀ x ∈ mods.take i, x.name ≠ mods[i].name := by
    intro x hx e
    rw [hsplit, List.map_append, List.map_cons] at hnd
    have hdis := (List.nodup_append.mp hnd).2.2
    exact hdis (List.mem_map_of_mem _ hx) (by rw [e]; exact List.mem_cons_self _ _)
  have h := getActiveBatteryIndexFrom_first_match mods[i].name (mods.take i) mods[i]
    (mods.drop (i + 1)) 0 hpre rfl
  rw [← hsplit, hlen, Nat.zero_add] at h
  unfold getActiveBatteryIndex
  rw [hcur]
  exact h

/-- C27: the 23 catalog names are pairwise distinct; after `setActiveBattery i` with a
valid `i` the active profile is entry `i` and `getActiveBatteryIndex` returns `i`; and in
every state `getActiveBatteryIndex` returns an index from 0 to 22. -/
theorem getActiveBatteryIndex_spec (s : Globals) :
    (batteryModules.map (fun b => b.name)).Nodup ∧
    (∀ (i : ℕ) (b : BatteryModule), batteryModules[i]? = some b →
      (setActiveBattery batteryModules (i : Int) s).2.currentBattery = b ∧
      getActiveBatteryIndex batteryModules (setActiveBattery batteryModules (i : Int) s).2
        = (i : Int)) ∧
    (0 ≤ getActiveBatteryIndex batteryModules s ∧ getActiveBatteryIndex batteryModules s < 23) := by
  refine ⟨batteryModules_names_nodup, ?_, ?_⟩
  · intro i b hb
    have hq := setActiveBattery_eq_queue batteryModules i b s hb
    have hcur : (setActiveBattery batteryModules (i : Int) s).2.currentBattery = b := by
      rw [hq]; rfl
    exact ⟨hcur, getActiveBatteryIndex_of_nodup batteryModules batteryModules_names_nodup i b _
      hb hcur⟩
  · rcases getActiveBatteryIndexFrom_range s.currentBattery.name batteryModules 0 with h | h
    · unfold getActiveBatteryIndex
      rw [h]
      omega
    · unfold getActiveBatteryIndex
      rw [batteryModules_length] at h
      omega

/-- C27, evaluated: after selecting index 9 the active index is 9; at boot it is 0; with an
active profile whose name is not in the table it is 0 as well. -/
theorem getActiveBatteryIndex_spec_witness :
    getActiveBatteryIndex batteryModules
      (setActiveBattery batteryModules ((9 : ℕ) : Int) bootGlobals).2 = ((9 : ℕ) : Int) ∧
    getActiveBatteryIndex batteryModules bootGlobals = 0 ∧
    getActiveBatteryIndex batteryModules { bootGlobals with currentBattery := samplePack8S } = 0 :=
  ⟨((getActiveBatteryIndex_spec bootGlobals).2.1 9 _ rfl).2, by decide, by decide⟩

/-! ## Empty responses -/

theorem indexOf_empty (s : String) : indexOf "" s = -1 := by
  unfold indexOf
  rfl

theorem isSuccessResponse_empty (key : String) : isSuccessResponse "" key = false := by
  have hl : toLowerCase "" = "" := rfl
  unfold isSuccessResponse
  simp only [hl, indexOf_empty]
  decide

theorem isFailureResponse_empty : isFailureResponse "" = false := by decide

/-- C28: the empty response is neither a success (for any key, the empty key included) nor
a failure; an attempt that collects no bytes aggregates to the empty response, confirms no
command, and never ends a call with `true`. -/
theorem empty_response_unclassified (key cmd : String) (l : Link) :
    isSuccessResponse "" key = false ∧ isFailureResponse "" = false ∧
    aggregateResponse "" = "" ∧ confirms cmd "" = false ∧
    (∀ i, i < 3 → responseAt l i = "" →
      ¬ ((sendCommandWithConfirm cmd l).1 = true ∧
        (sendCommandWithConfirm cmd l).2.sent = l.sent ++ attemptFrames cmd (i + 1))) := by
  have hc : confirms cmd "" = false := by
    unfold confirms
    rw [isSuccessResponse_empty]
    simp
  refine ⟨isSuccessResponse_empty key, isFailureResponse_empty, by decide, hc, ?_⟩
  intro i hi hr
  rw [sendCommandWithConfirm_cases]
  rintro ⟨hres, hsent⟩
  split_ifs at hres hsent with h0 h1 h2
  · have := attemptFrames_inj cmd l.sent hsent
    have : i = 0 := by omega
    subst this
    rw [hr, hc] at h0
    exact Bool.false_ne_true h0
  · have := attemptFrames_inj cmd l.sent hsent
    have : i = 1 := by omega
    subst this
    rw [hr, hc] at h1
    exact Bool.false_ne_true h1
  · have := attemptFrames_inj cmd l.sent hsent
    have : i = 2 := by omega
    subst this
    rw [hr, hc] at h2
    exact Bool.false_ne_true h2

/-- C28, evaluated: with the empty key a response "1" would be a success, the empty response
is not; a device that never answers leaves "OVP:24.2" unconfirmed after three attempts. -/
theorem empty_response_unclassified_witness :
    isSuccessResponse "1" "" = true ∧ isSuccessResponse "" "" = false ∧
    sendCommandWithConfirm "OVP:24.2" ⟨[], []⟩ = (false, ⟨attemptFrames "OVP:24.2" 3, []⟩) :=
  ⟨by decide, (empty_response_unclassified "" "OVP:24.2" ⟨[], []⟩).1, by decide⟩

/-! ## Clamp order and the test load -/

theorem stringOfFloat_5_two : stringOfFloat 5 2 = "5.00" := by
  have hm : scaledMagnitude (5 : ℚ) 2 = 500 := by
    unfold scaledMagnitude
    rw [abs_of_nonneg (by norm_num)]
    norm_num
    rfl
  unfold stringOfFloat
  rw [hm]
  norm_num
  decide

theorem selected0_fields :
    (setActiveBattery batteryModules 0 bootGlobals).2.TEST_LOAD = queuedGeneric24.TEST_LOAD ∧
    (setActiveBattery batteryModules 0 bootGlobals).2.pendingOVP = queuedGeneric24.pendingOVP ∧
    (setActiveBattery batteryModules 0 bootGlobals).2.pendingOCP = queuedGeneric24.pendingOCP ∧
    (setActiveBattery batteryModules 0 bootGlobals).2.pendingOPP = queuedGeneric24.pendingOPP ∧
    (setActiveBattery batteryModules 0 bootGlobals).2.pendingLVP = queuedGeneric24.pendingLVP ∧
    (setActiveBattery batteryModules 0 bootGlobals).2.pendingOAH = queuedGeneric24.pendingOAH ∧
    (setActiveBattery batteryModules 0 bootGlobals).2.pendingOHP = queuedGeneric24.pendingOHP ∧
    (setActiveBattery batteryModules 0 bootGlobals).2.pendingBatteryIdx = 0 := by
  have hq := setActiveBattery_eq_queue batteryModules 0 bootGlobals.currentBattery
    bootGlobals rfl
  simp only [Nat.cast_zero] at hq
  rw [hq]
  have ht : recommendedTestLoad bootGlobals.currentBattery = 5 := by
    norm_num [recommendedTestLoad, RATED_CURRENT_MAX, bootGlobals]
  refine ⟨?_, ?_, ?_, ?_, ?_, ?_, rfl, rfl⟩
  · show stringOfFloat (recommendedTestLoad bootGlobals.currentBattery) 2 = "5.00"
    rw [ht, stringOfFloat_5_two]
  · show (clampRequest bootGlobals.currentBattery).reqOVP = (24.2 : ℚ)
    norm_num [clampRequest, bootGlobals, roundf, RATED_VOLTAGE_MAX, RATED_CURRENT_MAX,
      RATED_POWER_MAX]
  · show (clampRequest bootGlobals.currentBattery).reqOCP = (175 / 121 : ℚ)
    norm_num [clampRequest, bootGlobals, roundf, RATED_VOLTAGE_MAX, RATED_CURRENT_MAX,
      RATED_POWER_MAX]
  · show (clampRequest bootGlobals.currentBattery).reqOPP = (35 : ℚ)
    norm_num [clampRequest, bootGlobals, roundf, RATED_VOLTAGE_MAX, RATED_CURRENT_MAX,
      RATED_POWER_MAX]
  · show bootGlobals.currentBattery.lowVoltageProtect = (18 : ℚ)
    norm_num [bootGlobals]
  · show bootGlobals.currentBattery.overAhLimit = (36 : ℚ)
    norm_num [bootGlobals]

/-- C29: for index 0 of the compiled-in table (recommended load 5.00 A) the frozen
over-current limit is 175/121 (about 1.446 A), strictly below the test load 5 that the same
selection stores as "5.00" in `TEST_LOAD`; the staged apply of that selection sends "5.00A"
as test load and "OCP:1.45" as limit. -/
theorem frozen_current_below_test_load :
    ∃ b, batteryModules[0]? = some b ∧ b.recommendedLoadA = 5 ∧
      (setActiveBattery batteryModules 0 bootGlobals).2.pendingOCP = 175 / 121 ∧
      (setActiveBattery batteryModules 0 bootGlobals).2.pendingOCP < recommendedTestLoad b ∧
      (setActiveBattery batteryModules 0 bootGlobals).2.TEST_LOAD = "5.00" ∧
      ∀ l : Link,
        (processPendingBattery (setActiveBattery batteryModules 0 bootGlobals).2 l).link =
          sendCommandNoNL "start"
            (tryVariants ["OVP:24.2", "OVP:24.2", "OVP:24.200", "OVP:24200"]
              (sendEach ["5.00A", "OCP:1.45", "OPP:35.00", "LVP:18.0", "OAH:36.000",
                  "OHP:10:00"]
                (sendCommandNoNL "stop" l))).2 := by
  obtain ⟨h1, h2, h3, h4, h5, h6, h7, h8⟩ := selected0_fields
  have ht : recommendedTestLoad bootGlobals.currentBattery = 5 := by
    norm_num [recommendedTestLoad, RATED_CURRENT_MAX, bootGlobals]
  refine ⟨bootGlobals.currentBattery, rfl, by norm_num [bootGlobals], h3, ?_, h1, ?_⟩
  · rw [h3, ht]
    show (175 / 121 : ℚ) < 5
    norm_num
  · intro l
    rw [processPendingBattery_link _ l (by rw [h8]), h1, h2, h3, h4, h5, h6, h7, queued_load,
      queued_ocp, queued_opp, queued_lvp, queued_oah, queued_ohp, queued_ovp,
      sendParamVariants_OVP_24_2]

/-! ## Response aggregation -/

theorem foldl_collectByte_append (acc : List Char) (cs : List Char) (c : Char) :
    (cs ++ [c]).foldl collectByte acc = collectByte (cs.foldl collectByte acc) c := by
  rw [List.foldl_append]
  rfl

theorem collectByte_no_cr (resp : List Char) (c : Char) (h : '\r' ∉ resp) :
    '\r' ∉ collectByte resp c := by
  unfold collectByte
  split_ifs with h1 h2 h3
  · exact h
  · intro hm
    rcases List.mem_append.mp hm with hm | hm
    · exact h hm
    · simp at hm
  · exact h
  · intro hm
    rcases List.mem_append.mp hm with hm | hm
    · exact h hm
    · rw [List.mem_singleton] at hm
      exact h1 hm.symm

theorem foldl_collectByte_no_cr (cs acc : List Char) (h : '\r' ∉ acc) :
    '\r' ∉ cs.foldl collectByte acc := by
  induction cs generalizing acc with
  | nil => exact h
  | cons c cs ih => exact ih _ (collectByte_no_cr acc c h)

theorem collectByte_filter (resp : List Char) (c : Char) :
    (collectByte resp c).filter (fun x => decide (x ≠ '\n'))
      = resp.filter (fun x => decide (x ≠ '\n'))
        ++ [c].filter (fun x => decide (x ≠ '\r' ∧ x ≠ '\n')) := by
  unfold collectByte
  split_ifs with h1 h2 h3
  · simp [h1]
  · simp [h2]
  · simp [h2]
  · simp [h1, h2, List.filter_append]

theorem foldl_collectByte_filter (cs acc : List Char) :
    (cs.foldl collectByte acc).filter (fun x => decide (x ≠ '\n'))
      = acc.filter (fun x => decide (x ≠ '\n'))
        ++ cs.filter (fun x => decide (x ≠ '\r' ∧ x ≠ '\n')) := by
  induction cs generalizing acc with
  | nil => simp
  | cons c cs ih =>
    rw [List.foldl_cons, ih, collectByte_filter, List.append_assoc]
    congr 1
    exact (List.filter_append [c] cs).symm

theorem collectByte_chain (resp : List Char) (c : Char)
    (h : List.Chain' (fun a b => ¬ (a = '\n' ∧ b = '\n')) resp) :
    List.Chain' (fun a b => ¬ (a = '\n' ∧ b = '\n')) (collectByte resp c) := by
  unfold collectByte
  split_ifs with h1 h2 h3
  · exact h
  · rw [List.chain'_append]
    refine ⟨h, List.chain'_singleton _, ?_⟩
    intro x hx y hy
    rintro ⟨rfl, -⟩
    exact h3.2 hx
  · exact h
  · rw [List.chain'_append]
    refine ⟨h, List.chain'_singleton _, ?_⟩
    intro x _ y hy
    rintro ⟨-, rfl⟩
    simp at hy
    exact h2 hy

theorem foldl_collectByte_chain (cs acc : List Char)
    (h : List.Chain' (fun a b => ¬ (a = '\n' ∧ b = '\n')) acc) :
    List.Chain' (fun a b => ¬ (a = '\n' ∧ b = '\n')) (cs.foldl collectByte acc) := by
  induction cs generalizing acc with
  | nil => exact h
  | cons c cs ih => exact ih _ (collectByte_chain acc c h)

theorem chain_within {R : Char → Char → Prop} {inner outer : List Char}
    (h : List.Chain' R outer) (hsub : inner <:+: outer) : List.Chain' R inner :=
  List.Chain'.infix h hsub

theorem head?_dropWhile_isSpace (u : List Char) (c : Char)
    (h : (u.dropWhile isSpace).head? = some c) : isSpace c = false := by
  have := List.head?_dropWhile_not isSpace u
  rw [h] at this
  exact this

/-- `trim` on character lists: white space is removed at the two ends only. -/
theorem trim_decomp (u : List Char) :
    ∃ pre post, u = pre ++ ((u.dropWhile isSpace).reverse.dropWhile isSpace).reverse ++ post ∧
      (∀ c ∈ pre, isSpace c = true) ∧ (∀ c ∈ post, isSpace c = true) := by
  refine ⟨u.takeWhile isSpace,
    (((u.dropWhile isSpace).reverse).takeWhile isSpace).reverse, ?_, ?_, ?_⟩
  · have h1 := List.takeWhile_append_dropWhile isSpace u
    have h2 := List.takeWhile_append_dropWhile isSpace (u.dropWhile isSpace).reverse
    have h3 : u.dropWhile isSpace
        = ((u.dropWhile isSpace).reverse.dropWhile isSpace).reverse
          ++ ((u.dropWhile isSpace).reverse.takeWhile isSpace).reverse := by
      rw [← List.reverse_append, h2, List.reverse_reverse]
    rw [List.append_assoc, ← h3, h1]
  · intro c hc
    exact List.mem_takeWhile_imp hc
  · intro c hc
    rw [List.mem_reverse] at hc
    exact List.mem_takeWhile_imp hc

theorem trim_head (u : List Char) (c : Char)
    (h : ((u.dropWhile isSpace).reverse.dropWhile isSpace).reverse.head? = some c) :
    isSpace c = false := by
  rw [List.head?_reverse] at h
  obtain ⟨t, ht⟩ := List.dropWhile_suffix (l := (u.dropWhile isSpace).reverse) isSpace
  have hne : (u.dropWhile isSpace).reverse.dropWhile isSpace ≠ [] := by
    intro he
    rw [he] at h
    simp at h
  have hl : (u.dropWhile isSpace).reverse.getLast? = some c := by
    rw [← ht, List.getLast?_append_of_ne_nil t hne]
    exact h
  rw [List.getLast?_reverse] at hl
  exact head?_dropWhile_isSpace u c hl

theorem trim_last (u : List Char) (c : Char)
    (h : ((u.dropWhile isSpace).reverse.dropWhile isSpace).reverse.getLast? = some c) :
    isSpace c = false := by
  rw [List.getLast?_reverse] at h
  exact head?_dropWhile_isSpace _ c h

/-- C25 as amended: the aggregated response contains no carriage return and no two adjacent
line feeds and neither starts nor ends with white space. Before trimming, the bytes other
than carriage return and line feed are exactly the received ones, in arrival order; the
response is that text with white space removed at its two ends only. -/
theorem aggregateResponse_spec (raw : String) :
    '\r' ∉ (aggregateResponse raw).data ∧
    ¬ ['\n', '\n'] <:+: (aggregateResponse raw).data ∧
    (∀ c, (aggregateResponse raw).data.head? = some c → isSpace c = false) ∧
    (∀ c, (aggregateResponse raw).data.getLast? = some c → isSpace c = false) ∧
    (raw.data.foldl collectByte []).filter (fun x => decide (x ≠ '\n'))
      = raw.data.filter (fun x => decide (x ≠ '\r' ∧ x ≠ '\n')) ∧
    (∃ pre post, raw.data.foldl collectByte [] = pre ++ (aggregateResponse raw).data ++ post ∧
      (∀ c ∈ pre, isSpace c = true) ∧ (∀ c ∈ post, isSpace c = true)) := by
  have hd : (aggregateResponse raw).data =
      (((raw.data.foldl collectByte []).dropWhile isSpace).reverse.dropWhile isSpace).reverse :=
    rfl
  obtain ⟨pre, post, hsplit, hpre, hpost⟩ := trim_decomp (raw.data.foldl collectByte [])
  have hin : (aggregateResponse raw).data <:+: raw.data.foldl collectByte [] := by
    rw [hd]
    exact ⟨pre, post, hsplit.symm⟩
  refine ⟨?_, ?_, ?_, ?_, ?_, ⟨pre, post, by rw [hd]; exact hsplit, hpre, hpost⟩⟩
  · intro hm
    exact foldl_collectByte_no_cr raw.data [] (by simp) (hin.subset hm)
  · intro h2
    have hc := chain_within (chain_within
      (foldl_collectByte_chain raw.data [] List.chain'_nil) hin) h2
    rw [List.chain'_pair] at hc
    exact hc ⟨rfl, rfl⟩
  · intro c hc
    rw [hd] at hc
    exact trim_head _ c hc
  · intro c hc
    rw [hd] at hc
    exact trim_last _ c hc
  · have := foldl_collectByte_filter raw.data []
    simpa using this

/-- C25 fails as stated: from the bytes " OK" (a space, then "OK") the aggregated response
is "OK"; the space, a byte other than carriage return and line feed, is not kept. -/
theorem aggregateResponse_drops_outer_space :
    aggregateResponse " OK" = "OK" ∧
    ¬ ((aggregateResponse " OK").data.filter (fun x => decide (x ≠ '\n'))
      = (" OK" : String).data.filter (fun x => decide (x ≠ '\r' ∧ x ≠ '\n'))) := by
  decide

/-- C25 as amended, evaluated on "\r\n\nOK\r\n\n\nfoo \r\n": the response is "OK", one line
feed, "foo". -/
theorem aggregateResponse_spec_witness :
    aggregateResponse "\r\n\nOK\r\n\n\nfoo \r\n" = "OK\nfoo" ∧
    '\r' ∉ (aggregateResponse "\r\n\nOK\r\n\n\nfoo \r\n").data :=
  ⟨by decide, (aggregateResponse_spec "\r\n\nOK\r\n\n\nfoo \r\n").1⟩

/-! ## Decimal rendering and parsing -/

theorem isDigit_digitChar (d : ℕ) (hd : d < 10) : isDigit (Nat.digitChar d) = true := by
  interval_cases d <;> decide

theorem digitChar_toNat (d : ℕ) (hd : d < 10) : (Nat.digitChar d).toNat - 48 = d := by
  interval_cases d <;> decide

theorem digitsValue_foldl (ds : List Char) (a : ℕ) :
    ds.foldl (fun n c => 10 * n + (c.toNat - 48)) a
      = a * 10 ^ ds.length + digitsValue ds := by
  induction ds generalizing a with
  | nil => simp [digitsValue]
  | cons c cs ih =>
    unfold digitsValue
    rw [List.foldl_cons, ih, List.foldl_cons, ih (10 * 0 + (c.toNat - 48))]
    simp only [List.length_cons, pow_succ]
    ring

theorem digitsValue_append (xs ys : List Char) :
    digitsValue (xs ++ ys) = digitsValue xs * 10 ^ ys.length + digitsValue ys := by
  unfold digitsValue
  rw [List.foldl_append, digitsValue_foldl ys]
  rfl

theorem digitsValue_singleton (d : ℕ) (hd : d < 10) : digitsValue [Nat.digitChar d] = d := by
  unfold digitsValue
  simp [digitChar_toNat d hd]

theorem toDigitsCore_digits (fuel n : ℕ) (acc : List Char)
    (hacc : ∀ c ∈ acc, isDigit c = true) :
    ∀ c ∈ Nat.toDigitsCore 10 fuel n acc, isDigit c = true := by
  induction fuel generalizing n acc with
  | zero => simpa [Nat.toDigitsCore] using hacc
  | succ fuel ih =>
    have hd : isDigit (Nat.digitChar (n % 10)) = true :=
      isDigit_digitChar _ (Nat.mod_lt _ (by omega))
    have hacc' : ∀ c ∈ Nat.digitChar (n % 10) :: acc, isDigit c = true := by
      intro c hc
      rcases List.mem_cons.mp hc with rfl | hc
      · exact hd
      · exact hacc c hc
    rw [Nat.toDigitsCore]
    split_ifs
    · exact hacc'
    · exact ih _ _ hacc'

theorem toDigitsCore_value (fuel n : ℕ) (acc : List Char) (h : n < fuel) :
    digitsValue (Nat.toDigitsCore 10 fuel n acc) = n * 10 ^ acc.length + digitsValue acc := by
  induction fuel generalizing n acc with
  | zero => omega
  | succ fuel ih =>
    have hcons : digitsValue (Nat.digitChar (n % 10) :: acc)
        = (n % 10) * 10 ^ acc.length + digitsValue acc := by
      have := digitsValue_append [Nat.digitChar (n % 10)] acc
      rw [digitsValue_singleton _ (Nat.mod_lt _ (by omega))] at this
      exact this
    rw [Nat.toDigitsCore]
    split_ifs with h0
    · rw [hcons]
      have : n % 10 = n := by omega
      rw [this]
    · have hlt : n / 10 < fuel := by omega
      rw [ih (n / 10) _ hlt, hcons]
      simp only [List.length_cons, pow_succ]
      have hn : n = 10 * (n / 10) + n % 10 := (Nat.div_add_mod n 10).symm
      generalize n / 10 = q at hn ⊢
      generalize n % 10 = r at hn ⊢
      rw [hn]
      ring

theorem toDigitsCore_ne_nil (fuel n : ℕ) (acc : List Char) :
    Nat.toDigitsCore 10 (fuel + 1) n acc ≠ [] := by
  induction fuel generalizing n acc with
  | zero =>
    rw [Nat.toDigitsCore]
    split_ifs <;> simp [Nat.toDigitsCore]
  | succ fuel ih =>
    rw [Nat.toDigitsCore]
    split_ifs
    · simp
    · exact ih _ _

theorem repr_digits (m : ℕ) : ∀ c ∈ (Nat.repr m).data, isDigit c = true :=
  toDigitsCore_digits (m + 1) m [] (by simp)

theorem repr_value (m : ℕ) : digitsValue (Nat.repr m).data = m := by
  have := toDigitsCore_value (m + 1) m [] (by omega)
  simpa [digitsValue] using this

theorem repr_ne_nil (m : ℕ) : (Nat.repr m).data ≠ [] :=
  toDigitsCore_ne_nil m m []

theorem repr_small (d : ℕ) (hd : d < 10) : (Nat.repr d).data = [Nat.digitChar d] := by
  interval_cases d <;> decide

theorem digit_facts (c : Char) (h : isDigit c = true) :
    isSpace c = false ∧ c ≠ '-' ∧ c ≠ '+' ∧ c ≠ '.' := by
  have h' : '0' ≤ c ∧ c ≤ '9' := by
    unfold isDigit at h
    exact of_decide_eq_true h
  have h1 : 48 ≤ c.toNat := h'.1
  have h2 : c.toNat ≤ 57 := h'.2
  rw [← Char.ofNat_toNat c]
  generalize c.toNat = n at h1 h2
  interval_cases n <;> decide

theorem stringOfFloat_one_data (x : ℚ) :
    (stringOfFloat x 1).data =
      (if x < 0 then ['-'] else []) ++ (Nat.repr (scaledMagnitude x 1 / 10)).data
        ++ '.' :: [Nat.digitChar (scaledMagnitude x 1 % 10)] := by
  have hz : (zeroPad 1 (scaledMagnitude x 1 % 10)).data
      = [Nat.digitChar (scaledMagnitude x 1 % 10)] := by
    unfold zeroPad
    have hs := repr_small (scaledMagnitude x 1 % 10) (Nat.mod_lt _ (by omega))
    simp [String.length, hs]
  unfold stringOfFloat
  simp only [pow_one, one_ne_zero, if_false, String.data_append, hz]
  split_ifs <;> simp

theorem parseDecimal_rendered (neg : Bool) (ds : List Char) (dc : Char)
    (hds : ∀ c ∈ ds, isDigit c = true) (hne : ds ≠ []) (hdc : isDigit dc = true) :
    parseDecimal ⟨(if neg = true then ['-'] else []) ++ ds ++ '.' :: [dc]⟩
      = ⟨neg, digitsValue (ds ++ [dc]), 1, 0⟩ := by
  obtain ⟨c0, ds', rfl⟩ := List.exists_cons_of_ne_nil hne
  have hc0 := digit_facts c0 (hds c0 (List.mem_cons_self _ _))
  have hdot : isDigit '.' = false := by decide
  have htw : List.takeWhile isDigit (c0 :: ds' ++ '.' :: [dc]) = c0 :: ds' := by
    rw [List.takeWhile_append_of_pos hds, List.takeWhile_cons_of_neg (by simp [hdot])]
    simp
  have hdw : List.dropWhile isDigit (c0 :: ds' ++ '.' :: [dc]) = '.' :: [dc] := by
    rw [List.dropWhile_append_of_pos hds, List.dropWhile_cons_of_neg (by simp [hdot])]
  have hfr : List.takeWhile isDigit [dc] = [dc] := by
    simp [hdc]
  have hfd : List.dropWhile isDigit [dc] = [] := by
    simp [hdc]
  cases neg with
  | false =>
    have hsp : List.dropWhile isSpace (c0 :: ds' ++ '.' :: [dc]) = c0 :: ds' ++ '.' :: [dc] := by
      rw [List.cons_append, List.dropWhile_cons_of_neg (by simp [hc0.1])]
    have hh : (c0 :: ds' ++ '.' :: [dc]).head? = some c0 := rfl
    unfold parseDecimal
    simp only [Bool.false_eq_true, if_false, List.nil_append, hsp, hh, Option.some.injEq,
      hc0.2.1, hc0.2.2.1, or_self, htw, hdw, List.head?_cons, List.tail_cons, if_true, hfr,
      hfd, decide_False]
    simp [parseExponent]
  | true =>
    have hsp : List.dropWhile isSpace ('-' :: (c0 :: ds' ++ '.' :: [dc]))
        = '-' :: (c0 :: ds' ++ '.' :: [dc]) := by
      rw [List.dropWhile_cons_of_neg (by decide)]
    unfold parseDecimal
    simp only [if_true, List.singleton_append, List.cons_append, List.nil_append] at hsp ⊢
    simp only [hsp, List.head?_cons, true_or, if_true, List.tail_cons, decide_True]
    have htw' : List.takeWhile isDigit (c0 :: (ds' ++ '.' :: [dc])) = c0 :: ds' := htw
    have hdw' : List.dropWhile isDigit (c0 :: (ds' ++ '.' :: [dc])) = '.' :: [dc] := hdw
    simp only [htw', hdw', List.head?_cons, List.tail_cons, if_true, hfr, hfd]
    simp [parseExponent]

theorem parseDecimal_stringOfFloat_one (x : ℚ) :
    parseDecimal (stringOfFloat x 1)
      = ⟨decide (x < 0), scaledMagnitude x 1, 1, 0⟩ := by
  have hv : digitsValue ((Nat.repr (scaledMagnitude x 1 / 10)).data
      ++ [Nat.digitChar (scaledMagnitude x 1 % 10)]) = scaledMagnitude x 1 := by
    rw [digitsValue_append, repr_value, digitsValue_singleton _ (Nat.mod_lt _ (by omega))]
    simp only [List.length_singleton, pow_one]
    omega
  have hp := parseDecimal_rendered (decide (x < 0)) (Nat.repr (scaledMagnitude x 1 / 10)).data
    (Nat.digitChar (scaledMagnitude x 1 % 10)) (repr_digits _) (repr_ne_nil _)
    (isDigit_digitChar _ (Nat.mod_lt _ (by omega)))
  rw [hv] at hp
  have hdata : (stringOfFloat x 1) =
      ⟨(if decide (x < 0) = true then ['-'] else [])
        ++ (Nat.repr (scaledMagnitude x 1 / 10)).data
        ++ '.' :: [Nat.digitChar (scaledMagnitude x 1 % 10)]⟩ := by
    apply String.ext
    rw [stringOfFloat_one_data]
    simp
  rw [hdata]
  exact hp

theorem toFloat_stringOfFloat_one (x : ℚ) :
    toFloat (stringOfFloat x 1)
      = if x < 0 then -((scaledMagnitude x 1 : ℚ) / 10) else (scaledMagnitude x 1 : ℚ) / 10 := by
  unfold toFloat
  rw [parseDecimal_stringOfFloat_one]
  simp

theorem scaledMagnitude_tenth (n : ℕ) (neg : Bool) :
    scaledMagnitude (if neg = true then -((n : ℚ) / 10) else (n : ℚ) / 10) 1 = n := by
  have habs : |(if neg = true then -((n : ℚ) / 10) else (n : ℚ) / 10)| = (n : ℚ) / 10 := by
    have hn : (0 : ℚ) ≤ (n : ℚ) / 10 := by positivity
    cases neg
    · simp [abs_of_nonneg hn]
    · simp [abs_of_nonneg hn]
  unfold scaledMagnitude
  rw [habs]
  have hf : ⌊(n : ℚ) / 10 * 10 ^ 1 + 1 / 2⌋ = (n : ℤ) := by
    rw [Int.floor_eq_iff]
    constructor
    · push_cast
      linarith
    · push_cast
      linarith
  rw [hf]
  simp

theorem stringOfFloat_congr (x y : ℚ) (d : ℕ) (hm : scaledMagnitude x d = scaledMagnitude y d)
    (hs : x < 0 ↔ y < 0) : stringOfFloat x d = stringOfFloat y d := by
  unfold stringOfFloat
  rw [hm]
  by_cases hx : x < 0
  · have hy : y < 0 := hs.mp hx
    simp only [hx, hy, if_true]
  · have hy : ¬ y < 0 := fun h => hx (hs.mpr h)
    simp only [hx, hy, if_false]

theorem scaledMagnitude_pos_of_le (x : ℚ) (hx : x ≤ -(1 / 20)) : 0 < scaledMagnitude x 1 := by
  unfold scaledMagnitude
  have habs : (1 : ℚ) / 20 ≤ |x| := by
    rw [abs_of_nonpos (by linarith)]
    linarith
  have hf : (1 : ℤ) ≤ ⌊|x| * 10 ^ 1 + 1 / 2⌋ := by
    rw [Int.le_floor]
    push_cast
    linarith
  omega

/-- Rendering to 1 decimal, parsing and rendering again gives the same text, except for a
negative value that rounds to zero. -/
theorem stringOfFloat_one_roundtrip (x : ℚ) (hx : 0 ≤ x ∨ x ≤ -(1 / 20)) :
    stringOfFloat (toFloat (stringOfFloat x 1)) 1 = stringOfFloat x 1 := by
  rw [toFloat_stringOfFloat_one]
  have hn : x < 0 → 0 < scaledMagnitude x 1 := by
    intro hneg
    rcases hx with h | h
    · linarith
    · exact scaledMagnitude_pos_of_le x h
  apply stringOfFloat_congr
  · have := scaledMagnitude_tenth (scaledMagnitude x 1) (decide (x < 0))
    simpa using this
  · by_cases hneg : x < 0
    · have hpos : (0 : ℚ) < (scaledMagnitude x 1 : ℚ) / 10 := by
        have := hn hneg
        positivity
      simp only [hneg, if_true, iff_true]
      linarith
    · have hnn : (0 : ℚ) ≤ (scaledMagnitude x 1 : ℚ) / 10 := by positivity
      simp only [hneg, if_false, iff_false, not_lt]
      exact hnn

/-! ## The duplicated variant -/

theorem buildVariants_take (key value : String) :
    (buildVariants key value).variants.take (buildVariants key value).count =
      [key ++ ":" ++ value]
        ++ (if '.' ∈ value.data then [key ++ ":" ++ stringOfFloat (toFloat value) 1] else [])
        ++ [key ++ ":" ++ stringOfFloat (toFloat value) 3]
        ++ (if toLowerCase key = "ovp" ∨ toLowerCase key = "lvp" then
              [key ++ ":" ++ stringOfInt (truncToInt (roundf (toFloat value * 1000)))]
            else []) := by
  have hdot : (decide (indexOfChar value '.' ≥ 0) = true) ↔ '.' ∈ value.data := by
    simp only [decide_eq_true_eq, ge_iff_le]
    exact indexOfChar_nonneg_iff value '.'
  have ho : equalsIgnoreCase key "OVP" = true ↔ toLowerCase key = "ovp" := by
    rw [equalsIgnoreCase_iff]
    exact Iff.rfl
  have hl : equalsIgnoreCase key "LVP" = true ↔ toLowerCase key = "lvp" := by
    rw [equalsIgnoreCase_iff]
    exact Iff.rfl
  have hvolt : (equalsIgnoreCase key "OVP" || equalsIgnoreCase key "LVP") = true ↔
      (toLowerCase key = "ovp" ∨ toLowerCase key = "lvp") := by
    rw [Bool.or_eq_true, ho, hl]
  unfold buildVariants
  by_cases h1 : '.' ∈ value.data <;>
    by_cases h2 : (toLowerCase key = "ovp" ∨ toLowerCase key = "lvp") <;>
    simp [hdot.mpr, hvolt.mpr, hdot, hvolt, h1, h2, VariantTable.store, List.replicate]

theorem sendCommandWithConfirm_of_none (cmd : String) (l : Link)
    (h : ∀ i, i < 3 → confirms cmd (responseAt l i) = false) :
    sendCommandWithConfirm cmd l
      = (false, ⟨l.sent ++ attemptFrames cmd 3, l.script.drop 3⟩) := by
  rw [sendCommandWithConfirm_cases]
  simp [h 0 (by omega), h 1 (by omega), h 2 (by omega)]

theorem responseAt_drop (sent : List Frame) (l : Link) (k i : ℕ) :
    responseAt ⟨sent, l.script.drop k⟩ i = responseAt l (k + i) := by
  unfold responseAt
  simp [List.getD_eq_getElem?_getD, List.getElem?_drop]

theorem isOneDecimalNumeral_stringOfFloat (x : ℚ) :
    isOneDecimalNumeral (stringOfFloat x 1) = true := by
  have hds := repr_digits (scaledMagnitude x 1 / 10)
  have hdc := isDigit_digitChar (scaledMagnitude x 1 % 10) (Nat.mod_lt _ (by omega))
  have hdot : isDigit '.' = false := by decide
  obtain ⟨c0, ds', hrepr⟩ := List.exists_cons_of_ne_nil (repr_ne_nil (scaledMagnitude x 1 / 10))
  rw [hrepr] at hds
  have hc0 := digit_facts c0 (hds c0 (List.mem_cons_self _ _))
  have htw : List.takeWhile isDigit
      (c0 :: ds' ++ '.' :: [Nat.digitChar (scaledMagnitude x 1 % 10)]) = c0 :: ds' := by
    rw [List.takeWhile_append_of_pos hds, List.takeWhile_cons_of_neg (by simp [hdot])]
    simp
  have hdw : List.dropWhile isDigit
      (c0 :: ds' ++ '.' :: [Nat.digitChar (scaledMagnitude x 1 % 10)])
        = ['.', Nat.digitChar (scaledMagnitude x 1 % 10)] := by
    rw [List.dropWhile_append_of_pos hds, List.dropWhile_cons_of_neg (by simp [hdot])]
  unfold isOneDecimalNumeral
  rw [stringOfFloat_one_data, hrepr]
  have htw' : List.takeWhile isDigit
      (c0 :: (ds' ++ '.' :: [Nat.digitChar (scaledMagnitude x 1 % 10)])) = c0 :: ds' := htw
  have hdw' : List.dropWhile isDigit
      (c0 :: (ds' ++ '.' :: [Nat.digitChar (scaledMagnitude x 1 % 10)]))
        = ['.', Nat.digitChar (scaledMagnitude x 1 % 10)] := hdw
  by_cases hneg : x < 0
  · simp [hneg, htw', hdw', hdc]
  · simp [hneg, htw', hdw', hdc, hc0.2.1]

/-- C30 as amended: when the value is the 1-decimal rendering of a number `x` that is not a
negative number rounding to zero (`0 ≤ x` or `x ≤ -0.05`) — the form of the OVP value of the
staged apply, a numeral with one digit after the point — the first two variants are the same string `key:value`, followed by the
3-decimal variant; if none of the first six responses confirms that command it is written
six times (two rounds of three attempts) before the 3-decimal variant is tried. -/
theorem sendParamVariants_duplicate (key : String) (x : ℚ) (l : Link)
    (hx : 0 ≤ x ∨ x ≤ -(1 / 20)) :
    isOneDecimalNumeral (stringOfFloat x 1) = true ∧
    (buildVariants key (stringOfFloat x 1)).variants.take
        (buildVariants key (stringOfFloat x 1)).count =
      (key ++ ":" ++ stringOfFloat x 1) :: (key ++ ":" ++ stringOfFloat x 1) ::
        (key ++ ":" ++ stringOfFloat (toFloat (stringOfFloat x 1)) 3) ::
        (if toLowerCase key = "ovp" ∨ toLowerCase key = "lvp" then
          [key ++ ":" ++ stringOfInt
            (truncToInt (roundf (toFloat (stringOfFloat x 1) * 1000)))]
        else []) ∧
    ((∀ i, i < 6 → confirms (key ++ ":" ++ stringOfFloat x 1) (responseAt l i) = false) →
      sendParamVariants key (stringOfFloat x 1) l =
        tryVariants
          ((key ++ ":" ++ stringOfFloat (toFloat (stringOfFloat x 1)) 3) ::
            (if toLowerCase key = "ovp" ∨ toLowerCase key = "lvp" then
              [key ++ ":" ++ stringOfInt
                (truncToInt (roundf (toFloat (stringOfFloat x 1) * 1000)))]
            else []))
          ⟨l.sent ++ attemptFrames (key ++ ":" ++ stringOfFloat x 1) 3
              ++ attemptFrames (key ++ ":" ++ stringOfFloat x 1) 3,
            l.script.drop 6⟩) := by
  have hlist : (buildVariants key (stringOfFloat x 1)).variants.take
        (buildVariants key (stringOfFloat x 1)).count =
      (key ++ ":" ++ stringOfFloat x 1) :: (key ++ ":" ++ stringOfFloat x 1) ::
        (key ++ ":" ++ stringOfFloat (toFloat (stringOfFloat x 1)) 3) ::
        (if toLowerCase key = "ovp" ∨ toLowerCase key = "lvp" then
          [key ++ ":" ++ stringOfInt
            (truncToInt (roundf (toFloat (stringOfFloat x 1) * 1000)))]
        else []) := by
    rw [buildVariants_take, if_pos (stringOfFloat_one_has_dot x),
      stringOfFloat_one_roundtrip x hx]
    rfl
  refine ⟨isOneDecimalNumeral_stringOfFloat x, hlist, ?_⟩
  intro hnone
  have h1 := sendCommandWithConfirm_of_none (key ++ ":" ++ stringOfFloat x 1) l
    (fun i hi => hnone i (by omega))
  have h2 := sendCommandWithConfirm_of_none (key ++ ":" ++ stringOfFloat x 1)
    ⟨l.sent ++ attemptFrames (key ++ ":" ++ stringOfFloat x 1) 3, l.script.drop 3⟩
    (fun i hi => by rw [responseAt_drop]; exact hnone (3 + i) (by omega))
  have hd : List.drop 3 (List.drop 3 l.script) = List.drop 6 l.script := by
    rw [List.drop_drop]
  simp only [hd] at h2
  unfold sendParamVariants
  simp only [hlist]
  rw [tryVariants_cons, h1]
  simp only [Bool.false_eq_true, if_false]
  rw [tryVariants_cons, h2]
  simp only [Bool.false_eq_true, if_false]

theorem toFloat_01_5 : toFloat "01.5" = 3 / 2 := by
  have hp : parseDecimal "01.5" = ⟨false, 15, 1, 0⟩ := by decide
  unfold toFloat
  rw [hp]
  norm_num

theorem stringOfFloat_1_5_one : stringOfFloat (3 / 2) 1 = "1.5" := by
  have hm : scaledMagnitude (3 / 2 : ℚ) 1 = 15 := by
    unfold scaledMagnitude
    rw [abs_of_nonneg (by norm_num)]
    norm_num
    rfl
  unfold stringOfFloat
  rw [hm]
  norm_num
  decide

theorem toFloat_neg_0_0 : toFloat "-0.0" = 0 := by
  have hp : parseDecimal "-0.0" = ⟨true, 0, 1, 0⟩ := by decide
  unfold toFloat
  rw [hp]
  norm_num

theorem stringOfFloat_0_one : stringOfFloat 0 1 = "0.0" := by
  have hm : scaledMagnitude (0 : ℚ) 1 = 0 := by
    unfold scaledMagnitude
    norm_num
  unfold stringOfFloat
  rw [hm]
  norm_num
  decide

/-- C30 fails as stated: "01.5" and "-0.0" are decimal numerals with exactly one digit after
the point, yet the first two variants for them differ: "OVP:01.5" then "OVP:1.5", and
"OVP:-0.0" then "OVP:0.0". -/
theorem variants_differ_for_unnormalised_numerals :
    isOneDecimalNumeral "01.5" = true ∧
    ((buildVariants "OVP" "01.5").variants.take (buildVariants "OVP" "01.5").count).take 2
      = ["OVP:01.5", "OVP:1.5"] ∧
    isOneDecimalNumeral "-0.0" = true ∧
    ((buildVariants "OVP" "-0.0").variants.take (buildVariants "OVP" "-0.0").count).take 2
      = ["OVP:-0.0", "OVP:0.0"] := by
  refine ⟨by decide, ?_, by decide, ?_⟩
  · have hdot : '.' ∈ ("01.5" : String).data := by decide
    rw [buildVariants_take, if_pos hdot, toFloat_01_5, stringOfFloat_1_5_one]
    rfl
  · have hdot : '.' ∈ ("-0.0" : String).data := by decide
    rw [buildVariants_take, if_pos hdot, toFloat_neg_0_0, stringOfFloat_0_one]
    rfl

/-- C30 as amended, evaluated for key "OVP" and the rendering "24.2" of 24.2: the variants
are "OVP:24.2", "OVP:24.2", "OVP:24.200", "OVP:24200", and on a silent device the seventh
frame is the first one that carries "OVP:24.200". -/
theorem sendParamVariants_duplicate_witness :
    ((0 : ℚ) ≤ 121 / 5 ∨ (121 / 5 : ℚ) ≤ -(1 / 20)) ∧
    (buildVariants "OVP" (stringOfFloat (121 / 5) 1)).variants.take
        (buildVariants "OVP" (stringOfFloat (121 / 5) 1)).count
      = ["OVP:24.2", "OVP:24.2", "OVP:24.200", "OVP:24200"] ∧
    ((sendParamVariants "OVP" "24.2" ⟨[], []⟩).2.sent.map Frame.text).take 7
      = ["OVP:24.2", "OVP:24.2", "OVP:24.2", "OVP:24.2", "OVP:24.2", "OVP:24.2",
          "OVP:24.200"] := by
  have hx : (0 : ℚ) ≤ 121 / 5 ∨ (121 / 5 : ℚ) ≤ -(1 / 20) := Or.inl (by norm_num)
  have h := (sendParamVariants_duplicate "OVP" (121 / 5) ⟨[], []⟩ hx).2.1
  have hkey : toLowerCase "OVP" = "ovp" ∨ toLowerCase "OVP" = "lvp" := Or.inl (by decide)
  rw [if_pos hkey] at h
  simp only [stringOfFloat_24_2_one, toFloat_24_2, stringOfFloat_24_2_three,
    millivolts_24_2] at h
  refine ⟨hx, ?_, ?_⟩
  · rw [stringOfFloat_24_2_one]
    exact h.trans (by decide)
  · rw [sendParamVariants_OVP_24_2]
    decide

/-! ## Selection during a staged apply -/

theorem runStepsSelecting_eq (mods : List BatteryModule) (j : ℕ) (p : BatteryModule)
    (s : ApplyState) (k : ℕ) (hp : mods[j]? = some p) :
    runStepsSelecting mods k (j : Int) s
      = runSteps (applySteps.drop k)
          ⟨queueProfile p (j : Int), (runSteps (applySteps.take k) s).link,
            (runSteps (applySteps.take k) s).successCount⟩ := by
  unfold runStepsSelecting ApplyState.select
  rw [setActiveBattery_eq_queue mods j p _ hp]

theorem runSteps_take_four_link (g : Globals) (l : Link) :
    (runSteps (applySteps.take 4) ⟨g, l, 0⟩).link
      = sendEach [g.TEST_LOAD ++ "A", "OCP:" ++ stringOfFloat g.pendingOCP 2]
          (sendCommandNoNL "stop" l) := by
  have ht : applySteps.take 4 = [.claim, .stop, .load, .ocp] := rfl
  rw [ht, runSteps_cons, run_claim, runSteps_cons, run_stop, runSteps_cons, run_load,
    runSteps_cons, run_ocp, runSteps_nil]
  simp only [doCmd_snd, sendEach, List.foldl]

theorem runSteps_drop_four_link (g : Globals) (l : Link) (n : ℕ) :
    (runSteps (applySteps.drop 4) ⟨g, l, n⟩).link
      = sendCommandNoNL "start"
          (sendParamVariants "OVP" (stringOfFloat g.pendingOVP 1)
            (sendEach ["OPP:" ++ stringOfFloat g.pendingOPP 2,
                "LVP:" ++ stringOfFloat g.pendingLVP 1,
                "OAH:" ++ stringOfFloat g.pendingOAH 3, "OHP:" ++ g.pendingOHP] l)).2 := by
  have ht : applySteps.drop 4 = [.opp, .lvp, .oah, .ohp, .ovp, .start, .clearFlag] := rfl
  rw [ht, runSteps_cons, run_opp, runSteps_cons, run_lvp, runSteps_cons, run_oah,
    runSteps_cons, run_ohp, runSteps_cons, run_ovp, runSteps_cons, run_start,
    runSteps_cons, run_clearFlag, runSteps_nil]
  simp only [doCmd_snd, sendEach, List.foldl]


theorem sendParamVariants_of_first (key value : String) (l : Link)
    (h : (sendCommandWithConfirm (key ++ ":" ++ value) l).1 = true) :
    sendParamVariants key value l = (true, (sendCommandWithConfirm (key ++ ":" ++ value) l).2) := by
  unfold sendParamVariants
  dsimp only
  rw [buildVariants_take]
  simp only [List.singleton_append, List.cons_append, List.nil_append]
  rw [tryVariants_cons, if_pos h]

theorem cell18650_payloads :
    batteryModules[3]? = some cell18650 ∧
    "OPP:" ++ stringOfFloat (queueProfile cell18650 ((3 : ℕ) : Int)).pendingOPP 2 = "OPP:12.60" ∧
    "LVP:" ++ stringOfFloat (queueProfile cell18650 ((3 : ℕ) : Int)).pendingLVP 1 = "LVP:3.0" ∧
    "OAH:" ++ stringOfFloat (queueProfile cell18650 ((3 : ℕ) : Int)).pendingOAH 3 = "OAH:3.200" ∧
    "OHP:" ++ (queueProfile cell18650 ((3 : ℕ) : Int)).pendingOHP = "OHP:02:00" ∧
    stringOfFloat (queueProfile cell18650 ((3 : ℕ) : Int)).pendingOVP 1 = "4.2" := by
  have hopp : (queueProfile cell18650 ((3 : ℕ) : Int)).pendingOPP = 63 / 5 := by
    show (clampRequest cell18650).reqOPP = 63 / 5
    norm_num [clampRequest, cell18650, roundf, RATED_VOLTAGE_MAX, RATED_CURRENT_MAX,
      RATED_POWER_MAX]
  have hovp : (queueProfile cell18650 ((3 : ℕ) : Int)).pendingOVP = 21 / 5 := by
    show (clampRequest cell18650).reqOVP = 21 / 5
    norm_num [clampRequest, cell18650, roundf, RATED_VOLTAGE_MAX, RATED_CURRENT_MAX,
      RATED_POWER_MAX]
  have hlvp : (queueProfile cell18650 ((3 : ℕ) : Int)).pendingLVP = 3 := by
    show cell18650.lowVoltageProtect = 3
    norm_num [cell18650]
  have hoah : (queueProfile cell18650 ((3 : ℕ) : Int)).pendingOAH = 16 / 5 := by
    show cell18650.overAhLimit = 16 / 5
    norm_num [cell18650]
  have m1 : scaledMagnitude (63 / 5 : ℚ) 2 = 1260 := by
    unfold scaledMagnitude
    rw [abs_of_nonneg (by norm_num)]
    norm_num
    rfl
  have m2 : scaledMagnitude (3 : ℚ) 1 = 30 := by
    unfold scaledMagnitude
    rw [abs_of_nonneg (by norm_num)]
    norm_num
    rfl
  have m3 : scaledMagnitude (16 / 5 : ℚ) 3 = 3200 := by
    unfold scaledMagnitude
    rw [abs_of_nonneg (by norm_num)]
    norm_num
    rfl
  have m4 : scaledMagnitude (21 / 5 : ℚ) 1 = 42 := by
    unfold scaledMagnitude
    rw [abs_of_nonneg (by norm_num)]
    norm_num
    rfl
  refine ⟨rfl, ?_, ?_, ?_, by decide, ?_⟩
  · rw [hopp]
    unfold stringOfFloat
    rw [m1]
    norm_num
    decide
  · rw [hlvp]
    unfold stringOfFloat
    rw [m2]
    norm_num
    decide
  · rw [hoah]
    unfold stringOfFloat
    rw [m3]
    norm_num
    decide
  · rw [hovp]
    unfold stringOfFloat
    rw [m4]
    norm_num
    decide


set_option maxRecDepth 100000 in
/-- C31 (the code misses it): the record frozen for index 0 is being applied to a device
that confirms every command, and entry 3 is selected between the OCP and the OPP command,
when the slot is already `-1`. The running apply has kept only the index in a local; it
reads the frozen values again at each command, so the commands still to send carry the
values frozen for entry 3 ("OPP:12.60", "LVP:3.0", "OAH:3.200", "OHP:02:00", "OVP:4.2")
after "OCP:1.45" of the claimed record, whose own values the undisturbed run sends
("OPP:35.00", "LVP:18.0", "OAH:36.000", "OHP:10:00", "OVP:24.2"). -/
theorem interleaved_selection_changes_payloads :
    (setActiveBattery batteryModules 0 bootGlobals).2.pendingOPP
      = queuedGeneric24.pendingOPP ∧
    (runSteps (applySteps.take 4)
      ⟨queuedGeneric24, ⟨[], ["ok", "ok", "ok", "ok", "ok", "ok", "ok"]⟩, 0⟩
      ).globals.pendingBatteryIdx = -1 ∧
    (runStepsSelecting batteryModules 4 ((3 : ℕ) : Int)
      ⟨queuedGeneric24, ⟨[], ["ok", "ok", "ok", "ok", "ok", "ok", "ok"]⟩, 0⟩
      ).link.sent.map Frame.text
      = ["stop", "5.00A", "OCP:1.45", "OPP:12.60", "LVP:3.0", "OAH:3.200", "OHP:02:00",
          "OVP:4.2", "start"] ∧
    (processPendingBattery queuedGeneric24
      ⟨[], ["ok", "ok", "ok", "ok", "ok", "ok", "ok"]⟩).link.sent.map Frame.text
      = ["stop", "5.00A", "OCP:1.45", "OPP:35.00", "LVP:18.0", "OAH:36.000", "OHP:10:00",
          "OVP:24.2", "start"] := by
  obtain ⟨hp, h1, h2, h3, h4, h5⟩ := cell18650_payloads
  refine ⟨selected0_fields.2.2.2.1, ?_, ?_, ?_⟩
  · exact runSteps_keeps_cleared [.stop, .load, .ocp] _ rfl
  · rw [runStepsSelecting_eq batteryModules 3 cell18650 _ 4 hp, runSteps_drop_four_link,
      runSteps_take_four_link, queued_load, queued_ocp, h1, h2, h3, h4, h5,
      sendParamVariants_of_first "OVP" "4.2" _ (by decide)]
    decide
  · rw [processPendingBattery_queued_link]
    decide

/-! ## The test log -/

theorem shiftLoop_spec (n i : ℕ) (arr : List TestResult) (h : i + n < arr.length) :
    ∃ arr1, shiftLoop n (i : Int) arr = some arr1 ∧ arr1.length = arr.length ∧
      ∀ j : ℕ, arr1[j]? = if i ≤ j ∧ j < i + n then arr[j + 1]? else arr[j]? := by
  induction n generalizing i arr with
  | zero =>
    refine ⟨arr, rfl, rfl, ?_⟩
    intro j
    have : ¬ (i ≤ j ∧ j < i + 0) := by omega
    rw [if_neg this]
  | succ n ih =>
    have h1 : i + 1 < arr.length := by omega
    have hr : readAt arr ((i : Int) + 1) = some (arr[i + 1]) := by
      have hc : 0 ≤ (i : Int) + 1 ∧ (i : Int) + 1 < arr.length := by omega
      have ht : ((i : Int) + 1).toNat = i + 1 := by omega
      unfold readAt
      rw [if_pos hc, ht, List.getElem?_eq_getElem h1]
    have hw : writeAt arr (i : Int) (arr[i + 1]) = some (arr.set i (arr[i + 1])) := by
      have hc : 0 ≤ (i : Int) ∧ (i : Int) < arr.length := by omega
      unfold writeAt
      rw [if_pos hc]
      simp
    obtain ⟨arr1, hs, hl, hj⟩ := ih (i + 1) (arr.set i (arr[i + 1])) (by
      rw [List.length_set]; omega)
    refine ⟨arr1, ?_, ?_, ?_⟩
    · rw [shiftLoop, hr]
      simp only [hw]
      exact_mod_cast hs
    · rw [hl, List.length_set]
    · intro j
      rw [hj j]
      by_cases hc : i + 1 ≤ j ∧ j < i + 1 + n
      · have hc2 : i ≤ j ∧ j < i + (n + 1) := by omega
        rw [if_pos hc, if_pos hc2, List.getElem?_set_ne (by omega)]
      · rw [if_neg hc]
        by_cases hij : i = j
        · subst hij
          have hc2 : i ≤ i ∧ i < i + (n + 1) := by omega
          rw [if_pos hc2, List.getElem?_set_self, List.getElem?_eq_getElem h1]
          simp [show i < arr.length by omega]
        · have hc2 : ¬ (i ≤ j ∧ j < i + (n + 1)) := by omega
          rw [if_neg hc2, List.getElem?_set_ne hij]


theorem writeAt_of_lt (arr : List TestResult) (i : ℕ) (v : TestResult) (h : i < arr.length) :
    writeAt arr (i : Int) v = some (arr.set i v) := by
  have hc : 0 ≤ (i : Int) ∧ (i : Int) < arr.length := by omega
  unfold writeAt
  rw [if_pos hc]
  simp

/-- C32: on a 50-slot log whose count lies in `[0, 50]`, `saveTestResult` makes no array
access outside the array; the count becomes `min(count + 1, 50)`; the new record (date cut
to 19 characters, name to 49, the two numbers, `valid`) is entry `count - 1` of the new
log; a log that was not full keeps every other slot; a full log loses entry 0 and has each
old entry `i + 1` at slot `i`, for `i < 49`. -/
theorem saveTestResult_fifo (batteryName date : String) (finalAh timeHours : ℚ)
    (log : TestLog) (hlen : log.testResults.length = MAX_TEST_RESULTS)
    (h0 : 0 ≤ log.testResultCount) (h50 : log.testResultCount ≤ 50) :
    ∃ log1, saveTestResult batteryName date finalAh timeHours log = some log1 ∧
      log1.testResults.length = 50 ∧
      log1.testResultCount = min (log.testResultCount + 1) 50 ∧
      log1.testResults[(log1.testResultCount - 1).toNat]?
        = some ⟨⟨date.data.take 19⟩, ⟨batteryName.data.take 49⟩, finalAh, timeHours, true⟩ ∧
      (log.testResultCount < 50 → ∀ i : ℕ, i ≠ log.testResultCount.toNat →
        log1.testResults[i]? = log.testResults[i]?) ∧
      (log.testResultCount = 50 → ∀ i : ℕ, i < 49 →
        log1.testResults[i]? = log.testResults[i + 1]?) := by
  have hlen50 : log.testResults.length = 50 := hlen
  by_cases hfull : log.testResultCount ≥ (MAX_TEST_RESULTS : Int)
  · have hc50 : log.testResultCount = 50 := by
      have : (MAX_TEST_RESULTS : Int) = 50 := rfl
      omega
    obtain ⟨arr1, hs, hl, hj⟩ := shiftLoop_spec 49 0 log.testResults (by omega)
    have hs2 : shiftLoop (MAX_TEST_RESULTS - 1) 0 log.testResults = some arr1 := hs
    have hw := writeAt_of_lt arr1 49
      ⟨⟨date.data.take 19⟩, ⟨batteryName.data.take 49⟩, finalAh, timeHours, true⟩ (by omega)
    have hw2 : writeAt arr1 ((MAX_TEST_RESULTS : Int) - 1)
        ⟨⟨date.data.take 19⟩, ⟨batteryName.data.take 49⟩, finalAh, timeHours, true⟩
        = some (arr1.set 49
          ⟨⟨date.data.take 19⟩, ⟨batteryName.data.take 49⟩, finalAh, timeHours, true⟩) := hw
    refine ⟨⟨arr1.set 49
      ⟨⟨date.data.take 19⟩, ⟨batteryName.data.take 49⟩, finalAh, timeHours, true⟩, 50⟩,
      ?_, ?_, ?_, ?_, ?_, ?_⟩
    · unfold saveTestResult
      simp only [if_pos hfull, hs2, hw2]
      rfl
    · simp [hl, hlen50]
    · rw [hc50]; rfl
    · show (arr1.set 49 _)[((50 : Int) - 1).toNat]? = _
      have : ((50 : Int) - 1).toNat = 49 := rfl
      rw [this, List.getElem?_set_self (by omega)]
    · intro hlt
      omega
    · intro _ i hi
      show (arr1.set 49 _)[i]? = _
      rw [List.getElem?_set_ne (by omega), hj i, if_pos (by omega)]
  · have hlt : log.testResultCount < 50 := by
      have : (MAX_TEST_RESULTS : Int) = 50 := rfl
      omega
    obtain ⟨c, hc⟩ := Int.eq_ofNat_of_zero_le h0
    have hc49 : c < log.testResults.length := by omega
    have hw := writeAt_of_lt log.testResults c
      ⟨⟨date.data.take 19⟩, ⟨batteryName.data.take 49⟩, finalAh, timeHours, true⟩ hc49
    rw [← hc] at hw
    refine ⟨⟨log.testResults.set c
      ⟨⟨date.data.take 19⟩, ⟨batteryName.data.take 49⟩, finalAh, timeHours, true⟩,
      log.testResultCount + 1⟩, ?_, ?_, ?_, ?_, ?_, ?_⟩
    · unfold saveTestResult
      simp only [if_neg hfull, hw]
    · simp [hlen50]
    · show log.testResultCount + 1 = min (log.testResultCount + 1) 50
      omega
    · show (log.testResults.set c _)[(log.testResultCount + 1 - 1).toNat]? = _
      have : (log.testResultCount + 1 - 1).toNat = c := by omega
      rw [this, List.getElem?_set_self hc49]
    · intro _ i hi
      show (log.testResults.set c _)[i]? = _
      rw [List.getElem?_set_ne (by omega)]
    · intro h
      omega


set_option maxRecDepth 100000 in
/-- C32, evaluated on the full log `sampleLogFull`: the save succeeds, the count stays 50,
"cell 0" is gone, "cell 1" to "cell 49" sit in slots 0 to 48 and the new record in slot
49, its name cut to 49 characters. -/
theorem saveTestResult_fifo_witness :
    sampleLogFull.testResults.length = MAX_TEST_RESULTS ∧
    0 ≤ sampleLogFull.testResultCount ∧ sampleLogFull.testResultCount ≤ 50 ∧
    (∃ log1, saveTestResult "12V SLA 14.4V 0.70A, bench unit 2, retest after a 24 h rest"
        "2025-02-03 04:05" 6.25 9.5 sampleLogFull = some log1 ∧
      log1.testResultCount = 50 ∧
      log1.testResults.map TestResult.batteryType
        = (List.range 49).map (fun k => "cell " ++ Nat.repr (k + 1))
          ++ ["12V SLA 14.4V 0.70A, bench unit 2, retest after a"]) := by
  obtain ⟨log1, h1, _, h3, _, _, _⟩ := saveTestResult_fifo
    "12V SLA 14.4V 0.70A, bench unit 2, retest after a 24 h rest" "2025-02-03 04:05" 6.25 9.5
    sampleLogFull rfl (by decide) (by decide)
  refine ⟨rfl, by decide, by decide, log1, h1, h3, ?_⟩
  have h2 : (saveTestResult "12V SLA 14.4V 0.70A, bench unit 2, retest after a 24 h rest"
      "2025-02-03 04:05" 6.25 9.5 sampleLogFull).map
        (fun l => l.testResults.map TestResult.batteryType)
      = some ((List.range 49).map (fun k => "cell " ++ Nat.repr (k + 1))
          ++ ["12V SLA 14.4V 0.70A, bench unit 2, retest after a"]) := by
    decide
  rw [h1] at h2
  exact Option.some.inj h2

/-! ## The clamped flag and the rounding margin -/

theorem clampRequest_clamped_iff (b : BatteryModule) (hv : 0 < b.nominalVoltage) :
    (clampRequest b).clamped = true ↔
      (b.nominalVoltage > 25 ∨ b.maxLoadA > 5 ∨
        min b.nominalVoltage 25 * min b.maxLoadA 5 > 35) := by
  have hm : 0 < min b.nominalVoltage 25 := lt_min hv (by norm_num)
  have hV : (if b.nominalVoltage > 25 then (25 : ℚ) else b.nominalVoltage)
      = min b.nominalVoltage 25 := by
    by_cases h : b.nominalVoltage > 25
    · simp [h, min_eq_right (le_of_lt h)]
    · simp [h, min_eq_left (not_lt.mp h)]
  have hI : (if b.maxLoadA > 5 then (5 : ℚ) else b.maxLoadA) = min b.maxLoadA 5 := by
    by_cases h : b.maxLoadA > 5
    · simp [h, min_eq_right (le_of_lt h)]
    · simp [h, min_eq_left (not_lt.mp h)]
  have hdiv : 35 / min b.nominalVoltage 25 < min b.maxLoadA 5 ↔
      min b.nominalVoltage 25 * min b.maxLoadA 5 > 35 := by
    rw [div_lt_iff₀ hm, gt_iff_lt, mul_comm]
  unfold clampRequest RATED_VOLTAGE_MAX RATED_CURRENT_MAX RATED_POWER_MAX
  simp only [decide_eq_true_eq, Bool.and_eq_true, hV, hI]
  by_cases h1 : b.nominalVoltage > 25
  · simp [h1]
  · by_cases h2 : b.maxLoadA > 5
    · simp [h2]
    · by_cases h3 : min b.nominalVoltage 25 * min b.maxLoadA 5 > 35
      · simp [h3, hdiv.mpr h3]
      · simp [h1, h2, h3]

theorem clampRequest_unclamped_iff (b : BatteryModule) (hv : 0 < b.nominalVoltage) :
    (clampRequest b).clamped = false ↔
      (b.nominalVoltage ≤ 25 ∧ (clampRequest b).reqOCP = b.maxLoadA ∧
        (clampRequest b).reqOVP = roundf (b.nominalVoltage * 10) / 10) := by
  have hm : 0 < min b.nominalVoltage 25 := lt_min hv (by norm_num)
  rw [← Bool.not_eq_true, clampRequest_clamped_iff b hv, clampRequest_reqOCP b hv,
    clampRequest_reqOVP]
  constructor
  · intro h
    push_neg at h
    obtain ⟨h1, h2, h3⟩ := h
    have h4 : min b.maxLoadA 5 ≤ 35 / min b.nominalVoltage 25 := by
      rw [le_div_iff₀ hm]; linarith
    refine ⟨h1, ?_, ?_⟩
    · rw [min_eq_left h4, min_eq_left h2]
    · rw [min_eq_left h1]
  · rintro ⟨h1, h2, _⟩
    have h5 : b.maxLoadA ≤ 5 := by
      rw [← h2]; exact le_trans (min_le_left _ _) (min_le_right _ _)
    have h6 : b.maxLoadA ≤ 35 / min b.nominalVoltage 25 := by
      rw [min_eq_left h5] at h2
      rw [← h2]; exact min_le_right _ _
    rw [le_div_iff₀ hm] at h6
    push_neg
    refine ⟨h1, h5, ?_⟩
    rw [min_eq_left h5]
    linarith

/-- C33 (as stated it fails): for the profile `samplePack2504` (nominal 25.04 V, maximum
load 1 A, both positive) the frozen current equals `maxLoadA` and the frozen voltage, 25.0,
is the quantised nominal voltage, yet the clamped flag is `true`. -/
theorem clamped_flag_set_on_unchanged_values :
    0 < samplePack2504.nominalVoltage ∧ 0 < samplePack2504.maxLoadA ∧
    (setActiveBattery [samplePack2504] 0 bootGlobals).2.pendingOCP
      = samplePack2504.maxLoadA ∧
    (setActiveBattery [samplePack2504] 0 bootGlobals).2.pendingOVP
      = roundf (samplePack2504.nominalVoltage * 10) / 10 ∧
    (setActiveBattery [samplePack2504] 0 bootGlobals).2.pendingOVP = 25 ∧
    (setActiveBattery [samplePack2504] 0 bootGlobals).2.pendingWasClamped = true := by
  have h := setActiveBattery_eq_queue [samplePack2504] 0 samplePack2504 bootGlobals rfl
  simp only [Nat.cast_zero] at h
  rw [h]
  norm_num [queueProfile, clampRequest, samplePack2504, roundf, RATED_VOLTAGE_MAX,
    RATED_CURRENT_MAX, RATED_POWER_MAX]

/-- C33 (amended): for a profile with positive nominal voltage the clamped flag set by
`setActiveBattery` is `true` exactly when `nominalVoltage > 25`, or `maxLoadA > 5`, or
`min(nominalVoltage, 25) * min(maxLoadA, 5) > 35`; it is `false` exactly when
`nominalVoltage ≤ 25`, the frozen current equals `maxLoadA` and the frozen voltage is the
quantised nominal voltage. -/
theorem setActiveBattery_clamped_flag (mods : List BatteryModule) (i : ℕ)
    (p : BatteryModule) (s : Globals) (hp : mods[i]? = some p) (hv : 0 < p.nominalVoltage) :
    ((setActiveBattery mods (i : Int) s).2.pendingWasClamped = true ↔
      (p.nominalVoltage > 25 ∨ p.maxLoadA > 5 ∨
        min p.nominalVoltage 25 * min p.maxLoadA 5 > 35)) ∧
    ((setActiveBattery mods (i : Int) s).2.pendingWasClamped = false ↔
      (p.nominalVoltage ≤ 25 ∧
        (setActiveBattery mods (i : Int) s).2.pendingOCP = p.maxLoadA ∧
        (setActiveBattery mods (i : Int) s).2.pendingOVP
          = roundf (p.nominalVoltage * 10) / 10)) := by
  rw [setActiveBattery_eq_queue mods i p s hp]
  exact ⟨clampRequest_clamped_iff p hv, clampRequest_unclamped_iff p hv⟩

/-- C33 (amended), at index 3 of the compiled-in table (nominal 4.20 V, maximum load 3 A):
nothing exceeds a limit, the flag is `false`, the frozen current is 3 and the frozen
voltage 4.2. -/
theorem setActiveBattery_clamped_flag_witness :
    (∃ p, batteryModules[3]? = some p ∧ 0 < p.nominalVoltage ∧
      p.nominalVoltage = (4.2 : ℚ) ∧ p.maxLoadA = 3) ∧
    (setActiveBattery batteryModules ((3 : ℕ) : Int) bootGlobals).2.pendingWasClamped = false ∧
    (setActiveBattery batteryModules ((3 : ℕ) : Int) bootGlobals).2.pendingOCP = 3 ∧
    (setActiveBattery batteryModules ((3 : ℕ) : Int) bootGlobals).2.pendingOVP = 4.2 := by
  have h := setActiveBattery_clamped_flag batteryModules 3 _ bootGlobals rfl
    (by norm_num [batteryModules])
  have hf : (setActiveBattery batteryModules ((3 : ℕ) : Int) bootGlobals).2.pendingWasClamped
      = false := by
    rw [← Bool.not_eq_true, h.1]
    norm_num [batteryModules]
  obtain ⟨_, h2, h3⟩ := h.2.mp hf
  refine ⟨⟨_, rfl, by norm_num [batteryModules], by norm_num [batteryModules],
    by norm_num [batteryModules]⟩, hf, ?_, ?_⟩
  · rw [h2]; norm_num [batteryModules]
  · rw [h3]; norm_num [batteryModules, roundf]

/-- C34: for a profile with positive nominal voltage and positive maximum load, the frozen
voltage times the frozen current is at most `35 + 0.05 * frozen current`, hence at most
35.25; the frozen power is that product. -/
theorem setActiveBattery_power_within_rounding (mods : List BatteryModule) (i : ℕ)
    (p : BatteryModule) (s : Globals) (hp : mods[i]? = some p) (hv : 0 < p.nominalVoltage)
    (hi : 0 < p.maxLoadA) :
    (setActiveBattery mods (i : Int) s).2.pendingOVP *
        (setActiveBattery mods (i : Int) s).2.pendingOCP
      ≤ 35.0 + 0.05 * (setActiveBattery mods (i : Int) s).2.pendingOCP ∧
    (setActiveBattery mods (i : Int) s).2.pendingOVP *
        (setActiveBattery mods (i : Int) s).2.pendingOCP ≤ 35.25 ∧
    (setActiveBattery mods (i : Int) s).2.pendingOPP
      = (setActiveBattery mods (i : Int) s).2.pendingOVP *
        (setActiveBattery mods (i : Int) s).2.pendingOCP := by
  rw [setActiveBattery_eq_queue mods i p s hp]
  have hm : 0 < min p.nominalVoltage 25 := lt_min hv (by norm_num)
  have hx : 0 ≤ min p.nominalVoltage 25 * 10 := by positivity
  have hV : (queueProfile p (i : Int)).pendingOVP
      = ((⌊min p.nominalVoltage 25 * 10 + 1 / 2⌋ : ℤ) : ℚ) / 10 := by
    show (clampRequest p).reqOVP = _
    rw [clampRequest_reqOVP, roundf_of_nonneg hx]
  have hI : (queueProfile p (i : Int)).pendingOCP
      = min (min p.maxLoadA 5) (35 / min p.nominalVoltage 25) := clampRequest_reqOCP p hv
  have hP : (queueProfile p (i : Int)).pendingOPP
      = (queueProfile p (i : Int)).pendingOVP * (queueProfile p (i : Int)).pendingOCP := rfl
  have h1 := Int.floor_le (min p.nominalVoltage 25 * 10 + 1 / 2)
  have hI0 : 0 ≤ min (min p.maxLoadA 5) (35 / min p.nominalVoltage 25) :=
    le_min (le_min (le_of_lt hi) (by norm_num)) (by positivity)
  have hI5 : min (min p.maxLoadA 5) (35 / min p.nominalVoltage 25) ≤ 5 :=
    le_trans (min_le_left _ _) (min_le_right _ _)
  have hIV : min p.nominalVoltage 25 * min (min p.maxLoadA 5) (35 / min p.nominalVoltage 25)
      ≤ 35 := by
    have := min_le_right (min p.maxLoadA 5) (35 / min p.nominalVoltage 25)
    rw [le_div_iff₀ hm] at this
    linarith
  rw [hP, hV, hI]
  generalize min p.nominalVoltage 25 = v at h1 hIV hI0 hI5 ⊢
  generalize min (min p.maxLoadA 5) (35 / v) = c at hI0 hI5 hIV ⊢
  have hq : ((⌊v * 10 + 1 / 2⌋ : ℤ) : ℚ) / 10 ≤ v + 1 / 20 := by
    linarith
  have hmul := mul_le_mul_of_nonneg_right hq hI0
  refine ⟨?_, ?_, rfl⟩
  · norm_num
    linarith
  · norm_num
    linarith

/-- C34, at the 24.26 V pack `samplePack2426`: the frozen product is 42525/1213, above 35
and below the bound. -/
theorem setActiveBattery_power_within_rounding_witness :
    [samplePack2426][0]? = some samplePack2426 ∧ 0 < samplePack2426.nominalVoltage ∧
    0 < samplePack2426.maxLoadA ∧
    (setActiveBattery [samplePack2426] ((0 : ℕ) : Int) bootGlobals).2.pendingOVP *
        (setActiveBattery [samplePack2426] ((0 : ℕ) : Int) bootGlobals).2.pendingOCP
      ≤ 35.0 + 0.05 *
        (setActiveBattery [samplePack2426] ((0 : ℕ) : Int) bootGlobals).2.pendingOCP ∧
    (setActiveBattery [samplePack2426] ((0 : ℕ) : Int) bootGlobals).2.pendingOVP *
        (setActiveBattery [samplePack2426] ((0 : ℕ) : Int) bootGlobals).2.pendingOCP
      ≤ 35.25 :=
  ⟨rfl, by norm_num [samplePack2426], by norm_num [samplePack2426],
    (setActiveBattery_power_within_rounding [samplePack2426] 0 samplePack2426 bootGlobals rfl
      (by norm_num [samplePack2426]) (by norm_num [samplePack2426])).1,
    (setActiveBattery_power_within_rounding [samplePack2426] 0 samplePack2426 bootGlobals rfl
      (by norm_num [samplePack2426]) (by norm_num [samplePack2426])).2.1⟩

/-! ## Transmission bounds -/

theorem attempts_sum_bounds (ms : List ℕ) (h : ∀ m ∈ ms, 1 ≤ m ∧ m ≤ 3) :
    ms.length ≤ ms.sum ∧ ms.sum ≤ 3 * ms.length := by
  induction ms with
  | nil => simp
  | cons m rest ih =>
    have hm := h m (List.mem_cons_self m rest)
    have hr := ih (fun x hx => h x (List.mem_cons_of_mem m hx))
    simp only [List.length_cons, List.sum_cons]
    omega

theorem zipWith_attemptFrames_length (vs : List String) (ms : List ℕ)
    (h : ms.length ≤ vs.length) :
    (List.zipWith attemptFrames vs ms).flatten.length = ms.sum := by
  induction vs generalizing ms with
  | nil =>
    have : ms = [] := List.length_eq_zero.mp (by simpa using h)
    subst this
    simp
  | cons v rest ih =>
    cases ms with
    | nil => simp
    | cons m ms =>
      have h2 : ms.length ≤ rest.length := by simpa using h
      simp [attemptFrames_length, ih ms h2]

theorem buildVariants_take_length (key value : String) :
    ((buildVariants key value).variants.take (buildVariants key value).count).length ≤ 4 ∧
    (buildVariants key value).variants.take (buildVariants key value).count ≠ [] := by
  rw [buildVariants_take]
  constructor
  · split_ifs <;> simp
  · simp

theorem sendParamVariants_sent (key value : String) (l : Link) :
    ∃ n, 1 ≤ n ∧ n ≤ 12 ∧ ∃ frames : List Frame, frames.length = n ∧
      (sendParamVariants key value l).2.sent = l.sent ++ frames := by
  obtain ⟨hlen, hne⟩ := buildVariants_take_length key value
  obtain ⟨ms, hms, h1, hall, hs⟩ := tryVariants_sent
    ((buildVariants key value).variants.take (buildVariants key value).count) l
  obtain ⟨hlo, hhi⟩ := attempts_sum_bounds ms hall
  have hone := h1 hne
  refine ⟨ms.sum, by omega, by omega, _, zipWith_attemptFrames_length _ ms hms, ?_⟩
  unfold sendParamVariants
  exact hs

theorem processPendingBattery_sent (g : Globals) (l : Link) (h : 0 ≤ g.pendingBatteryIdx) :
    ∃ n, 9 ≤ n ∧ n ≤ 32 ∧ ∃ frames : List Frame, frames.length = n ∧
      (processPendingBattery g l).link.sent = l.sent ++ frames := by
  rw [processPendingBattery_link g l h]
  have hc6 : [g.TEST_LOAD ++ "A", "OCP:" ++ stringOfFloat g.pendingOCP 2,
      "OPP:" ++ stringOfFloat g.pendingOPP 2, "LVP:" ++ stringOfFloat g.pendingLVP 1,
      "OAH:" ++ stringOfFloat g.pendingOAH 3, "OHP:" ++ g.pendingOHP].length = 6 := rfl
  generalize [g.TEST_LOAD ++ "A", "OCP:" ++ stringOfFloat g.pendingOCP 2,
      "OPP:" ++ stringOfFloat g.pendingOPP 2, "LVP:" ++ stringOfFloat g.pendingLVP 1,
      "OAH:" ++ stringOfFloat g.pendingOAH 3, "OHP:" ++ g.pendingOHP] = cmds at hc6 ⊢
  obtain ⟨ms, hlen, hall, hs⟩ := sendEach_sent cmds (sendCommandNoNL "stop" l)
  obtain ⟨nV, hV1, hV12, fV, hfV, hsV⟩ := sendParamVariants_sent "OVP"
    (stringOfFloat g.pendingOVP 1) (sendEach cmds (sendCommandNoNL "stop" l))
  obtain ⟨hlo, hhi⟩ := attempts_sum_bounds ms hall
  have hz := zipWith_attemptFrames_length cmds ms (le_of_eq hlen)
  refine ⟨1 + ms.sum + nV + 1, by omega, by omega,
    [⟨"stop", false⟩] ++ (List.zipWith attemptFrames cmds ms).flatten ++ fV
      ++ [⟨"start", false⟩], ?_, ?_⟩
  · simp only [List.length_append, List.length_cons, List.length_nil, hz, hfV]
  · show ((sendParamVariants "OVP" (stringOfFloat g.pendingOVP 1) _).2.sent ++ [_]) = _
    rw [hsV, hs]
    simp only [sendCommandNoNL, Link.write, List.append_assoc]

/-- C35: whatever the device answers, `sendCommandWithConfirm` writes between 1 and 3
frames, `sendParamVariants` between 1 and 12, and one `processPendingBattery` with a
non-empty slot between 9 and 32; the frames written before are left as they were. -/
theorem transmissions_bounded (cmd key value : String) (g : Globals) (l : Link)
    (h : 0 ≤ g.pendingBatteryIdx) :
    (∃ n, 1 ≤ n ∧ n ≤ 3 ∧ ∃ frames : List Frame, frames.length = n ∧
      (sendCommandWithConfirm cmd l).2.sent = l.sent ++ frames) ∧
    (((buildVariants key value).variants.take (buildVariants key value).count).length ≤ 4 ∧
      ∃ n, 1 ≤ n ∧ n ≤ 12 ∧ ∃ frames : List Frame, frames.length = n ∧
        (sendParamVariants key value l).2.sent = l.sent ++ frames) ∧
    (∃ n, 9 ≤ n ∧ n ≤ 32 ∧ ∃ frames : List Frame, frames.length = n ∧
      (processPendingBattery g l).link.sent = l.sent ++ frames) := by
  refine ⟨?_, ⟨(buildVariants_take_length key value).1, sendParamVariants_sent key value l⟩,
    processPendingBattery_sent g l h⟩
  obtain ⟨m, h1, h3, hs⟩ := sendCommandWithConfirm_sent cmd l
  exact ⟨m, h1, h3, _, attemptFrames_length cmd m, hs⟩


set_option maxRecDepth 100000 in
/-- C35, evaluated on the queued index-0 record: the bounds hold on a silent device, where
each of them is reached from above (3, 12 and 32 frames), and a device that confirms every
command at once gets the 9 frames of the lower bound. -/
theorem transmissions_bounded_witness :
    0 ≤ queuedGeneric24.pendingBatteryIdx ∧
    (∃ n, 9 ≤ n ∧ n ≤ 32 ∧ ∃ frames : List Frame, frames.length = n ∧
      (processPendingBattery queuedGeneric24 ⟨[], []⟩).link.sent = [] ++ frames) ∧
    (sendCommandWithConfirm "OCP:1.45" ⟨[], []⟩).2.sent.length = 3 ∧
    (sendParamVariants "OVP" "24.2" ⟨[], []⟩).2.sent.length = 12 ∧
    (processPendingBattery queuedGeneric24 ⟨[], []⟩).link.sent.length = 32 ∧
    (processPendingBattery queuedGeneric24
      ⟨[], ["ok", "ok", "ok", "ok", "ok", "ok", "ok"]⟩).link.sent.length = 9 := by
  refine ⟨by decide,
    (transmissions_bounded "OCP:1.45" "OVP" "24.2" queuedGeneric24 ⟨[], []⟩ (by decide)).2.2,
    by decide, ?_, ?_, ?_⟩
  · rw [sendParamVariants_OVP_24_2]
    decide
  · rw [processPendingBattery_queued_link]
    decide
  · rw [processPendingBattery_queued_link]
    decide

end FZ35
